import Mathlib

/-!
# Galois: global pointers, resolve, allocator factory, messages, graph, PageRank

A shallow embedding of parts of the Galois runtime together with theorems about
them:

* `exp/include/Galois/Runtime/DistSupport.h`: `gptr<T>`, `resolve`, `transientAcquire`;
* `src/mm/Mem.cpp`: `SizedAllocatorFactory::getAllocatorForSize` and `largeAlloc`;
* `exp/include/Galois/Runtime/Network.h`: `genericLandingPad`, `sendAlt`, `broadcastAlt`,
  `ObjectRecord`;
* `exp/include/Galois/Graphs/Graph3.h`: edge iteration, `addEdge`, `addNode` and
  `removeNode` of `ThirdGraph`;
* `exp/apps/pagerank/PageRank.cpp`: `TopPair`, `printTop`, `SerialAlgo::operator()`,
  `PullAlgo`.

Conventions of the embedding.

* A raw pointer `T*` is its address, a natural number; `0` is the null pointer.
  A host id (`uint32_t`) is a natural number below `2^32`.
* The functions of `DistSupport.h` call into headers that are not among the
  sources (`Context.h`, `Directory.h`, `Serialize.h`).  The embedded functions take
  these operations as the fields of a record `Sys σ` over an arbitrary state
  type `σ`; every operation maps a state to a result and a new state, so that
  an operation may also account for what other threads and hosts did in the
  meantime.
* A computation runs over a `World`: the state and the chronological log of
  the calls it made.  A `while` loop whose exit depends on other threads takes
  a budget of iterations; running out of it is the outcome `spin` (the caller
  is still waiting).
* Library operations (`operator new`, `malloc`, `std::map`, `std::multimap`,
  `boost::filter_iterator`) follow their documented behaviour; what they return
  is a parameter where it is not determined.
* In `Graph3.h` every `N->` on a node handle is `gptr::operator->`, that is
  `resolve`: the graph operations are computations over the runtime, and the
  node objects are kept by address.  A theorem on an operation that has to
  return names the handles whose dereference returns (`Resolves`).
* Floating-point arithmetic is not interpreted: the algorithms of `PageRank.cpp`
  take the operations on `float` and `double` as the fields of a record
  `FloatOps F`.  A rank value compared by `TopPair` is a NaN or a number of a
  totally ordered type, and `==` and `<` are false on a NaN.
-/

namespace Galois

/-! ## Definitions -/

/-- Address held by a raw pointer `T*`; `0` is the null pointer. -/
abbrev Addr := Nat

/-- Host identifier (`uint32_t networkHostID`). -/
abbrev HostId := Nat

/-- Typed global pointer `gptr<T>` (DistSupport.h, lines 143-156):
`T* ptr; uint32_t owner;`. -/
structure gptr where
  ptr : Addr
  owner : HostId
deriving DecidableEq, Repr

/-- Default constructor `gptr() : ptr(0), owner(0)` (line 160). -/
def gptr.mkNull : gptr := ⟨0, 0⟩

/-- Constructor `explicit gptr(T* p) : ptr(p), owner(networkHostID)` (line 161). -/
def gptr.ofRaw (networkHostID : HostId) (p : Addr) : gptr := ⟨p, networkHostID⟩

/-- Comparison `operator==`: `rhs.ptr == ptr && rhs.owner == owner` (lines 196-198). -/
def gptr.operator_eq (self rhs : gptr) : Bool :=
  decide (rhs.ptr = self.ptr) && decide (rhs.owner = self.owner)

/-- Comparison `operator!=`: `rhs.ptr != ptr || rhs.owner != owner` (lines 199-201). -/
def gptr.operator_ne (self rhs : gptr) : Bool :=
  decide (rhs.ptr ≠ self.ptr) || decide (rhs.owner ≠ self.owner)

/-- Method `isLocal()`: `owner == networkHostID` (lines 204-206). -/
def gptr.isLocal (networkHostID : HostId) (self : gptr) : Bool :=
  decide (self.owner = networkHostID)

/-- Method `sameHost(rhs)`: `owner == rhs.owner` (lines 208-210). -/
def gptr.sameHost (self rhs : gptr) : Bool :=
  decide (self.owner = rhs.owner)

/-! ### Serialization buffers -/

/-- Send buffer (`SerializeBuffer`): the bytes written so far. -/
abbrev SerializeBuffer := List Nat

/-- Receive buffer (`DeSerializeBuffer`): the received bytes and the read offset. -/
structure DeSerializeBuffer where
  bufdata : List Nat
  offset : Nat
deriving DecidableEq, Repr

/-- The receive buffer a host builds from the bytes of a message. -/
def DeSerializeBuffer.ofBytes (bytes : List Nat) : DeSerializeBuffer := ⟨bytes, 0⟩

/-- Little-endian bytes of `v`, `width` of them. -/
def bytesLE : Nat → Nat → List Nat
  | 0, _ => []
  | width + 1, v => (v % 256) :: bytesLE width (v / 256)

/-- Value of a little-endian byte sequence. -/
def valueLE : List Nat → Nat
  | [] => 0
  | b :: bs => b + 256 * valueLE bs

/-- Modelled from the spec: `gSerialize` of `Serialize.h` for one primitive value
of `width` bytes.  The spec calls the wire format "a flat, type-directed
encode/decode (primitives, then pointers as (owner,address) pairs ...)": the
value's bytes are appended to the buffer. -/
def gSerializePrim (width : Nat) (s : SerializeBuffer) (v : Nat) : SerializeBuffer :=
  s ++ bytesLE width v

/-- Modelled from the spec: `gDeserialize` of `Serialize.h` for one primitive value
of `width` bytes: the next `width` bytes at the read offset are decoded and the
offset advances; `none` when the buffer holds fewer bytes. -/
def gDeserializePrim (width : Nat) (s : DeSerializeBuffer) : Option (Nat × DeSerializeBuffer) :=
  if s.offset + width ≤ s.bufdata.length then
    some (valueLE ((s.bufdata.drop s.offset).take width), ⟨s.bufdata, s.offset + width⟩)
  else none

/-- Width in bytes of a raw pointer `T*`. -/
def ptrWidth : Nat := 8

/-- Width in bytes of `uint32_t`. -/
def ownerWidth : Nat := 4

/-- Method `serialize`: `gSerialize(s, ptr, owner)` (lines 219-221); the variadic
`gSerialize` writes its arguments from left to right. -/
def gptr.serialize (self : gptr) (s : SerializeBuffer) : SerializeBuffer :=
  gSerializePrim ownerWidth (gSerializePrim ptrWidth s self.ptr) self.owner

/-- Method `deserialize`: `gDeserialize(s, ptr, owner)` (lines 222-224); both
fields of the receiving object are overwritten, from left to right. -/
def gptr.deserialize (_self : gptr) (s : DeSerializeBuffer) : Option (gptr × DeSerializeBuffer) :=
  match gDeserializePrim ptrWidth s with
  | none => none
  | some (p, s1) =>
    match gDeserializePrim ownerWidth s1 with
    | none => none
    | some (o, s2) => some (⟨p, o⟩, s2)

/-! ### The runtime interface used by `DistSupport.h` -/

/-- Runtime contexts that can own a `Lockable` object (`SimpleRuntimeContext`):
the Local Directory (`&getSystemLocalDirectory()`), the transient context
(`getTransCnx()`), and the context of a worker thread inside a parallel loop. -/
inductive Cnx where
  | localDirectory
  | transCnx
  | worker (tid : Nat)
deriving DecidableEq, Repr

/-- Conflict signals thrown by `resolve`: `remote_ex{ptr, owner, rptr}` and
`conflict_ex{ptr}`. -/
inductive Signal where
  | remote_ex (ptr : Addr) (owner : HostId) (rptr : Addr)
  | conflict_ex (ptr : Addr)
deriving DecidableEq, Repr

/-- Calls into the runtime made by the code of `DistSupport.h`, with their results
(the code discards the result of `handleReceives`). -/
inductive Event where
  | acquire (ptr : Addr) (ok : Bool)
  | isAcquired (ptr : Addr) (res : Bool)
  | isAcquiredBy (ptr : Addr) (c : Cnx) (res : Bool)
  | recallLocal (owner : HostId) (ptr : Addr)
  | remoteResolve (owner : HostId) (ptr : Addr) (rptr : Addr)
  | try_acquire (ptr : Addr) (ok : Bool)
  | release (ptr : Addr)
  | handleReceives
deriving DecidableEq, Repr

/-- The operations `DistSupport.h` uses and does not define.

* `networkHostID`, `getTID`: the current host id and `LL::getTID()` of the caller;
* `NDEBUG`: whether `assert` is compiled out;
* `inGaloisForEach`: the flag telling whether the caller is inside a parallel loop;
* `acquire ptr`: `acquire(ptr, MethodFlag::ALL)`; the result is `false` when the
  call throws (the code catches it with `catch (...)`);
* `isAcquired`, `isAcquiredBy`: the tests of `Context.h`;
* `recallLocal`: `getSystemLocalDirectory().recall<T>(make_pair(owner, ptr))`;
* `remoteResolve`: `getSystemRemoteDirectory().resolve<T>(make_pair(owner, ptr))`;
* `try_acquire`, `release`: `getTransCnx().try_acquire(ptr)` and `.release(ptr)`;
* `handleReceives`: `getSystemNetworkInterface().handleReceives()`. -/
structure Sys (σ : Type) where
  networkHostID : HostId
  getTID : Nat
  NDEBUG : Bool
  inGaloisForEach : σ → Bool
  acquire : Addr → σ → Bool × σ
  isAcquired : Addr → σ → Bool × σ
  isAcquiredBy : Addr → Cnx → σ → Bool × σ
  recallLocal : HostId × Addr → σ → σ
  remoteResolve : HostId × Addr → σ → Addr × σ
  try_acquire : Addr → σ → Bool × σ
  release : Addr → σ → σ
  handleReceives : σ → Bool × σ

/-- How a call ends: it returns a value, throws a conflict signal, fails an
`assert`, or is still spinning in a loop when the iteration budget is used up. -/
inductive Outcome (α : Type) where
  | ret (v : α)
  | raise (e : Signal)
  | assertFail
  | spin
deriving DecidableEq, Repr

/-- The state of the runtime and the log of the calls made so far, oldest first. -/
structure World (σ : Type) where
  st : σ
  log : List Event
deriving DecidableEq, Repr

/-- Computations of the embedding. -/
def DistM (σ α : Type) : Type := World σ → Outcome α × World σ

/-- Sequencing: a throw, a failed assertion or a spinning loop ends the computation. -/
def DistM.bind {σ α β : Type} (m : DistM σ α) (f : α → DistM σ β) : DistM σ β :=
  fun w =>
    match m w with
    | (.ret v, w1) => f v w1
    | (.raise e, w1) => (.raise e, w1)
    | (.assertFail, w1) => (.assertFail, w1)
    | (.spin, w1) => (.spin, w1)

instance {σ : Type} : Monad (DistM σ) where
  pure v := fun w => (.ret v, w)
  bind := DistM.bind

/-- Statement `throw e`. -/
def raise {σ α : Type} (e : Signal) : DistM σ α := fun w => (.raise e, w)

/-- A failed `assert`. -/
def assertFail {σ α : Type} : DistM σ α := fun w => (.assertFail, w)

/-- A loop that used up its iteration budget. -/
def spin {σ α : Type} : DistM σ α := fun w => (.spin, w)

/-- Reads the flag `inGaloisForEach`. -/
def inGaloisForEach {σ : Type} (S : Sys σ) : DistM σ Bool :=
  fun w => (.ret (S.inGaloisForEach w.st), w)

/-- Call `acquire(ptr, MethodFlag::ALL)` inside `try`: the result tells whether it returned. -/
def acquire {σ : Type} (S : Sys σ) (ptr : Addr) : DistM σ Bool :=
  fun w => (.ret (S.acquire ptr w.st).1,
    ⟨(S.acquire ptr w.st).2, w.log ++ [.acquire ptr (S.acquire ptr w.st).1]⟩)

/-- Call `isAcquired(ptr)`. -/
def isAcquired {σ : Type} (S : Sys σ) (ptr : Addr) : DistM σ Bool :=
  fun w => (.ret (S.isAcquired ptr w.st).1,
    ⟨(S.isAcquired ptr w.st).2, w.log ++ [.isAcquired ptr (S.isAcquired ptr w.st).1]⟩)

/-- Call `isAcquiredBy(ptr, c)`. -/
def isAcquiredBy {σ : Type} (S : Sys σ) (ptr : Addr) (c : Cnx) : DistM σ Bool :=
  fun w => (.ret (S.isAcquiredBy ptr c w.st).1,
    ⟨(S.isAcquiredBy ptr c w.st).2,
      w.log ++ [.isAcquiredBy ptr c (S.isAcquiredBy ptr c w.st).1]⟩)

/-- Call `getSystemLocalDirectory().recall<T>(make_pair(owner, ptr))`. -/
def recallLocal {σ : Type} (S : Sys σ) (key : HostId × Addr) : DistM σ Unit :=
  fun w => (.ret (), ⟨S.recallLocal key w.st, w.log ++ [.recallLocal key.1 key.2]⟩)

/-- Call `getSystemRemoteDirectory().resolve<T>(make_pair(owner, ptr))`. -/
def remoteResolve {σ : Type} (S : Sys σ) (key : HostId × Addr) : DistM σ Addr :=
  fun w => (.ret (S.remoteResolve key w.st).1,
    ⟨(S.remoteResolve key w.st).2,
      w.log ++ [.remoteResolve key.1 key.2 (S.remoteResolve key w.st).1]⟩)

/-- Call `getTransCnx().try_acquire(ptr)`. -/
def try_acquire {σ : Type} (S : Sys σ) (ptr : Addr) : DistM σ Bool :=
  fun w => (.ret (S.try_acquire ptr w.st).1,
    ⟨(S.try_acquire ptr w.st).2, w.log ++ [.try_acquire ptr (S.try_acquire ptr w.st).1]⟩)

/-- Call `getTransCnx().release(ptr)`. -/
def release {σ : Type} (S : Sys σ) (ptr : Addr) : DistM σ Unit :=
  fun w => (.ret (), ⟨S.release ptr w.st, w.log ++ [.release ptr]⟩)

/-- Call `getSystemNetworkInterface().handleReceives()`. -/
def handleReceives {σ : Type} (S : Sys σ) : DistM σ Bool :=
  fun w => (.ret (S.handleReceives w.st).1,
    ⟨(S.handleReceives w.st).2, w.log ++ [.handleReceives]⟩)

/-- Statement `if (!LL::getTID()) getSystemNetworkInterface().handleReceives();`. -/
def pollNetwork {σ : Type} (S : Sys σ) : DistM σ Unit := do
  if S.getTID = 0 then
    let _ ← handleReceives S
    pure ()
  else
    pure ()

/-! ### `resolve` -/

/-- Loop `while (isAcquiredBy(ptr, &getSystemLocalDirectory())) {}` (line 65). -/
def whileAcquiredByLocalDirectory {σ : Type} (S : Sys σ) (ptr : Addr) : Nat → DistM σ Unit
  | 0 => spin
  | fuel + 1 => do
    let held ← isAcquiredBy S ptr Cnx.localDirectory
    if held then
      whileAcquiredByLocalDirectory S ptr fuel
    else
      pure ()

/-- Loop `while (isAcquired(rptr)) { if (!LL::getTID()) ...handleReceives(); }`
(lines 77-80). -/
def whileAcquired {σ : Type} (S : Sys σ) (rptr : Addr) : Nat → DistM σ Unit
  | 0 => spin
  | fuel + 1 => do
    let held ← isAcquired S rptr
    if held then
      pollNetwork S
      whileAcquired S rptr fuel
    else
      pure ()

/-- Function `resolve_dispatch<T,false>::go(owner, ptr)` (lines 45-84);
`fuel` bounds the iterations of its two `while` loops. -/
def resolve_dispatch.go {σ : Type} (S : Sys σ) (fuel : Nat) (owner : HostId) (ptr : Addr) :
    DistM σ Addr := do
  if owner = S.networkHostID then
    let inLoop ← inGaloisForEach S
    if inLoop then
      let ok ← acquire S ptr
      if !ok then
        -- catch (...)
        recallLocal S (owner, ptr)
        let byDir ← isAcquiredBy S ptr Cnx.localDirectory
        if byDir then
          raise (Signal.remote_ex ptr owner ptr)
        else
          raise (Signal.conflict_ex ptr)
    else
      let held ← isAcquired S ptr
      if held then
        recallLocal S (owner, ptr)
        whileAcquiredByLocalDirectory S ptr fuel
    return ptr
  else
    let rptr ← remoteResolve S (owner, ptr)
    let inLoop ← inGaloisForEach S
    if inLoop then
      let ok ← acquire S rptr
      if !ok then
        -- catch (...)
        raise (Signal.remote_ex rptr owner ptr)
    else
      whileAcquired S rptr fuel
    return rptr

/-- Function `resolve(p)` (lines 88-95): `assert(p.ptr)`, then the dispatch. -/
def resolve {σ : Type} (S : Sys σ) (fuel : Nat) (p : gptr) : DistM σ Addr := do
  if p.ptr = 0 then
    if !S.NDEBUG then
      assertFail
  resolve_dispatch.go S fuel p.owner p.ptr

/-- Operator `operator->`: `return resolve(*this)` (lines 182-184). -/
def gptr.operator_arrow {σ : Type} (S : Sys σ) (fuel : Nat) (self : gptr) : DistM σ Addr :=
  resolve S fuel self

/-- Operator `operator*`: `return *resolve(*this)` (lines 179-181); the reference
it returns is identified with the address of the object it denotes. -/
def gptr.operator_star {σ : Type} (S : Sys σ) (fuel : Nat) (self : gptr) : DistM σ Addr := do
  let a ← resolve S fuel self
  return a

/-! ### Transient acquisition -/

/-- Local branch of `transientAcquire` (lines 100-105):
`while (!try_acquire(p.ptr)) { recall; if (!getTID()) handleReceives(); } return p.ptr;`. -/
def transientAcquire.localLoop {σ : Type} (S : Sys σ) (p : gptr) : Nat → DistM σ Addr
  | 0 => spin
  | fuel + 1 => do
    let ok ← try_acquire S p.ptr
    if !ok then
      recallLocal S (p.owner, p.ptr)
      pollNetwork S
      transientAcquire.localLoop S p fuel
    else
      return p.ptr

/-- Remote branch of `transientAcquire` (lines 107-114):
`do { rptr = resolve(...); if (try_acquire(rptr)) return rptr;
if (!getTID()) handleReceives(); } while (true);`. -/
def transientAcquire.remoteLoop {σ : Type} (S : Sys σ) (p : gptr) : Nat → DistM σ Addr
  | 0 => spin
  | fuel + 1 => do
    let rptr ← remoteResolve S (p.owner, p.ptr)
    let ok ← try_acquire S rptr
    if ok then
      return rptr
    else
      pollNetwork S
      transientAcquire.remoteLoop S p fuel

/-- Function `transientAcquire(p)` (lines 97-116). -/
def transientAcquire {σ : Type} (S : Sys σ) (fuel : Nat) (p : gptr) : DistM σ Addr :=
  if p.owner = S.networkHostID then
    transientAcquire.localLoop S p fuel
  else
    transientAcquire.remoteLoop S p fuel

/-! ### Shapes of logs -/

/-- The events of `k` consecutive iterations that each log `block`. -/
def rounds (block : List Event) : Nat → List Event
  | 0 => []
  | k + 1 => block ++ rounds block k

/-- The events of `if (!LL::getTID()) handleReceives();`. -/
def networkPoll {σ : Type} (S : Sys σ) : List Event :=
  if S.getTID = 0 then [Event.handleReceives] else []

/-- The events of failed iterations of the remote loop of `transientAcquire`, one
for each proxy address the Remote Directory returned. -/
def failedRemoteRounds {σ : Type} (S : Sys σ) (p : gptr) : List Addr → List Event
  | [] => []
  | r :: rs =>
    [Event.remoteResolve p.owner p.ptr r, Event.try_acquire r false] ++ networkPoll S ++
      failedRemoteRounds S p rs

/-! ### A model of one host

The headers `Context.h` and `Directory.h` are not among the sources.  The
definitions of this section give the operations of `Sys` a concrete meaning,
following the spec (sections 3, 4.2, 4.3, 4.4 and 4.5); they provide the
concrete runs of the theorems below. -/

/-- Requests a host sends to another one. -/
inductive Request where
  | recallReq (dest : HostId) (ptr : Addr)
  | fetchReq (owner : HostId) (ptr : Addr)
deriving DecidableEq, Repr

/-- Inbound messages: a remote host gives a recalled object back. -/
inductive Msg where
  | objectReturned (ptr : Addr)
deriving DecidableEq, Repr

/-- What another thread or host does between two calls of the observed thread. -/
inductive EnvAction where
  | idle
  | lock (ptr : Addr) (c : Cnx)
  | unlock (ptr : Addr)
  | deliver (m : Msg)
deriving DecidableEq, Repr

/-- Modelled from the spec: the state of one host, standing for `Context.h`
(`Lockable`, section 3) and `Directory.h` (sections 4.2, 4.3).

* `owners`: for each `Lockable` object, by address, the context that has
  acquired it; an object without entry is free;
* `inForEach`: the flag `inGaloisForEach`;
* `cached`: Local Directory, the locally-owned objects whose proxy a remote host caches;
* `proxies`, `nextProxy`: Remote Directory, the proxy of each key `(owner, address)`
  and the address of the next proxy to create;
* `sent`: the requests sent over the network; `inbox`: the messages not yet handled;
* `sched`: the actions of the other threads and hosts still to come. -/
structure Host where
  owners : List (Addr × Cnx)
  inForEach : Bool
  cached : List (Addr × HostId)
  proxies : List ((HostId × Addr) × Addr)
  nextProxy : Addr
  sent : List Request
  inbox : List Msg
  sched : List EnvAction
deriving DecidableEq, Repr

/-- Modelled from the spec: the owner word of a `Lockable` (`Context.h`, section 3):
the context that has acquired the object at `ptr`, if any. -/
def Host.ownerOf (s : Host) (ptr : Addr) : Option Cnx := s.owners.lookup ptr

/-- Modelled from the spec: release of a `Lockable` (`Context.h`): the object at
`ptr` becomes free. -/
def Host.unlock (s : Host) (ptr : Addr) : Host :=
  { s with owners := s.owners.filter (fun e => e.1 != ptr) }

/-- Modelled from the spec: acquisition of a `Lockable` (`Context.h`, section 3):
context `c` acquires the object at `ptr` if it is free or already its own, "an
object is acquired by at most one transactional context at a time". -/
def Host.lock (s : Host) (ptr : Addr) (c : Cnx) : Bool × Host :=
  match s.ownerOf ptr with
  | none => (true, { s with owners := (ptr, c) :: s.owners })
  | some c1 => (decide (c1 = c), s)

/-- Modelled from the spec: the landing pad of an inbound message (`Directory.h`,
section 4.2): a returned object is no longer cached remotely and the Local
Directory lets go of it. -/
def Host.dispatch (s : Host) : Msg → Host
  | .objectReturned ptr =>
    if s.ownerOf ptr = some Cnx.localDirectory then
      { s.unlock ptr with cached := s.cached.filter (fun e => e.1 != ptr) }
    else
      { s with cached := s.cached.filter (fun e => e.1 != ptr) }

/-- One action of the environment. -/
def Host.env (s : Host) : EnvAction → Host
  | .idle => s
  | .lock ptr c => (s.lock ptr c).2
  | .unlock ptr => s.unlock ptr
  | .deliver m => { s with inbox := s.inbox ++ [m] }

/-- The environment performs its next scheduled action, if any. -/
def Host.tick (s : Host) : Host :=
  match s.sched with
  | [] => s
  | a :: rest => { s with sched := rest }.env a

/-- Modelled from the spec: `LocalDirectory::recall` of `Directory.h` (section 4.2):
"broadcasts a request to whichever remote host currently caches the object's
proxy, instructing it to release/invalidate its cache entry ... recalling an
object with no remote cache entry is a no-op". -/
def Host.recall (s : Host) (key : HostId × Addr) : Host :=
  match s.cached.lookup key.2 with
  | none => s
  | some h => { s with sent := s.sent ++ [Request.recallReq h key.2] }

/-- Modelled from the spec: `RemoteDirectory::resolve` of `Directory.h` (section 4.3):
"look up or lazily create a local proxy object keyed by (owner, address).  If
absent, send a fetch/resolve message to the owner". -/
def Host.resolveRemote (s : Host) (key : HostId × Addr) : Addr × Host :=
  match s.proxies.lookup key with
  | some rptr => (rptr, s)
  | none =>
    (s.nextProxy,
      { s with proxies := (key, s.nextProxy) :: s.proxies,
               nextProxy := s.nextProxy + 1,
               sent := s.sent ++ [Request.fetchReq key.1 key.2] })

/-- Modelled from the spec: `handleReceives` (section 4.5): "drains and dispatches
pending inbound messages on the calling thread, returns whether any message was
processed". -/
def Host.handleReceives (s : Host) : Bool × Host :=
  (!s.inbox.isEmpty, s.inbox.foldl Host.dispatch { s with inbox := [] })

/-- Modelled from the spec: the operations of `Context.h`, `Directory.h` and the
network interface on the model of one host, for the thread `tid` of host
`hostId` whose own context is `me`.  Before each call the environment performs
its next scheduled action.  Inside a parallel loop `acquire` fails (throws) when
another context holds the object (section 4.4); `try_acquire` tells the same by
its result. -/
def hostSys (hostId tid : Nat) (me : Cnx) (ndebug : Bool) : Sys Host where
  networkHostID := hostId
  getTID := tid
  NDEBUG := ndebug
  inGaloisForEach := fun s => s.inForEach
  acquire := fun ptr s => s.tick.lock ptr me
  isAcquired := fun ptr s => ((s.tick.ownerOf ptr).isSome, s.tick)
  isAcquiredBy := fun ptr c s => (decide (s.tick.ownerOf ptr = some c), s.tick)
  recallLocal := fun key s => s.tick.recall key
  remoteResolve := fun key s => s.tick.resolveRemote key
  try_acquire := fun ptr s => s.tick.lock ptr Cnx.transCnx
  release := fun ptr s =>
    if s.tick.ownerOf ptr = some Cnx.transCnx then s.tick.unlock ptr else s.tick
  handleReceives := fun s => s.tick.handleReceives

/-- A host on which nothing is acquired, cached or pending. -/
def Host.quiet : Host :=
  { owners := [], inForEach := false, cached := [], proxies := [], nextProxy := 1000,
    sent := [], inbox := [], sched := [] }

/-- A host whose only acquired object is the one at `ptr`, held by context `c`. -/
def Host.heldBy (ptr : Addr) (c : Cnx) (inLoop : Bool) : Host :=
  { Host.quiet with owners := [(ptr, c)], inForEach := inLoop }

/-- A host whose object at `ptr` is acquired by the Local Directory because host 2
caches its proxy; the Local Directory lets go of it before the fifth call of
the observed thread. -/
def Host.awaitingReturn (ptr : Addr) : Host :=
  { Host.quiet with
    owners := [(ptr, Cnx.localDirectory)], cached := [(ptr, 2)],
    sched := [EnvAction.idle, EnvAction.idle, EnvAction.idle, EnvAction.idle,
      EnvAction.unlock ptr] }

/-- Thread 0 of host 1, whose own context is that of worker 0; `assert` is active. -/
def exampleSys : Sys Host := hostSys 1 0 (Cnx.worker 0) false

/-- A pointer to the object at address 4096 of host 1. -/
def examplePtr : gptr := ⟨4096, 1⟩

/-- A pointer to the object at address 4096 of host 2. -/
def exampleRemotePtr : gptr := ⟨4096, 2⟩

/-- A host that already caches, at address `rptr`, the proxy of the remote object
`key`; the proxy is acquired by the context `c` until the environment frees it
before the third call of the observed thread. -/
def Host.withProxy (key : HostId × Addr) (rptr : Addr) (c : Cnx) (inLoop : Bool) : Host :=
  { Host.quiet with
    owners := [(rptr, c)], proxies := [(key, rptr)], inForEach := inLoop,
    sched := [EnvAction.idle, EnvAction.idle, EnvAction.unlock rptr] }

/-- A host whose object at `ptr` is acquired by the Local Directory because host 2
caches its proxy; the message that gives the object back arrives before the
third call of the observed thread. -/
def Host.lentOut (ptr : Addr) : Host :=
  { Host.quiet with
    owners := [(ptr, Cnx.localDirectory)], cached := [(ptr, 2)],
    sched := [EnvAction.idle, EnvAction.idle, EnvAction.deliver (Msg.objectReturned ptr)] }

/-- Host 1 caching at 5000 the proxy of the object `(2, 4096)`, acquired by worker 1,
outside any parallel loop. -/
def proxyHost : Host := Host.withProxy (2, 4096) 5000 (Cnx.worker 1) false

/-- The host `proxyHost` once the Remote Directory has been asked for the proxy. -/
def proxyHostAsked : Host :=
  { proxyHost with sched := [EnvAction.idle, EnvAction.unlock 5000] }

/-! ### Comparison and conversion operators of `gptr` -/

/-- Comparison `operator<`: `if (owner == rhs.owner) return ptr < rhs.ptr;
return owner < rhs.owner;` (lines 186-190). -/
def gptr.operator_lt (self rhs : gptr) : Bool :=
  if self.owner = rhs.owner then decide (self.ptr < rhs.ptr)
  else decide (self.owner < rhs.owner)

/-- Comparison `operator>`: `if (owner == rhs.owner) return ptr > rhs.ptr;
return owner > rhs.owner;` (lines 191-195). -/
def gptr.operator_gt (self rhs : gptr) : Bool :=
  if self.owner = rhs.owner then decide (self.ptr > rhs.ptr)
  else decide (self.owner > rhs.owner)

/-- Conversion `explicit operator bool()`: `ptr != 0` (line 202). -/
def gptr.operator_bool (self : gptr) : Bool :=
  decide (self.ptr ≠ 0)

/-! ### Member operations of `gptr` that are not comparisons -/

/-- Method `prefetch()` (lines 170-177): the body is guarded by `if (0)`. -/
def gptr.prefetch {σ : Type} (S : Sys σ) (self : gptr) : DistM σ Unit := do
  if false then
    if self.owner = S.networkHostID then
      recallLocal S (self.owner, self.ptr)
    else
      let _ ← remoteResolve S (self.owner, self.ptr)
      pure ()

/-- Method `initialize(T* p)` (lines 212-215): `ptr = p; owner = ptr ? networkHostID : 0;`. -/
def gptr.initialize (networkHostID : HostId) (_self : gptr) (p : Addr) : gptr :=
  ⟨p, if p ≠ 0 then networkHostID else 0⟩

/-- Method `dump(os)` (lines 226-228): `os << "[" << owner << "," << ptr << "]";`,
the two numbers written between the brackets. -/
def gptr.dump (self : gptr) : List Nat := [self.owner, self.ptr]

/-- The implicitly declared copy assignment `gptr& operator=(const gptr&)`: the
class declares no assignment operator, copy constructor or destructor of its
own, so the compiler provides the public memberwise one,
`ptr = rhs.ptr; owner = rhs.owner;`. -/
def gptr.operator_assign (_self rhs : gptr) : gptr := ⟨rhs.ptr, rhs.owner⟩

/-- The implicitly declared move assignment `gptr& operator=(gptr&&)`: memberwise
on a pointer and an integer, it copies both. -/
def gptr.operator_assign_move (_self rhs : gptr) : gptr := ⟨rhs.ptr, rhs.owner⟩

/-- The public member operations of `class gptr` (lines 157-229) that can be
called on a constructed object, with their arguments: the declared ones and
the two assignment operators the compiler provides. -/
inductive MemberOp where
  | prefetch
  | operator_star
  | operator_arrow
  | operator_lt (rhs : gptr)
  | operator_gt (rhs : gptr)
  | operator_eq (rhs : gptr)
  | operator_ne (rhs : gptr)
  | operator_bool
  | isLocal
  | sameHost (rhs : gptr)
  | init (p : Addr)
  | serialize (s : SerializeBuffer)
  | deserialize (s : DeSerializeBuffer)
  | dump
  | operator_assign (rhs : gptr)
  | operator_assign_move (rhs : gptr)
deriving DecidableEq, Repr

/-- What a member operation hands back to its caller: nothing, how a call into
the runtime ended, a truth value, the send buffer written, the receive buffer
read (`none` when it held too few bytes) or the numbers printed. -/
inductive MemberValue where
  | nothing
  | ended (o : Outcome Unit)
  | pointer (o : Outcome Addr)
  | bool (b : Bool)
  | written (s : SerializeBuffer)
  | read (s : Option DeSerializeBuffer)
  | printed (l : List Nat)
deriving DecidableEq, Repr

/-- A member call that has ended: the fields of the object it was called on, what
it handed back, and the runtime after it. -/
structure MemberCall (σ : Type) where
  self : gptr
  value : MemberValue
  world : World σ

/-- A call of a public member operation on the object `self`, run through the
embedded member function.  A member function declared `const` (`operator*`,
`operator->`, the comparisons, `operator bool`, `isLocal`, `sameHost`,
`serialize`, `dump`) works on the fields as they are and has no assignment to
them in its body; nor has `prefetch`.  `initialize`, `deserialize` and the two
assignment operators assign both fields; a `deserialize` that finds too few
bytes is taken to leave the fields as they are. -/
def gptr.call {σ : Type} (S : Sys σ) (fuel : Nat) (self : gptr) (op : MemberOp)
    (w : World σ) : MemberCall σ :=
  match op with
  | .prefetch => ⟨self, .ended (gptr.prefetch S self w).1, (gptr.prefetch S self w).2⟩
  | .operator_star =>
    ⟨self, .pointer (gptr.operator_star S fuel self w).1, (gptr.operator_star S fuel self w).2⟩
  | .operator_arrow =>
    ⟨self, .pointer (gptr.operator_arrow S fuel self w).1,
      (gptr.operator_arrow S fuel self w).2⟩
  | .operator_lt rhs => ⟨self, .bool (self.operator_lt rhs), w⟩
  | .operator_gt rhs => ⟨self, .bool (self.operator_gt rhs), w⟩
  | .operator_eq rhs => ⟨self, .bool (self.operator_eq rhs), w⟩
  | .operator_ne rhs => ⟨self, .bool (self.operator_ne rhs), w⟩
  | .operator_bool => ⟨self, .bool self.operator_bool, w⟩
  | .isLocal => ⟨self, .bool (gptr.isLocal S.networkHostID self), w⟩
  | .sameHost rhs => ⟨self, .bool (self.sameHost rhs), w⟩
  | .init p => ⟨ gptr.initialize S.networkHostID self p, .nothing, w⟩
  | .serialize s => ⟨self, .written (self.serialize s), w⟩
  | .deserialize s =>
    match gptr.deserialize self s with
    | some (g, s1) => ⟨g, .read (some s1), w⟩
    | none => ⟨self, .read none, w⟩
  | .dump => ⟨self, .printed self.dump, w⟩
  | .operator_assign rhs => ⟨self.operator_assign rhs, .nothing, w⟩
  | .operator_assign_move rhs => ⟨self.operator_assign_move rhs, .nothing, w⟩

/-! ### The allocator factory of `Mem.cpp` -/

/-- What `getAllocatorForSize` does to the factory lock and to the heap. -/
inductive FactoryEvent where
  | lock
  | unlock
  | create (size : Nat) (alloc : Addr)
deriving DecidableEq, Repr

/-- The factory `SizedAllocatorFactory` and the heap it allocates from.

* `lockHeld`: whether the member `lock` is held;
* `allocators`: the member `allocators`, as the partial function from the keys
  present to their values; its declaration is in `Mem.h`, and `Mem.cpp` uses it as
  a `std::map<size_t, SizedAlloc*>` (`allocators[size]`, `it->second`);
* `live`: the addresses of the objects alive on the heap;
* `trace`: the lock operations and the creations performed so far, oldest first. -/
structure SizedAllocatorFactory where
  lockHeld : Bool
  allocators : Nat → Option Addr
  live : List Addr
  trace : List FactoryEvent

/-- The expression `allocators[size]` of `std::map`: when the key is absent, an entry
with a null value is inserted. -/
def mapIndex (m : Nat → Option Addr) (size : Nat) : Nat → Option Addr :=
  fun k => if k = size then some ((m size).getD 0) else m k

/-- Assignment through the reference that `allocators[size]` returned. -/
def mapAssign (m : Nat → Option Addr) (size : Nat) (a : Addr) : Nat → Option Addr :=
  fun k => if k = size then some a else m k

/-- Function `SizedAllocatorFactory::getAllocatorForSize(size)` (Mem.cpp, lines 50-59):
`lock.lock(); SizedAlloc*& retval = allocators[size]; if (!retval) retval = new
SizedAlloc; lock.unlock(); return retval;`.  The address `new` returns is
`newAddr live`.  The result is `none` when the lock is held at the call: the
caller waits for another thread. -/
def SizedAllocatorFactory.getAllocatorForSize (newAddr : List Addr → Addr) (size : Nat)
    (f : SizedAllocatorFactory) : Option (Addr × SizedAllocatorFactory) :=
  if f.lockHeld then none
  else
    let f1 : SizedAllocatorFactory :=
      { f with lockHeld := true, trace := f.trace ++ [FactoryEvent.lock] }
    let f2 : SizedAllocatorFactory :=
      { f1 with allocators := mapIndex f1.allocators size }
    let f3 : SizedAllocatorFactory :=
      if (f2.allocators size).getD 0 = 0 then
        { f2 with
          allocators := mapAssign f2.allocators size (newAddr f2.live),
          live := newAddr f2.live :: f2.live,
          trace := f2.trace ++ [FactoryEvent.create size (newAddr f2.live)] }
      else f2
    let f4 : SizedAllocatorFactory :=
      { f3 with lockHeld := false, trace := f3.trace ++ [FactoryEvent.unlock] }
    some ((f4.allocators size).getD 0, f4)

/-- Successive calls of `getAllocatorForSize`, one for each size of the list; the
result lists the allocators returned, in the order of the calls. -/
def SizedAllocatorFactory.requests (newAddr : List Addr → Addr) :
    List Nat → SizedAllocatorFactory → Option (List Addr × SizedAllocatorFactory)
  | [], f => some ([], f)
  | size :: rest, f =>
    match SizedAllocatorFactory.getAllocatorForSize newAddr size f with
    | none => none
    | some (a, f1) =>
      match SizedAllocatorFactory.requests newAddr rest f1 with
      | none => none
      | some (as, f2) => some (a :: as, f2)

/-- A factory right after its construction: no allocator, the lock free. -/
def SizedAllocatorFactory.fresh (live : List Addr) : SizedAllocatorFactory :=
  { lockHeld := false, allocators := fun _ => none, live := live, trace := [] }

/-- The sizes for which an allocator was created, in the order of creation. -/
def createdSizes : List FactoryEvent → List Nat
  | [] => []
  | FactoryEvent.create size _ :: rest => size :: createdSizes rest
  | _ :: rest => createdSizes rest

/-- An allocation function for the concrete runs: one past the greatest live address. -/
def bumpNew (live : List Addr) : Addr := live.foldr max 0 + 1

/-- The invariant of the factory: every entry of the map is a non-null address of
a live object, no two keys share an allocator, the entries are the allocators
created, each under its size, and no size had two creations. -/
def SizedAllocatorFactory.WF (f : SizedAllocatorFactory) : Prop :=
  (∀ k a, f.allocators k = some a → a ≠ 0 ∧ a ∈ f.live) ∧
  (∀ k1 k2 a, f.allocators k1 = some a → f.allocators k2 = some a → k1 = k2) ∧
  (∀ s a, FactoryEvent.create s a ∈ f.trace ↔ f.allocators s = some a) ∧
  (createdSizes f.trace).Nodup

/-- A factory that holds the allocator 101 for the size 8, the lock free. -/
def factoryWithSize8 : SizedAllocatorFactory :=
  { lockHeld := false, allocators := mapAssign (fun _ => none) 8 101, live := [101, 100],
    trace := [] }

/-! ### Large allocations of `Mem.cpp` -/

/-- The three builds of `largeAlloc`, selected by the preprocessor. -/
inductive NumaBuild where
  | GALOIS_NUMA_OLD
  | GALOIS_NUMA
  | plain
deriving DecidableEq, Repr

/-- What `largeAlloc` uses and does not define: the build, the number of active
threads (`ThreadPool::getActiveThreads()`), the C allocator `malloc(len)` and
`numa_alloc_interleaved_subset(len, nodemask)` of libnuma; an allocator yields
the null address 0 when it fails. -/
structure MemEnv where
  build : NumaBuild
  getActiveThreads : Nat
  malloc : Nat → Addr
  numa_alloc_interleaved_subset : Nat → Nat → Addr

/-- The node mask built by `for (unsigned y = 0; y < num; ++y) nodemask_set(&nm, y/4);`
(lines 74-75 and 80-81), as the number whose set bits are the nodes. -/
def nodemask (num : Nat) : Nat :=
  (List.range num).foldl (fun nm y => nm ||| (1 <<< (y / 4))) 0

/-- The allocation of lines 71-85: `numa_alloc_interleaved_subset(len, nm)` in the
NUMA builds, `malloc(len)` otherwise. -/
def MemEnv.allocate (E : MemEnv) (len : Nat) : Addr :=
  match E.build with
  | NumaBuild.GALOIS_NUMA_OLD => E.numa_alloc_interleaved_subset len (nodemask E.getActiveThreads)
  | NumaBuild.GALOIS_NUMA => E.numa_alloc_interleaved_subset len (nodemask E.getActiveThreads)
  | NumaBuild.plain => E.malloc len

/-- How `largeAlloc` ends: it returns `data` or the process aborts. -/
inductive AllocOutcome where
  | ret (data : Addr)
  | abort
deriving DecidableEq, Repr

/-- Function `GaloisRuntime::MM::largeAlloc(len)` (Mem.cpp, lines 69-90):
`void* data = 0; data = <allocation>; if (!data) abort(); return data;`. -/
def largeAlloc (E : MemEnv) (len : Nat) : AllocOutcome :=
  let data := E.allocate len
  if data = 0 then AllocOutcome.abort else AllocOutcome.ret data

/-- Thread 1 of host 1, whose own context is that of worker 1; `assert` is active. -/
def exampleSysThread1 : Sys Host := hostSys 1 1 (Cnx.worker 1) false

/-! ### Messages built by the network interface (`Network.h`) -/

/-- Modelled from the spec: the variadic `gSerialize(buf, args...)` of `Serialize.h`
on primitive arguments, each given as its width in bytes and its value: the
arguments are written from left to right ("a flat, type-directed
encode/decode"). -/
def gSerializeArgs : List (Nat × Nat) → SerializeBuffer → SerializeBuffer
  | [], s => s
  | (width, v) :: rest, s => gSerializeArgs rest (gSerializePrim width s v)

/-- Modelled from the spec: `gDeserialize` of `Serialize.h` on a `std::tuple<Args...>`
of primitives of the given widths: the elements are read from left to right
("recursively for aggregate types"). -/
def gDeserializeTuple : List Nat → DeSerializeBuffer → Option (List Nat × DeSerializeBuffer)
  | [], s => some ([], s)
  | width :: rest, s =>
    match gDeserializePrim width s with
    | none => none
    | some (v, s1) =>
      match gDeserializeTuple rest s1 with
      | none => none
      | some (vs, s2) => some (v :: vs, s2)

/-- A call of the function at address `fp` with the arguments `args`. -/
structure Call where
  fp : Addr
  args : List Nat
deriving DecidableEq, Repr

/-- Template `gens<N, S...>` of `genericLandingPad` (lines 192-193):
`gens<N, S...> : gens<N-1, N-1, S...>` and `gens<0, S...>` has `type = seq<S...>`. -/
def genericLandingPad.gens : Nat → List Nat → List Nat
  | 0, S => S
  | N + 1, S => genericLandingPad.gens N (N :: S)

/-- Function `genericLandingPad::callFunc(fp, args, seq<S...>)` (lines 195-199):
`return fp(std::get<S>(args) ...);`; the call is appended to the calls made. -/
def genericLandingPad.callFunc (fp : Addr) (args : List Nat) (S : List Nat)
    (calls : List Call) : List Call :=
  calls ++ [⟨fp, S.map (fun i => args.getD i 0)⟩]

/-- Function `genericLandingPad<Args...>::func(buf)` (lines 202-207), for argument
types of the widths `Args`: `gDeserialize(buf, fp, args);
callFunc(fp, args, typename gens<sizeof...(Args)>::type());`.  The result is
`none` when the buffer is too short. -/
def genericLandingPad.func (Args : List Nat) (buf : DeSerializeBuffer)
    (calls : List Call) : Option (List Call) :=
  match gDeserializePrim ptrWidth buf with
  | none => none
  | some (fp, buf1) =>
    match gDeserializeTuple Args buf1 with
    | none => none
    | some (args, _) =>
      some (genericLandingPad.callFunc fp args (genericLandingPad.gens Args.length []) calls)

/-- A message handed to `send` or `broadcast`: the destination (`none` for a
broadcast), the landing pad `genericLandingPad<Args...>::func` given by the
widths `Args`, and the buffer. -/
structure NetMessage where
  dest : Option HostId
  landingPad : List Nat
  buf : SerializeBuffer
deriving DecidableEq, Repr

/-- Method `NetworkInterface::sendAlt(dest, recv, param...)` (lines 210-215):
`SendBuffer buf; gSerialize(buf, recv, param...);
send(dest, genericLandingPad<Args...>::func, buf);`; the result is the message
given to `send`.  Each parameter is given as its width and its value. -/
def NetworkInterface.sendAlt (dest : HostId) (recv : Addr) (param : List (Nat × Nat)) :
    NetMessage :=
  { dest := some dest, landingPad := param.map Prod.fst,
    buf := gSerializeArgs ((ptrWidth, recv) :: param) [] }

/-- Method `NetworkInterface::broadcastAlt(recv, param...)` (lines 217-222):
`SendBuffer buf; gSerialize(buf, recv, param...);
broadcast(genericLandingPad<Args...>::func, buf);`. -/
def NetworkInterface.broadcastAlt (recv : Addr) (param : List (Nat × Nat)) : NetMessage :=
  { dest := none, landingPad := param.map Prod.fst,
    buf := gSerializeArgs ((ptrWidth, recv) :: param) [] }

/-- The receiver runs the landing pad of a message on the buffer of the message. -/
def NetMessage.dispatch (m : NetMessage) (calls : List Call) : Option (List Call) :=
  genericLandingPad.func m.landingPad (DeSerializeBuffer.ofBytes m.buf) calls

/-! ### The graph of `Graph3.h` -/

/-- Template parameter `EdgeDirection` (line 43). -/
inductive EdgeDirection where
  | Un
  | Out
  | InOut
deriving DecidableEq, Repr

/-- Class `Edge<NHTy, EdgeDataTy>` (lines 116-146): `NHTy dst; EdgeDataTy val;`. -/
structure Edge where
  dst : gptr
  val : Nat
deriving DecidableEq, Repr

/-- Class `GraphNode` (lines 276-319) with its bases: the flag `active` of
`GraphNodeBase`, the `data` of `GraphNodeData` and the deque `edges` of
`GraphNodeEdges`, oldest edge first. -/
structure GraphNode where
  active : Bool
  data : Nat
  edges : List Edge
deriving DecidableEq, Repr

/-- Method `getActive()` of `GraphNodeBase` (lines 73-75). -/
def GraphNode.getActive (n : GraphNode) : Bool := n.active

/-- Method `setActive(b)` of `GraphNodeBase` (lines 77-79): `active = b;`. -/
def GraphNode.setActive (n : GraphNode) (b : Bool) : GraphNode := { n with active := b }

/-- Method `clearEdges()` of `GraphNodeEdges` (lines 207-209 for `Out`, 255-257 for
`Un`): `edges.clear();`.  The specialisation for `InOut` (lines 220-223) has no
members, hence `none`. -/
def GraphNode.clearEdges (EDir : EdgeDirection) (n : GraphNode) : Option GraphNode :=
  match EDir with
  | EdgeDirection.InOut => none
  | _ => some { n with edges := [] }

/-- Call `edges.emplace_back(dst)` on the deque of a node. -/
def GraphNode.emplace_back (n : GraphNode) (dst : gptr) : GraphNode :=
  { n with edges := n.edges ++ [⟨dst, 0⟩] }

/-- Class `ThirdGraph` (lines 331-477) as one host sees it: its edge direction
and the node objects in the memory of the host, by address; these are the
nodes the host created and the proxies of nodes of other hosts.  What an
address that holds no node object maps to does not matter. -/
structure ThirdGraph where
  EDir : EdgeDirection
  nodes : Addr → GraphNode

/-- The graph in which the node object at the address `a` has become `nd`. -/
def ThirdGraph.setNode (g : ThirdGraph) (a : Addr) (nd : GraphNode) : ThirdGraph :=
  { g with nodes := fun k => if k = a then nd else g.nodes k }

/-- Type `gNode::edge_iterator`, an iterator of the deque of edges of a node
object: the address of the object and a position in its deque. -/
structure deque_iterator where
  node : Addr
  pos : Nat
deriving DecidableEq, Repr

/-- Type `edge_iterator`, a `boost::filter_iterator<is_edge, gNode::edge_iterator>`
(line 352): the node object whose deque is traversed, the current position
`base` and the end position `last`. -/
structure edge_iterator where
  node : Addr
  base : Nat
  last : Nat
deriving DecidableEq, Repr

/-- Expression `N->begin()`: `operator->` of the handle, that is `resolve(N)`, then
`begin()` of the deque of the object it returned. -/
def ThirdGraph.node_begin {σ : Type} (S : Sys σ) (fuel : Nat) (_g : ThirdGraph) (N : gptr) :
    DistM σ deque_iterator := do
  let a ← gptr.operator_arrow S fuel N
  pure ⟨a, 0⟩

/-- Expression `N->end()`: `operator->` of the handle, then `end()` of the deque of
the object it returned. -/
def ThirdGraph.node_end {σ : Type} (S : Sys σ) (fuel : Nat) (g : ThirdGraph) (N : gptr) :
    DistM σ deque_iterator := do
  let a ← gptr.operator_arrow S fuel N
  pure ⟨a, (g.nodes a).edges.length⟩

/-- The edges a loop `for (ii = first; ii != last; ++ii)` over a deque goes through. -/
def ThirdGraph.range (g : ThirdGraph) (first last : deque_iterator) : List Edge :=
  ((g.nodes first.node).edges.take last.pos).drop first.pos

/-- Expression `d->getActive()` on a handle `d`: `operator->`, that is `resolve(d)`,
then the flag of the object it returned. -/
def ThirdGraph.getActive {σ : Type} (S : Sys σ) (fuel : Nat) (g : ThirdGraph) (d : gptr) :
    DistM σ Bool := do
  let a ← gptr.operator_arrow S fuel d
  pure (g.nodes a).getActive

/-- Predicate `is_edge` (lines 339-341): `return n.getDst()->getActive();`. -/
def ThirdGraph.is_edge {σ : Type} (S : Sys σ) (fuel : Nat) (g : ThirdGraph) (n : Edge) :
    DistM σ Bool :=
  g.getActive S fuel n.dst

/-- Member `satisfy_predicate` of `boost::filter_iterator`:
`while (base != end && !pred(*base)) ++base;`, run on the edges from `base` to the end. -/
def ThirdGraph.satisfy_predicate {σ : Type} (S : Sys σ) (fuel : Nat) (g : ThirdGraph) :
    List Edge → Nat → DistM σ Nat
  | [], base => pure base
  | e :: rest, base => do
    let b ← g.is_edge S fuel e
    if b then
      pure base
    else
      ThirdGraph.satisfy_predicate S fuel g rest (base + 1)

/-- Function `boost::make_filter_iterator(is_edge(), first, last)`: the constructor
of the iterator runs `satisfy_predicate`. -/
def ThirdGraph.make_filter_iterator {σ : Type} (S : Sys σ) (fuel : Nat) (g : ThirdGraph)
    (first last : deque_iterator) : DistM σ edge_iterator := do
  let b ← g.satisfy_predicate S fuel (g.range first last) first.pos
  pure ⟨first.node, b, last.pos⟩

/-- The first loop of `edge_begin` (lines 406-408): `ii->getDst().prefetch();` for
each stored edge. -/
def ThirdGraph.prefetchLoop {σ : Type} (S : Sys σ) : List Edge → DistM σ Unit
  | [] => pure ()
  | e :: rest => do
    gptr.prefetch S e.dst
    ThirdGraph.prefetchLoop S rest

/-- The second loop of `edge_begin` (lines 410-417): it evaluates
`ii->getDst()->getActive()` for each stored edge and does nothing else. -/
def ThirdGraph.lockLoop {σ : Type} (S : Sys σ) (fuel : Nat) (g : ThirdGraph) :
    List Edge → DistM σ Unit
  | [] => pure ()
  | e :: rest => do
    let _ ← g.getActive S fuel e.dst
    ThirdGraph.lockLoop S fuel g rest

/-- Statement `assert(N)` on a handle: `operator bool`. -/
def assertHandle {σ : Type} (S : Sys σ) (N : gptr) : DistM σ Unit := do
  if !N.operator_bool then
    if !S.NDEBUG then
      assertFail

/-- Method `edge_begin(N)` (lines 403-419): `assert(N)`, the loop of `prefetch()`
calls, the loop over the destinations, then
`make_filter_iterator(is_edge(), N->begin(), N->end())`. -/
def ThirdGraph.edge_begin {σ : Type} (S : Sys σ) (fuel : Nat) (g : ThirdGraph) (N : gptr) :
    DistM σ edge_iterator := do
  assertHandle S N
  let ii ← g.node_begin S fuel N
  let ee ← g.node_end S fuel N
  ThirdGraph.prefetchLoop S (g.range ii ee)
  let ii ← g.node_begin S fuel N
  let ee ← g.node_end S fuel N
  g.lockLoop S fuel (g.range ii ee)
  let first ← g.node_begin S fuel N
  let last ← g.node_end S fuel N
  g.make_filter_iterator S fuel first last

/-- Method `edge_end(N)` (lines 422-425): `assert(N)`, then
`make_filter_iterator(is_edge(), N->end(), N->end())`. -/
def ThirdGraph.edge_end {σ : Type} (S : Sys σ) (fuel : Nat) (g : ThirdGraph) (N : gptr) :
    DistM σ edge_iterator := do
  assertHandle S N
  let first ← g.node_end S fuel N
  let last ← g.node_end S fuel N
  g.make_filter_iterator S fuel first last

/-- Dereference `*ii` of an edge iterator: the edge at the current position of
the deque; `none` past the end of the deque. -/
def ThirdGraph.star (g : ThirdGraph) (ii : edge_iterator) : Option Edge :=
  (g.nodes ii.node).edges[ii.base]?

/-- Increment `++ii` of `boost::filter_iterator`: `++base; satisfy_predicate();`. -/
def ThirdGraph.increment {σ : Type} (S : Sys σ) (fuel : Nat) (g : ThirdGraph)
    (ii : edge_iterator) : DistM σ edge_iterator :=
  g.make_filter_iterator S fuel ⟨ii.node, ii.base + 1⟩ ⟨ii.node, ii.last⟩

/-- Method `getEdgeDst(ii)` (lines 433-436): `assert(ii->getDst()->getActive());
return ii->getDst();`.  The assertion, when compiled in, dereferences the
destination.  An iterator past the end of the deque has nothing to return. -/
def ThirdGraph.getEdgeDst {σ : Type} (S : Sys σ) (fuel : Nat) (g : ThirdGraph)
    (ii : edge_iterator) : DistM σ gptr :=
  match g.star ii with
  | none => assertFail
  | some e => do
    if !S.NDEBUG then
      let b ← g.getActive S fuel e.dst
      if !b then
        assertFail
    pure e.dst

/-- The loop `for (ii = edge_begin(N), ee = edge_end(N); ii != ee; ++ii) { ... *ii ... }`
with a budget of iterations: the iterators it visits, each with the edge `*ii`
it designates, in order; two filter iterators are equal when their positions
are. -/
def ThirdGraph.iterate {σ : Type} (S : Sys σ) (fuel : Nat) (g : ThirdGraph) :
    Nat → edge_iterator → edge_iterator → DistM σ (List (edge_iterator × Edge))
  | 0, _, _ => spin
  | steps + 1, ii, ee =>
    if ii.base = ee.base then pure []
    else
      match g.star ii with
      | none => assertFail
      | some e => do
        let ii1 ← g.increment S fuel ii
        let its ← ThirdGraph.iterate S fuel g steps ii1 ee
        pure ((ii, e) :: its)

/-- The loop `for (ii = edge_begin(N), ee = edge_end(N); ii != ee; ++ii)` from its
start: the iterators it visits, each with the edge it designates. -/
def ThirdGraph.visits {σ : Type} (S : Sys σ) (fuel steps : Nat) (g : ThirdGraph) (N : gptr) :
    DistM σ (List (edge_iterator × Edge)) := do
  let ii ← g.edge_begin S fuel N
  let ee ← g.edge_end S fuel N
  g.iterate S fuel steps ii ee

/-- The edges the loop over `edge_begin(N)` ... `edge_end(N)` yields, in order. -/
def ThirdGraph.edgesOf {σ : Type} (S : Sys σ) (fuel steps : Nat) (g : ThirdGraph) (N : gptr) :
    DistM σ (List Edge) := do
  let its ← g.visits S fuel steps N
  pure (its.map Prod.snd)

/-- Method `containsNode(N)` (lines 443-446): `assert(N); return N->getActive();`. -/
def ThirdGraph.containsNode {σ : Type} (S : Sys σ) (fuel : Nat) (g : ThirdGraph) (N : gptr) :
    DistM σ Bool := do
  assertHandle S N
  g.getActive S fuel N

/-- How a call that has not returned ended, for a caller with another result type. -/
def Outcome.discard {α : Type} : Outcome α → Outcome Unit
  | Outcome.ret _ => Outcome.ret ()
  | Outcome.raise e => Outcome.raise e
  | Outcome.assertFail => Outcome.assertFail
  | Outcome.spin => Outcome.spin

/-- Method `addNode(N)` (lines 367-369): `N->setActive(true);`.  The result is how
the call ended, the graph and the runtime after it; when `operator->` does not
return, the graph is as before. -/
def ThirdGraph.addNode {σ : Type} (S : Sys σ) (fuel : Nat) (N : gptr) (g : ThirdGraph)
    (w : World σ) : Outcome Unit × ThirdGraph × World σ :=
  match gptr.operator_arrow S fuel N w with
  | (Outcome.ret a, w1) => (Outcome.ret (), g.setNode a ((g.nodes a).setActive true), w1)
  | (o, w1) => (o.discard, g, w1)

/-- Method `removeNode(N)` (lines 371-377):
`if (N->getActive()) { N->setActive(false); N->clearEdges(); }`; each `N->` is a
call of `operator->`, and when one of them does not return the graph stays as
the statements before it left it. -/
def ThirdGraph.removeNode {σ : Type} (S : Sys σ) (fuel : Nat) (N : gptr) (g : ThirdGraph)
    (w : World σ) : Outcome Unit × ThirdGraph × World σ :=
  match gptr.operator_arrow S fuel N w with
  | (Outcome.ret a, w1) =>
    if (g.nodes a).getActive then
      match gptr.operator_arrow S fuel N w1 with
      | (Outcome.ret a1, w2) =>
        match gptr.operator_arrow S fuel N w2 with
        | (Outcome.ret a2, w3) =>
          match ((g.setNode a1 ((g.nodes a1).setActive false)).nodes a2).clearEdges g.EDir with
          | some nd =>
            (Outcome.ret (), (g.setNode a1 ((g.nodes a1).setActive false)).setNode a2 nd, w3)
          | none => (Outcome.assertFail, g.setNode a1 ((g.nodes a1).setActive false), w3)
        | (o, w3) => (o.discard, g.setNode a1 ((g.nodes a1).setActive false), w3)
      | (o, w2) => (o.discard, g, w2)
    else (Outcome.ret (), g, w1)
  | (o, w1) => (o.discard, g, w1)

/-- Method `addEdge(src, dst)` (lines 427-431): `assert(src); assert(dst);
src->createEdge(src, dst);`, with `createEdge` of `GraphNodeEdges` on the object
that `src->` returned: `edges.emplace_back(dst);` for `Out` (lines 203-205) and
`dest->edges.emplace_back(src); edges.emplace_back(dest);` for `Un` (lines
249-253).  The specialisation for `InOut` has no `createEdge`. -/
def ThirdGraph.addEdge {σ : Type} (S : Sys σ) (fuel : Nat) (src dst : gptr) (g : ThirdGraph)
    (w : World σ) : Outcome Unit × ThirdGraph × World σ :=
  if (!src.operator_bool && !S.NDEBUG) then (Outcome.assertFail, g, w)
  else if (!dst.operator_bool && !S.NDEBUG) then (Outcome.assertFail, g, w)
  else
    match gptr.operator_arrow S fuel src w with
    | (Outcome.ret a, w1) =>
      match g.EDir with
      | EdgeDirection.Out => (Outcome.ret (), g.setNode a ((g.nodes a).emplace_back dst), w1)
      | EdgeDirection.Un =>
        match gptr.operator_arrow S fuel dst w1 with
        | (Outcome.ret b, w2) =>
          (Outcome.ret (),
            (g.setNode b ((g.nodes b).emplace_back src)).setNode a
              (((g.setNode b ((g.nodes b).emplace_back src)).nodes a).emplace_back dst), w2)
        | (o, w2) => (o.discard, g, w2)
      | EdgeDirection.InOut => (Outcome.assertFail, g, w1)
    | (o, w1) => (o.discard, g, w1)

/-- A sequence of calls `addEdge(src, d)`, one for each `d` of the list in order;
it stops at the first call that does not return. -/
def ThirdGraph.addEdges {σ : Type} (S : Sys σ) (fuel : Nat) (src : gptr) :
    List gptr → ThirdGraph → World σ → Outcome Unit × ThirdGraph × World σ
  | [], g, w => (Outcome.ret (), g, w)
  | d :: ds, g, w =>
    match g.addEdge S fuel src d w with
    | (Outcome.ret _, g1, w1) => ThirdGraph.addEdges S fuel src ds g1 w1
    | r => r

/-- A computation that, from every state of the runtime that satisfies `Inv`,
returns `r` and leaves a state that satisfies `Inv`. -/
def Returns {σ α : Type} (Inv : World σ → Prop) (m : DistM σ α) (r : α) : Prop :=
  ∀ w, Inv w → ∃ w1, m w = (Outcome.ret r, w1) ∧ Inv w1

/-- The handle `N` designates the node object at the address `a`: from every
state of the runtime that satisfies `Inv`, the dereference `N->` returns `a`
(no conflict is signalled and no wait goes on for ever) and leaves a state
that satisfies `Inv`. -/
def Resolves {σ : Type} (S : Sys σ) (fuel : Nat) (Inv : World σ → Prop) (N : gptr) (a : Addr) :
    Prop :=
  Returns Inv (gptr.operator_arrow S fuel N) a

/-- The node object at the address 100 of `exampleGraph`: active, with edges to the
nodes at 200, 300, 400 and 200 again, added in that order. -/
def exampleNode : GraphNode :=
  { active := true, data := 0,
    edges := [⟨⟨200, 1⟩, 0⟩, ⟨⟨300, 1⟩, 0⟩, ⟨⟨400, 1⟩, 0⟩,
      ⟨⟨200, 1⟩, 0⟩] }

/-- A graph of host 1 with four node objects, at the addresses 100, 200, 300 and
400; the node at 300 is not active. -/
def exampleGraph : ThirdGraph :=
  { EDir := EdgeDirection.Out,
    nodes := fun a =>
      if a = 100 then exampleNode
      else if a = 200 then ⟨true, 0, []⟩
      else if a = 300 then ⟨false, 0, []⟩
      else if a = 400 then ⟨true, 0, []⟩
      else ⟨false, 0, []⟩ }

/-- The states of the runtime of a host on which nothing else goes on. -/
def quietWorld (w : World Host) : Prop := w.st = Host.quiet

/-- Whether the destination of an edge is an active node, when each handle `d`
designates the node object at the address `loc d`. -/
def ThirdGraph.dstActive (g : ThirdGraph) (loc : gptr → Addr) (e : Edge) : Bool :=
  (g.nodes (loc e.dst)).active

/-! ### The record of requested remote objects of `Network.h` -/

/-- Type `Map`, a `std::multimap<Lockable*, std::function<void ()>>` (line 109): the
entries in the order of iteration, that is by key and, among equal keys, in the
order of insertion.  A key is the address of the `Lockable`; a function object
is kept as a number that identifies it. -/
abbrev Map := List (Addr × Nat)

/-- Member `std::multimap::insert(val)`: the entry goes to the upper bound of its
key, whether or not the key is present. -/
def Map.insert (val : Addr × Nat) : Map → Map
  | [] => [val]
  | e :: rest => if val.1 < e.1 then val :: e :: rest else e :: Map.insert val rest

/-- Member `std::multimap::erase(key)`: every entry with that key is removed. -/
def Map.erase (key : Addr) (m : Map) : Map := m.filter (fun e => !decide (e.1 = key))

/-- Member `std::multimap::count(key)`: the number of entries with that key. -/
def Map.count (key : Addr) (m : Map) : Nat := (m.filter (fun e => decide (e.1 = key))).length

/-- Comparison `objStore.find(key) != objStore.end()`: some entry has that key. -/
def Map.findNotEnd (key : Addr) (m : Map) : Bool := m.any (fun e => decide (e.1 = key))

/-- Class `ObjectRecord` (lines 107-182): `SimpleLock<true> Lock; Map objStore;
unsigned num;`.  The class has no constructor, so `num` starts with any value. -/
structure ObjectRecord where
  lockHeld : Bool
  objStore : Map
  num : Nat
deriving DecidableEq, Repr

/-- Conversion of a `size_t` to `unsigned`. -/
def toUnsigned (n : Nat) : Nat := n % 4294967296

/-- Method `lock()` (lines 154-156): `Lock.lock();`; `none` when the lock is held,
where the caller would wait. -/
def ObjectRecord.lock (r : ObjectRecord) : Option ObjectRecord :=
  if r.lockHeld then none else some { r with lockHeld := true }

/-- Method `unlock()` (lines 158-160). -/
def ObjectRecord.unlock (r : ObjectRecord) : ObjectRecord := { r with lockHeld := false }

/-- Method `insert(val)` (lines 118-124):
`lock(); objStore.insert(val); num = objStore.size(); unlock();`. -/
def ObjectRecord.insert (r : ObjectRecord) (val : Addr × Nat) : Option ObjectRecord :=
  match r.lock with
  | none => none
  | some r1 =>
    some (ObjectRecord.unlock
      { r1 with objStore := Map.insert val r1.objStore,
                num := toUnsigned (Map.insert val r1.objStore).length })

/-- Method `erase(ptr)` (lines 126-132):
`lock(); objStore.erase(ptr); num = objStore.size(); unlock();`. -/
def ObjectRecord.erase (r : ObjectRecord) (ptr : Addr) : Option ObjectRecord :=
  match r.lock with
  | none => none
  | some r1 =>
    some (ObjectRecord.unlock
      { r1 with objStore := Map.erase ptr r1.objStore,
                num := toUnsigned (Map.erase ptr r1.objStore).length })

/-- Method `clear()` (lines 134-137): `objStore.clear(); num = 0;`. -/
def ObjectRecord.clear (r : ObjectRecord) : ObjectRecord := { r with objStore := [], num := 0 }

/-- Method `empty()` (lines 139-142): `num == 0`. -/
def ObjectRecord.empty (r : ObjectRecord) : Bool := decide (r.num = 0)

/-- Method `size()` (lines 144-146): `return num;`. -/
def ObjectRecord.size (r : ObjectRecord) : Nat := r.num

/-- Method `find(ptr)` (lines 148-152): `objStore.find(ptr) != objStore.end()`. -/
def ObjectRecord.find (r : ObjectRecord) (ptr : Addr) : Bool := Map.findNotEnd ptr r.objStore

/-- Method `get_count(ptr)` (lines 178-181): `unsigned got = objStore.count(ptr);`. -/
def ObjectRecord.get_count (r : ObjectRecord) (ptr : Addr) : Nat :=
  toUnsigned (Map.count ptr r.objStore)

/-- A call of one of the three methods that change the record. -/
inductive RecordCall where
  | insert (val : Addr × Nat)
  | erase (ptr : Addr)
  | clear
deriving DecidableEq, Repr

/-- One call on the record. -/
def ObjectRecord.call (r : ObjectRecord) : RecordCall → Option ObjectRecord
  | RecordCall.insert val => r.insert val
  | RecordCall.erase ptr => r.erase ptr
  | RecordCall.clear => some r.clear

/-- A sequence of calls, one after the other. -/
def ObjectRecord.calls (r : ObjectRecord) : List RecordCall → Option ObjectRecord
  | [] => some r
  | c :: cs =>
    match r.call c with
    | none => none
    | some r1 => ObjectRecord.calls r1 cs

/-! ### Printing the top ranked nodes (`PageRank.cpp`) -/

/-- A value of type `float`: a NaN, or one of the numbers a `float` can hold
(the infinities included), which are taken from a totally ordered type `V`;
the two zeros, which compare equal, are one number. -/
inductive FloatVal (V : Type) where
  | nan
  | num (v : V)
deriving DecidableEq, Repr

/-- Comparison `==` of two `float` values: false as soon as one of them is a NaN. -/
def FloatVal.eq {V : Type} [LinearOrder V] : FloatVal V → FloatVal V → Bool
  | FloatVal.num a, FloatVal.num b => decide (a = b)
  | _, _ => false

/-- Comparison `<` of two `float` values: false as soon as one of them is a NaN. -/
def FloatVal.lt {V : Type} [LinearOrder V] : FloatVal V → FloatVal V → Bool
  | FloatVal.num a, FloatVal.num b => decide (a < b)
  | _, _ => false

/-- Struct `TopPair<GNode>` (lines 522-535): `float value; GNode id;`; a node
handle `GNode` is a number. -/
structure TopPair (V : Type) where
  value : FloatVal V
  id : Nat
deriving DecidableEq, Repr

/-- Comparison `operator<` of `TopPair` (lines 529-534):
`if (value == b.value) return id > b.id; return value < b.value;`. -/
def TopPair.operator_lt {V : Type} [LinearOrder V] (a b : TopPair V) : Bool :=
  if a.value.eq b.value then decide (a.id > b.id) else a.value.lt b.value

/-- Type `Top`, a `std::map<Pair, GNode>` (line 543): the entries in the order of
iteration, that is ascending by key. -/
abbrev Top (V : Type) := List (TopPair V × Nat)

/-- Member `std::map::insert(val)`: the entry goes to its place in the order; a map
that holds an equivalent key is left as it is. -/
def Top.insert {V : Type} [LinearOrder V] (val : TopPair V × Nat) : Top V → Top V
  | [] => [val]
  | e :: rest =>
    if val.1.operator_lt e.1 then val :: e :: rest
    else if e.1.operator_lt val.1 then e :: Top.insert val rest
    else e :: rest

/-- The loop over the nodes in `printTop` (lines 547-561), from a node on:
`if ((int) top.size() < topn) { top.insert(...); continue; }
if (top.begin()->first < key) { top.erase(top.begin()); top.insert(...); }`.
The result is `none` when `top.begin()` of an empty map is dereferenced. -/
def printTop.scan {V : Type} [LinearOrder V] (getPageRank : Nat → FloatVal V) (topn : Int) :
    List Nat → Top V → Option (Top V)
  | [], top => some top
  | src :: rest, top =>
    if (top.length : Int) < topn then
      printTop.scan getPageRank topn rest (Top.insert (⟨getPageRank src, src⟩, src) top)
    else
      match top with
      | [] => none
      | b :: tl =>
        if b.1.operator_lt ⟨getPageRank src, src⟩ then
          printTop.scan getPageRank topn rest (Top.insert (⟨getPageRank src, src⟩, src) tl)
        else printTop.scan getPageRank topn rest (b :: tl)

/-- The output loop of `printTop` (lines 563-566), from the reverse iterator on:
one line `rank: value id` for each entry, `rank` counted up. -/
def printTop.lines {V : Type} :
    List (TopPair V × Nat) → Nat → List (Nat × FloatVal V × Nat)
  | [], _ => []
  | e :: rest, rank => (rank, e.1.value, e.1.id) :: printTop.lines rest (rank + 1)

/-- Function `printTop(graph, topn)` (lines 537-567) on the nodes of the graph in
the order of iteration, with the rank `getPageRank()` of each: the map after the
scan and the lines printed after the header, from `rbegin()` to `rend()` with
`rank` starting at 1. -/
def printTop {V : Type} [LinearOrder V] (nodes : List Nat)
    (getPageRank : Nat → FloatVal V) (topn : Int) :
    Option (Top V × List (Nat × FloatVal V × Nat)) :=
  match printTop.scan getPageRank topn nodes [] with
  | none => none
  | some top => some (top, printTop.lines top.reverse 1)

/-- What the map of `printTop` is after the scan of the nodes `done`: ascending by
key, with `min(topn, number of nodes scanned)` entries, each the pair of a
scanned node; every scanned node that is not in the map is below every entry;
and while the map has fewer than `topn` entries it holds all the scanned nodes. -/
def printTop.Kept {V : Type} [LinearOrder V] (getPageRank : Nat → FloatVal V)
    (topn : Int)
    (done : List Nat) (top : Top V) : Prop :=
  top.Pairwise (fun x y => x.1.operator_lt y.1 = true) ∧
  (top.length : Int) = min topn (done.length : Int) ∧
  (∀ e ∈ top, e = (⟨getPageRank e.2, e.2⟩, e.2) ∧ e.2 ∈ done) ∧
  (∀ src ∈ done, ((⟨getPageRank src, src⟩, src) : TopPair V × Nat) ∉ top →
    ∀ e ∈ top, TopPair.operator_lt ⟨getPageRank src, src⟩ e.1 = true) ∧
  ((top.length : Int) < topn →
    ∀ src ∈ done, ((⟨getPageRank src, src⟩, src) : TopPair V × Nat) ∈ top)

/-- Ranks of the five nodes 0 to 4 of an example graph: 5, 9, 5, 7 and 1. -/
def exampleRanks (n : Nat) : FloatVal Nat := FloatVal.num ([5, 9, 5, 7, 1].getD n 0)

/-- Ranks that are all NaN. -/
def nanRanks (_n : Nat) : FloatVal Nat := FloatVal.nan

/-! ### The iteration loops of `PageRank.cpp` -/

/-- The floating-point operations `PageRank.cpp` uses, over a type `F` of values
(`float` and `double` alike): the conversion of an integer, the arithmetic,
`std::fabs`, the comparisons `<=` and `>`, the constants `alpha` (line 77) and
`tolerance` (line 80), `std::numeric_limits<float>::min()`, the conversion of a
`double` to `float`, and the result `reduce()` of a `Galois::GReduceMax<double>`
(its header is not among the sources) after the given updates.  The embedded
algorithms are run over any such operations. -/
structure FloatOps (F : Type) where
  ofNat : Nat → F
  add : F → F → F
  sub : F → F → F
  mul : F → F → F
  div : F → F → F
  fabs : F → F
  le : F → F → Bool
  gt : F → F → Bool
  alpha : F
  tolerance : F
  fltMin : F
  toFloat : F → F
  reduceMax : List F → F

/-- Modelled from the spec: the graph storage (`LC_CSR_Graph` and
`LC_InlineEdge_Graph`, whose header is not among the sources), by section 6 "a
graph abstraction exposing node/edge iteration and a `getData`/`getEdgeDst`
accessor pair": the nodes in the order of iteration (`for (GNode src : graph)`)
and the out-edges of each node (`graph.out_edges(src)`), each with its
destination `getEdgeDst(edge)` and its data `getEdgeData(edge)`.  The node data
`getData(n)` is kept apart, as a function of the node. -/
structure LC_Graph (E : Type) where
  nodes : List Nat
  out_edges : Nat → List (Nat × E)

/-- Assignment through the reference `graph.getData(n)`. -/
def setData {D : Type} (data : Nat → D) (n : Nat) (d : D) : Nat → D :=
  fun k => if k = n then d else data k

/-- What the program writes to `std::cout`: the line of an iteration with its
number, the max delta and the count of small deltas, and the line
`Failed to converge`. -/
inductive Out (F : Type) where
  | iterationLine (iteration : Nat) (max_delta : F) (small_delta : Nat)
  | failedToConverge
deriving DecidableEq, Repr

/-- Whether an output line is the line of an iteration. -/
def Out.isIterationLine {F : Type} : Out F → Bool
  | Out.iterationLine _ _ _ => true
  | Out.failedToConverge => false

/-- Number of rounds of the iteration loop a run went through: each round prints
one iteration line. -/
def roundsRun {F : Type} (out : List (Out F)) : Nat :=
  (out.filter Out.isIterationLine).length

/-- The max delta of the last round, as its iteration line shows it. -/
def lastDelta {F : Type} : List (Out F) → Option F
  | [] => none
  | Out.iterationLine _ d _ :: rest =>
    match lastDelta rest with
    | none => some d
    | some d1 => some d1
  | Out.failedToConverge :: rest => lastDelta rest

/-- Struct `PNode` (lines 82-87): `float value; float accum;`. -/
structure PNode (F : Type) where
  value : F
  accum : F
deriving DecidableEq, Repr

/-- Functor `SerialAlgo::Initialize` (lines 97-104): `value = 1.0; accum = 0.0;`. -/
def SerialAlgo.Initialize {F : Type} (ops : FloatOps F) (_n : Nat) : PNode F :=
  ⟨ops.ofNat 1, ops.ofNat 0⟩

/-- The first inner loop of `SerialAlgo::operator()` for one node `src` (lines
115-124): `ddata.accum += sdata.value / neighbors` for each out-edge. -/
def SerialAlgo.scatter {F : Type} (ops : FloatOps F) (graph : LC_Graph Unit)
    (data : Nat → PNode F) (src : Nat) : Nat → PNode F :=
  (graph.out_edges src).foldl
    (fun d edge =>
      setData d edge.1
        { d edge.1 with
          accum := ops.add (d edge.1).accum
            (ops.div (d src).value (ops.ofNat (graph.out_edges src).length)) })
    data

/-- The local variables of a round of `SerialAlgo::operator()` with the node
data. -/
structure SerialAlgo.Round (F : Type) where
  data : Nat → PNode F
  max_delta : F
  small_delta : Nat

/-- The local `value` of the second inner loop (line 128):
`(1.0 - alpha) * sdata.accum + alpha`, converted to `float`. -/
def SerialAlgo.value {F : Type} (ops : FloatOps F) (sdata : PNode F) : F :=
  ops.toFloat (ops.add (ops.mul (ops.sub (ops.ofNat 1) ops.alpha) sdata.accum) ops.alpha)

/-- The local `diff` of the second inner loop (line 129):
`std::fabs(value - sdata.value)`. -/
def SerialAlgo.diff {F : Type} (ops : FloatOps F) (sdata : PNode F) : F :=
  ops.fabs (ops.sub (SerialAlgo.value ops sdata) sdata.value)

/-- The second inner loop of `SerialAlgo::operator()` for one node `src` (lines
126-136): `if (diff <= tolerance) ++small_delta; if (diff > max_delta) max_delta = diff;
sdata.value = value; sdata.accum = 0;`. -/
def SerialAlgo.update {F : Type} (ops : FloatOps F) (r : SerialAlgo.Round F) (src : Nat) :
    SerialAlgo.Round F :=
  { data := setData r.data src ⟨SerialAlgo.value ops (r.data src), ops.ofNat 0⟩,
    max_delta :=
      if ops.gt (SerialAlgo.diff ops (r.data src)) r.max_delta
      then SerialAlgo.diff ops (r.data src) else r.max_delta,
    small_delta :=
      if ops.le (SerialAlgo.diff ops (r.data src)) ops.tolerance
      then (r.small_delta + 1) % 4294967296 else r.small_delta }

/-- The body of the `while (true)` loop of `SerialAlgo::operator()` up to the end of
the second inner loop (lines 112-136), with
`max_delta = std::numeric_limits<float>::min()` and `small_delta = 0` at its start. -/
def SerialAlgo.body {F : Type} (ops : FloatOps F) (graph : LC_Graph Unit)
    (data : Nat → PNode F) : SerialAlgo.Round F :=
  graph.nodes.foldl (SerialAlgo.update ops)
    ⟨graph.nodes.foldl (SerialAlgo.scatter ops graph) data, ops.fltMin, 0⟩

/-- The `while (true)` loop of `SerialAlgo::operator()` (lines 111-148) from the
start of a round, with a budget of rounds: the round, `iteration += 1` on an
`unsigned int`, the iteration line, and
`if (max_delta <= tolerance || iteration >= maxIterations) break;`.
The result is the node data, `iteration` and the output. -/
def SerialAlgo.loop {F : Type} (ops : FloatOps F) (graph : LC_Graph Unit)
    (maxIterations : Nat) :
    Nat → Nat → (Nat → PNode F) → List (Out F) → Option ((Nat → PNode F) × Nat × List (Out F))
  | 0, _, _, _ => none
  | fuel + 1, iteration, data, out =>
    let r := SerialAlgo.body ops graph data
    let iteration1 := (iteration + 1) % 4294967296
    let out1 := out ++ [Out.iterationLine iteration1 r.max_delta r.small_delta]
    if ops.le r.max_delta ops.tolerance || decide (iteration1 ≥ maxIterations) then
      some (r.data, iteration1, out1)
    else SerialAlgo.loop ops graph maxIterations fuel iteration1 r.data out1

/-- Method `SerialAlgo::operator()` (lines 107-153): the loop from `iteration = 0`,
then `if (iteration >= maxIterations) std::cout << "Failed to converge\n";`. -/
def SerialAlgo.operator_call {F : Type} (ops : FloatOps F) (graph : LC_Graph Unit)
    (maxIterations : Nat) (fuel : Nat) (data : Nat → PNode F) :
    Option ((Nat → PNode F) × List (Out F)) :=
  match SerialAlgo.loop ops graph maxIterations fuel 0 data [] with
  | none => none
  | some (data1, iteration, out) =>
    if iteration ≥ maxIterations then some (data1, out ++ [Out.failedToConverge])
    else some (data1, out)

/-- Struct `PullAlgo::LNode` (lines 347-354): `float value[2];`. -/
structure LNode (F : Type) where
  value0 : F
  value1 : F
deriving DecidableEq, Repr

/-- The element `value[i]` of the array of an `LNode`, for `i` in `0, 1`. -/
def LNode.get {F : Type} (n : LNode F) (i : Nat) : F :=
  if i = 0 then n.value0 else n.value1

/-- The assignment `value[i] = v` to the array of an `LNode`, for `i` in `0, 1`. -/
def LNode.set {F : Type} (n : LNode F) (i : Nat) (v : F) : LNode F :=
  if i = 0 then { n with value0 := v } else { n with value1 := v }

/-- Method `getPageRank()` (line 350): `return value[1];`. -/
def LNode.getPageRank {F : Type} (n : LNode F) : F := n.get 1

/-- Method `getPageRank(unsigned int it)` (line 351): `return value[it & 1];`. -/
def LNode.getPageRank_it {F : Type} (n : LNode F) (it : Nat) : F := n.get (it &&& 1)

/-- Method `setPageRank(unsigned it, float v)` (line 352): `value[(it+1) & 1] = v;`,
with `it+1` computed on `unsigned`. -/
def LNode.setPageRank {F : Type} (n : LNode F) (it : Nat) (v : F) : LNode F :=
  n.set (((it + 1) % 4294967296) &&& 1) v

/-- Functor `PullAlgo::Initialize` (lines 372-380): `value[0] = 1.0; value[1] = 1.0;`. -/
def PullAlgo.Initialize {F : Type} (ops : FloatOps F) (_n : Nat) : LNode F :=
  ⟨ops.ofNat 1, ops.ofNat 1⟩

/-- Functor `PullAlgo::Copy` (lines 382-389) on the data of one node:
`data.value[1] = data.value[0];`. -/
def PullAlgo.Copy {F : Type} (data : LNode F) : LNode F := data.set 1 (data.get 0)

/-- The members of `PullAlgo` and the node data of its graph: the updates the
reducer `max_delta` received since its last `reset()`, the accumulator
`small_delta`, and, for reference, every `value` computed by `Process` so far
with the iteration and the node it was computed for. -/
structure PullAlgo.State (F : Type) where
  data : Nat → LNode F
  max_delta : List F
  small_delta : Nat
  computed : List (Nat × Nat × F)

/-- The local `sum` of `Process::operator()` after the loop over the out-edges
(lines 403-411): `sum += ddata.getPageRank(iteration) * w` for each edge. -/
def PullAlgo.sum {F : Type} (ops : FloatOps F) (graph : LC_Graph F) (iteration : Nat)
    (data : Nat → LNode F) (src : Nat) : F :=
  (graph.out_edges src).foldl
    (fun sum edge => ops.add sum (ops.mul ((data edge.1).getPageRank_it iteration) edge.2))
    (ops.ofNat 0)

/-- The local `value` of `Process::operator()` (line 413):
`sum * (1.0 - alpha) + alpha`, converted to `float`. -/
def PullAlgo.value {F : Type} (ops : FloatOps F) (graph : LC_Graph F) (iteration : Nat)
    (data : Nat → LNode F) (src : Nat) : F :=
  ops.toFloat (ops.add (ops.mul (PullAlgo.sum ops graph iteration data src)
    (ops.sub (ops.ofNat 1) ops.alpha)) ops.alpha)

/-- The local `diff` of `Process::operator()` (line 414):
`std::fabs(value - sdata.getPageRank(iteration))`. -/
def PullAlgo.diff {F : Type} (ops : FloatOps F) (graph : LC_Graph F) (iteration : Nat)
    (data : Nat → LNode F) (src : Nat) : F :=
  ops.fabs (ops.sub (PullAlgo.value ops graph iteration data src)
    ((data src).getPageRank_it iteration))

/-- Functor `PullAlgo::Process` on the node `src` (lines 399-420):
`if (diff <= tolerance) self->small_delta += 1; self->max_delta.update(diff);
sdata.setPageRank(iteration, value);`. -/
def PullAlgo.Process {F : Type} (ops : FloatOps F) (graph : LC_Graph F) (iteration : Nat)
    (st : PullAlgo.State F) (src : Nat) : PullAlgo.State F :=
  { data := setData st.data src
      ((st.data src).setPageRank iteration (PullAlgo.value ops graph iteration st.data src)),
    max_delta := st.max_delta ++ [PullAlgo.diff ops graph iteration st.data src],
    small_delta :=
      if ops.le (PullAlgo.diff ops graph iteration st.data src) ops.tolerance
      then (st.small_delta + 1) % 4294967296 else st.small_delta,
    computed := st.computed ++ [(iteration, src, PullAlgo.value ops graph iteration st.data src)] }

/-- The `while (true)` loop of `PullAlgo::operator()` (lines 427-444) from the start
of a round, with a budget of rounds: `for_each_local(graph, Process(...))` taken
node by node in the order of iteration (the parallel loop is supplied by the
scheduler; a `Process` reads `value[it & 1]` only and writes `value[(it+1) & 1]`
of its own node only), `iteration += 1` on an `unsigned int`, the iteration line,
`if (delta <= tolerance || iteration >= maxIterations) break;` and the two
`reset()` calls.  The result is the state, `iteration` and the output. -/
def PullAlgo.loop {F : Type} (ops : FloatOps F) (graph : LC_Graph F) (maxIterations : Nat) :
    Nat → Nat → PullAlgo.State F → List (Out F) →
      Option (PullAlgo.State F × Nat × List (Out F))
  | 0, _, _, _ => none
  | fuel + 1, iteration, st, out =>
    let st1 := graph.nodes.foldl (PullAlgo.Process ops graph iteration) st
    let iteration1 := (iteration + 1) % 4294967296
    let delta := ops.toFloat (ops.reduceMax st1.max_delta)
    let out1 := out ++ [Out.iterationLine iteration1 delta st1.small_delta]
    if ops.le delta ops.tolerance || decide (iteration1 ≥ maxIterations) then
      some (st1, iteration1, out1)
    else
      PullAlgo.loop ops graph maxIterations fuel iteration1
        { st1 with max_delta := [], small_delta := 0 } out1

/-- Method `PullAlgo::operator()` (lines 424-455): the loop from `iteration = 0`,
`if (iteration >= maxIterations) std::cout << "Failed to converge\n";`, then
`if (iteration & 1) { } else { do_all_local(graph, Copy(graph)); }`. -/
def PullAlgo.operator_call {F : Type} (ops : FloatOps F) (graph : LC_Graph F)
    (maxIterations : Nat) (fuel : Nat) (st : PullAlgo.State F) :
    Option (PullAlgo.State F × List (Out F)) :=
  match PullAlgo.loop ops graph maxIterations fuel 0 st [] with
  | none => none
  | some (st1, iteration, out) =>
    some (if iteration &&& 1 ≠ 0 then st1
      else { st1 with
        data := graph.nodes.foldl (fun d n => setData d n (PullAlgo.Copy (d n))) st1.data },
      if iteration ≥ maxIterations then out ++ [Out.failedToConverge] else out)

/-- An interpretation of the floating-point operations by fixed-point arithmetic
on hundredths: the integer `x` stands for the value `x / 100`, so `alpha` is 15
and `tolerance` is 1; the result of `reduce()` is the greatest update, `0` when
there was none. -/
def centiOps : FloatOps Int :=
  { ofNat := fun n => 100 * (n : Int),
    add := fun a b => a + b,
    sub := fun a b => a - b,
    mul := fun a b => a * b / 100,
    div := fun a b => a * 100 / b,
    fabs := fun a => if a < 0 then -a else a,
    le := fun a b => decide (a ≤ b),
    gt := fun a b => decide (a > b),
    alpha := 15,
    tolerance := 1,
    fltMin := 0,
    toFloat := fun a => a,
    reduceMax := fun l => l.foldl max 0 }

/-- A graph with the single node 0 and no edge. -/
def oneNodeGraph (E : Type) : LC_Graph E :=
  { nodes := [0], out_edges := fun _ => [] }

/-- A graph for `PullAlgo` with the nodes 0 and 1; node 1 has one edge, to node 0,
with the weight 1.0. -/
def twoNodeGraph : LC_Graph Int :=
  { nodes := [0, 1], out_edges := fun n => if n = 1 then [(0, 100)] else [] }

/-! ## Theorems -/

/-! ### Global pointers -/

/-- C10: the gptr built from a raw pointer `p` on host `h` has `ptr = p` and
`owner = h`, hence is local on `h`; and `isLocal()` holds exactly when the owner
is the current host id, whatever the address. -/
theorem gptr_ofRaw_isLocal (p : Addr) (h : HostId) :
    (gptr.ofRaw h p).ptr = p ∧ (gptr.ofRaw h p).owner = h ∧
    gptr.isLocal h (gptr.ofRaw h p) = true ∧
    (∀ g : gptr, gptr.isLocal h g = true ↔ g.owner = h) ∧
    (∀ (g : gptr) (a : Addr), gptr.isLocal h ⟨a, g.owner⟩ = gptr.isLocal h g) := by
  refine ⟨rfl, rfl, ?_, ?_, ?_⟩
  · simp [gptr.isLocal, gptr.ofRaw]
  · intro g
    simp [gptr.isLocal]
  · intro g a
    rfl

/-! ### Serialization -/

theorem bytesLE_length (width v : Nat) : (bytesLE width v).length = width := by
  induction width generalizing v with
  | zero => rfl
  | succ n ih => simp [bytesLE, ih]

theorem valueLE_bytesLE (width v : Nat) : valueLE (bytesLE width v) = v % 256 ^ width := by
  induction width generalizing v with
  | zero => simp [bytesLE, valueLE, Nat.mod_one]
  | succ n ih =>
    simp only [bytesLE, valueLE, ih]
    rw [pow_succ, Nat.mul_comm (256 ^ n) 256, Nat.mod_mul, Nat.add_comm]

/-- Reading a primitive back right after the bytes that precede it. -/
theorem gDeserializePrim_gSerializePrim (width v : Nat) (pre rest : List Nat)
    (hv : v < 256 ^ width) :
    gDeserializePrim width ⟨gSerializePrim width pre v ++ rest, pre.length⟩ =
      some (v, ⟨gSerializePrim width pre v ++ rest, pre.length + width⟩) := by
  have hlen : pre.length + width ≤ (gSerializePrim width pre v ++ rest).length := by
    simp [gSerializePrim, bytesLE_length]
  have htake : ((gSerializePrim width pre v ++ rest).drop pre.length).take width =
      bytesLE width v := by
    simp [gSerializePrim, List.append_assoc, List.drop_append_eq_append_drop,
      List.take_append_eq_append_take, bytesLE_length]
  simp only [gDeserializePrim, hlen, if_true, htake, valueLE_bytesLE, Nat.mod_eq_of_lt hv]

/-- Round trip of a gptr written after `pre` and followed by `rest`. -/
theorem gptr_deserialize_serialize_at (g self : gptr) (pre rest : List Nat)
    (hp : g.ptr < 2 ^ 64) (ho : g.owner < 2 ^ 32) :
    gptr.deserialize self ⟨g.serialize pre ++ rest, pre.length⟩ =
      some (g, ⟨g.serialize pre ++ rest, pre.length + ptrWidth + ownerWidth⟩) := by
  have hp8 : g.ptr < 256 ^ ptrWidth := by
    have h256 : (256 : Nat) ^ ptrWidth = 2 ^ 64 := by norm_num [ptrWidth]
    rw [h256]
    exact hp
  have ho4 : g.owner < 256 ^ ownerWidth := by
    have h256 : (256 : Nat) ^ ownerWidth = 2 ^ 32 := by norm_num [ownerWidth]
    rw [h256]
    exact ho
  have h1 : gDeserializePrim ptrWidth ⟨g.serialize pre ++ rest, pre.length⟩ =
      some (g.ptr, ⟨g.serialize pre ++ rest, pre.length + ptrWidth⟩) := by
    have h := gDeserializePrim_gSerializePrim ptrWidth g.ptr pre
      (bytesLE ownerWidth g.owner ++ rest) hp8
    simpa [gptr.serialize, gSerializePrim, List.append_assoc] using h
  have h2 : gDeserializePrim ownerWidth ⟨g.serialize pre ++ rest, pre.length + ptrWidth⟩ =
      some (g.owner, ⟨g.serialize pre ++ rest, pre.length + ptrWidth + ownerWidth⟩) := by
    have h := gDeserializePrim_gSerializePrim ownerWidth g.owner
      (gSerializePrim ptrWidth pre g.ptr) rest ho4
    have hl : (gSerializePrim ptrWidth pre g.ptr).length = pre.length + ptrWidth := by
      simp [gSerializePrim, bytesLE_length]
    rw [hl] at h
    simpa [gptr.serialize] using h
  simp [gptr.deserialize, h1, h2]

/-- C3: deserializing the buffer written by `g.serialize` yields a gptr with the
owner and the address of `g`, whatever the receiving object held before and
whatever the receiving host is: it compares equal to `g`, and on a host other
than the owner it is not local. -/
theorem gptr_serialize_roundtrip (g self : gptr) (recvHost : HostId)
    (hp : g.ptr < 2 ^ 64) (ho : g.owner < 2 ^ 32) :
    ∃ g1 s1,
      gptr.deserialize self (DeSerializeBuffer.ofBytes (g.serialize [])) = some (g1, s1) ∧
      g1.owner = g.owner ∧ g1.ptr = g.ptr ∧ g1.operator_eq g = true ∧
      g1.operator_ne g = false ∧
      (recvHost ≠ g.owner → gptr.isLocal recvHost g1 = false) := by
  have h := gptr_deserialize_serialize_at g self [] [] hp ho
  simp only [List.append_nil, List.length_nil] at h
  refine ⟨g, _, h, rfl, rfl, ?_, ?_, ?_⟩
  · simp [gptr.operator_eq]
  · simp [gptr.operator_ne]
  · intro hne
    simp only [gptr.isLocal, decide_eq_false_iff_not]
    exact fun e => hne e.symm

/-- Instance of C3: the pointer `(owner 3, address 4096)` received on host 7. -/
theorem gptr_serialize_roundtrip_witness :
    ((4096 : Nat) < 2 ^ 64 ∧ (3 : Nat) < 2 ^ 32) ∧
    ∃ g1 s1, gptr.deserialize gptr.mkNull
        (DeSerializeBuffer.ofBytes (gptr.serialize ⟨4096, 3⟩ [])) = some (g1, s1) ∧
      g1.owner = 3 ∧ g1.ptr = 4096 ∧ g1.operator_eq ⟨4096, 3⟩ = true ∧
      g1.operator_ne ⟨4096, 3⟩ = false ∧
      ((7 : HostId) ≠ 3 → gptr.isLocal 7 g1 = false) :=
  ⟨⟨by norm_num, by norm_num⟩,
    gptr_serialize_roundtrip ⟨4096, 3⟩ gptr.mkNull 7 (by norm_num) (by norm_num)⟩

/-! ### Computations -/

/-- Sequencing after a computation that returns. -/
theorem bind_of_ret {σ α β : Type} (m : DistM σ α) (f : α → DistM σ β)
    (w w1 : World σ) (v : α) (h : m w = (.ret v, w1)) : DistM.bind m f w = f v w1 := by
  simp [DistM.bind, h]

/-- Sequencing after a computation that is still polling. -/
theorem bind_of_spin {σ α β : Type} (m : DistM σ α) (f : α → DistM σ β) (w w1 : World σ)
    (h : m w = (.spin, w1)) : DistM.bind m f w = (.spin, w1) := by
  simp [DistM.bind, h]

/-- Returning the result of a computation is that computation. -/
theorem bind_pure_eq {σ α : Type} (m : DistM σ α) (w : World σ) :
    DistM.bind m (fun a w1 => (.ret a, w1)) w = m w := by
  unfold DistM.bind
  rcases hm : m w with ⟨r, w1⟩
  cases r <;> rfl

/-- The statement `if (!LL::getTID()) handleReceives();` returns, and handles the
pending messages exactly on thread 0. -/
theorem pollNetwork_eq {σ : Type} (S : Sys σ) (w : World σ) :
    pollNetwork S w =
      (.ret (), ⟨if S.getTID = 0 then (S.handleReceives w.st).2 else w.st,
        w.log ++ networkPoll S⟩) := by
  by_cases h : S.getTID = 0 <;>
  simp [pollNetwork, networkPoll, h, bind, DistM.bind, pure, handleReceives]

/-- On a non-null pointer `resolve` is the dispatch. -/
theorem resolve_eq_go {σ : Type} (S : Sys σ) (fuel : Nat) (p : gptr) (w : World σ)
    (hnn : p.ptr ≠ 0) : resolve S fuel p w = resolve_dispatch.go S fuel p.owner p.ptr w := by
  simp [resolve, hnn, bind, DistM.bind, pure]

/-! ### The polling loops -/

/-- The loop `while (isAcquiredBy(ptr, &getSystemLocalDirectory())) {}` either
returns right after a test that answered `false`, all earlier tests having
answered `true`, or uses up its budget with every test answering `true`. -/
theorem whileAcquiredByLocalDirectory_spec {σ : Type} (S : Sys σ) (ptr : Addr) :
    ∀ (fuel : Nat) (w : World σ),
      ((whileAcquiredByLocalDirectory S ptr fuel w).1 = .ret () ∧
        ∃ k, k < fuel ∧
          (whileAcquiredByLocalDirectory S ptr fuel w).2.log =
            w.log ++ rounds [.isAcquiredBy ptr Cnx.localDirectory true] k ++
              [.isAcquiredBy ptr Cnx.localDirectory false] ∧
          ∃ sPrev, S.isAcquiredBy ptr Cnx.localDirectory sPrev =
            (false, (whileAcquiredByLocalDirectory S ptr fuel w).2.st)) ∨
      ((whileAcquiredByLocalDirectory S ptr fuel w).1 = .spin ∧
        (whileAcquiredByLocalDirectory S ptr fuel w).2.log =
          w.log ++ rounds [.isAcquiredBy ptr Cnx.localDirectory true] fuel) := by
  intro fuel
  induction fuel with
  | zero =>
    intro w
    right
    simp [whileAcquiredByLocalDirectory, spin, rounds]
  | succ n ih =>
    intro w
    cases hb : (S.isAcquiredBy ptr Cnx.localDirectory w.st).1 with
    | false =>
      left
      have hrun : whileAcquiredByLocalDirectory S ptr (n + 1) w =
          (.ret (), ⟨(S.isAcquiredBy ptr Cnx.localDirectory w.st).2,
            w.log ++ [.isAcquiredBy ptr Cnx.localDirectory false]⟩) := by
        simp [whileAcquiredByLocalDirectory, bind, DistM.bind, pure, isAcquiredBy, hb]
      rw [hrun]
      refine ⟨rfl, 0, Nat.succ_pos n, by simp [rounds], w.st, ?_⟩
      exact Prod.ext hb rfl
    | true =>
      have hrun : whileAcquiredByLocalDirectory S ptr (n + 1) w =
          whileAcquiredByLocalDirectory S ptr n
            ⟨(S.isAcquiredBy ptr Cnx.localDirectory w.st).2,
              w.log ++ [.isAcquiredBy ptr Cnx.localDirectory true]⟩ := by
        simp [whileAcquiredByLocalDirectory, bind, DistM.bind, isAcquiredBy, hb]
      rw [hrun]
      rcases ih ⟨(S.isAcquiredBy ptr Cnx.localDirectory w.st).2,
          w.log ++ [.isAcquiredBy ptr Cnx.localDirectory true]⟩ with
        ⟨hret, k, hk, hlog, hst⟩ | ⟨hspin, hlog⟩
      · left
        refine ⟨hret, k + 1, Nat.succ_lt_succ hk, ?_, hst⟩
        rw [hlog]
        simp [rounds, List.append_assoc]
      · right
        refine ⟨hspin, ?_⟩
        rw [hlog]
        simp [rounds, List.append_assoc]


/-- The loop `while (isAcquired(rptr)) { if (!getTID()) handleReceives(); }` either
returns right after a test that answered `false`, or uses up its budget with
every test answering `true`. -/
theorem whileAcquired_spec {σ : Type} (S : Sys σ) (rptr : Addr) :
    ∀ (fuel : Nat) (w : World σ),
      ((whileAcquired S rptr fuel w).1 = .ret () ∧
        ∃ k, k < fuel ∧
          (whileAcquired S rptr fuel w).2.log =
            w.log ++ rounds ([.isAcquired rptr true] ++ networkPoll S) k ++
              [.isAcquired rptr false] ∧
          ∃ sPrev, S.isAcquired rptr sPrev = (false, (whileAcquired S rptr fuel w).2.st)) ∨
      ((whileAcquired S rptr fuel w).1 = .spin ∧
        (whileAcquired S rptr fuel w).2.log =
          w.log ++ rounds ([.isAcquired rptr true] ++ networkPoll S) fuel) := by
  intro fuel
  induction fuel with
  | zero =>
    intro w
    right
    simp [whileAcquired, spin, rounds]
  | succ n ih =>
    intro w
    cases hb : (S.isAcquired rptr w.st).1 with
    | false =>
      left
      have hrun : whileAcquired S rptr (n + 1) w =
          (.ret (), ⟨(S.isAcquired rptr w.st).2, w.log ++ [.isAcquired rptr false]⟩) := by
        simp [whileAcquired, bind, DistM.bind, pure, isAcquired, hb]
      rw [hrun]
      refine ⟨rfl, 0, Nat.succ_pos n, by simp [rounds], w.st, ?_⟩
      exact Prod.ext hb rfl
    | true =>
      have hrun : whileAcquired S rptr (n + 1) w =
          whileAcquired S rptr n
            ⟨if S.getTID = 0 then (S.handleReceives (S.isAcquired rptr w.st).2).2
              else (S.isAcquired rptr w.st).2,
              w.log ++ [.isAcquired rptr true] ++ networkPoll S⟩ := by
        simp only [whileAcquired, bind, pure]
        rw [bind_of_ret (isAcquired S rptr) _ w
          ⟨(S.isAcquired rptr w.st).2, w.log ++ [.isAcquired rptr true]⟩ true
          (by simp [isAcquired, hb])]
        simp only [if_true]
        rw [bind_of_ret (pollNetwork S) _ _ _ () (pollNetwork_eq S _)]
      rw [hrun]
      rcases ih ⟨if S.getTID = 0 then (S.handleReceives (S.isAcquired rptr w.st).2).2
              else (S.isAcquired rptr w.st).2,
              w.log ++ [.isAcquired rptr true] ++ networkPoll S⟩ with
        ⟨hret, k, hk, hlog, hst⟩ | ⟨hspin, hlog⟩
      · left
        refine ⟨hret, k + 1, Nat.succ_lt_succ hk, ?_, hst⟩
        rw [hlog]
        simp [rounds, List.append_assoc]
      · right
        refine ⟨hspin, ?_⟩
        rw [hlog]
        simp [rounds, List.append_assoc]

/-! ### `resolve` on a locally-owned object -/

/-- Inside a parallel loop, `go` on a local object is one `acquire` and, when it
throws, one recall and one `isAcquiredBy` test that selects the signal. -/
theorem go_local_inLoop {σ : Type} (S : Sys σ) (fuel : Nat) (ptr : Addr)
    (w : World σ) (hin : S.inGaloisForEach w.st = true) :
    resolve_dispatch.go S fuel S.networkHostID ptr w =
      if (S.acquire ptr w.st).1 = true then
        (.ret ptr, ⟨(S.acquire ptr w.st).2, w.log ++ [.acquire ptr true]⟩)
      else
        (.raise (if (S.isAcquiredBy ptr Cnx.localDirectory
              (S.recallLocal (S.networkHostID, ptr) (S.acquire ptr w.st).2)).1 = true
            then Signal.remote_ex ptr S.networkHostID ptr else Signal.conflict_ex ptr),
          ⟨(S.isAcquiredBy ptr Cnx.localDirectory
              (S.recallLocal (S.networkHostID, ptr) (S.acquire ptr w.st).2)).2,
            w.log ++ [.acquire ptr false, .recallLocal S.networkHostID ptr,
              .isAcquiredBy ptr Cnx.localDirectory
                (S.isAcquiredBy ptr Cnx.localDirectory
                  (S.recallLocal (S.networkHostID, ptr) (S.acquire ptr w.st).2)).1]⟩) := by
  cases hacq : (S.acquire ptr w.st).1 <;>
  cases hby : (S.isAcquiredBy ptr Cnx.localDirectory
      (S.recallLocal (S.networkHostID, ptr) (S.acquire ptr w.st).2)).1 <;>
  simp [resolve_dispatch.go, hin, hacq, hby, bind, DistM.bind, pure, inGaloisForEach,
    acquire, recallLocal, isAcquiredBy, raise]

/-- C1: for a non-null gptr owned by the current host, inside a parallel loop,
when `acquire(p.ptr)` fails, `resolve` issues a recall for `(owner, ptr)` and then
throws `remote_ex{ptr, owner, ptr}` if the object is acquired by the Local
Directory after that recall and `conflict_ex{ptr}` otherwise; it does not
return a pointer. -/
theorem resolve_local_acquire_fails {σ : Type} (S : Sys σ) (fuel : Nat) (p : gptr)
    (w : World σ) (hnn : p.ptr ≠ 0) (hown : p.owner = S.networkHostID)
    (hin : S.inGaloisForEach w.st = true) (hfail : (S.acquire p.ptr w.st).1 = false) :
    resolve S fuel p w =
      (.raise (if (S.isAcquiredBy p.ptr Cnx.localDirectory
            (S.recallLocal (p.owner, p.ptr) (S.acquire p.ptr w.st).2)).1 = true
          then Signal.remote_ex p.ptr p.owner p.ptr else Signal.conflict_ex p.ptr),
        ⟨(S.isAcquiredBy p.ptr Cnx.localDirectory
            (S.recallLocal (p.owner, p.ptr) (S.acquire p.ptr w.st).2)).2,
          w.log ++ [.acquire p.ptr false, .recallLocal p.owner p.ptr,
            .isAcquiredBy p.ptr Cnx.localDirectory
              (S.isAcquiredBy p.ptr Cnx.localDirectory
                (S.recallLocal (p.owner, p.ptr) (S.acquire p.ptr w.st).2)).1]⟩) ∧
    ∀ (a : Addr) (w1 : World σ), resolve S fuel p w ≠ (.ret a, w1) := by
  have h := go_local_inLoop S fuel p.ptr w hin
  rw [hfail] at h
  simp only [Bool.false_eq_true, if_false] at h
  rw [← hown] at h
  rw [resolve_eq_go S fuel p w hnn, h]
  refine ⟨rfl, ?_⟩
  intro a w1 hc
  cases hc

/-- Instance of C1 on host 1: the object at 4096 is held by another worker
(plain conflict), and it is held by the Local Directory (remote conflict). -/
theorem resolve_local_acquire_fails_witness :
    (((⟨4096, 1⟩ : gptr).ptr ≠ 0 ∧
      (⟨4096, 1⟩ : gptr).owner = (hostSys 1 0 (Cnx.worker 0) false).networkHostID ∧
      (hostSys 1 0 (Cnx.worker 0) false).inGaloisForEach
        (Host.heldBy 4096 (Cnx.worker 1) true) = true ∧
      ((hostSys 1 0 (Cnx.worker 0) false).acquire 4096
        (Host.heldBy 4096 (Cnx.worker 1) true)).1 = false) ∧
    resolve (hostSys 1 0 (Cnx.worker 0) false) 0 ⟨4096, 1⟩
        ⟨Host.heldBy 4096 (Cnx.worker 1) true, []⟩ =
      (.raise (Signal.conflict_ex 4096),
        ⟨Host.heldBy 4096 (Cnx.worker 1) true,
          [.acquire 4096 false, .recallLocal 1 4096,
            .isAcquiredBy 4096 Cnx.localDirectory false]⟩)) ∧
    resolve (hostSys 1 0 (Cnx.worker 0) false) 0 ⟨4096, 1⟩
        ⟨Host.heldBy 4096 Cnx.localDirectory true, []⟩ =
      (.raise (Signal.remote_ex 4096 1 4096),
        ⟨Host.heldBy 4096 Cnx.localDirectory true,
          [.acquire 4096 false, .recallLocal 1 4096,
            .isAcquiredBy 4096 Cnx.localDirectory true]⟩) :=
  ⟨⟨⟨by decide, rfl, rfl, rfl⟩,
      (resolve_local_acquire_fails (hostSys 1 0 (Cnx.worker 0) false) 0 ⟨4096, 1⟩
        ⟨Host.heldBy 4096 (Cnx.worker 1) true, []⟩ (by decide) rfl rfl rfl).1⟩,
    (resolve_local_acquire_fails (hostSys 1 0 (Cnx.worker 0) false) 0 ⟨4096, 1⟩
      ⟨Host.heldBy 4096 Cnx.localDirectory true, []⟩ (by decide) rfl rfl rfl).1⟩

/-- Outside a parallel loop, `go` on a local object tests `isAcquired` once; when
the object is acquired it issues a recall and enters the loop of line 65. -/
theorem go_local_outside {σ : Type} (S : Sys σ) (fuel : Nat) (ptr : Addr)
    (w : World σ) (hout : S.inGaloisForEach w.st = false) :
    resolve_dispatch.go S fuel S.networkHostID ptr w =
      if (S.isAcquired ptr w.st).1 = true then
        DistM.bind (whileAcquiredByLocalDirectory S ptr fuel) (fun _ w1 => (.ret ptr, w1))
          ⟨S.recallLocal (S.networkHostID, ptr) (S.isAcquired ptr w.st).2,
            w.log ++ [.isAcquired ptr true, .recallLocal S.networkHostID ptr]⟩
      else
        (.ret ptr, ⟨(S.isAcquired ptr w.st).2, w.log ++ [.isAcquired ptr false]⟩) := by
  cases hacq : (S.isAcquired ptr w.st).1
  · simp [resolve_dispatch.go, hout, hacq, bind, DistM.bind, pure, inGaloisForEach, isAcquired]
  · simp only [resolve_dispatch.go, if_true, bind, pure]
    rw [bind_of_ret (inGaloisForEach S) _ w w false (by simp [inGaloisForEach, hout])]
    simp only [Bool.false_eq_true, if_false]
    rw [bind_of_ret (isAcquired S ptr) _ w
      ⟨(S.isAcquired ptr w.st).2, w.log ++ [.isAcquired ptr true]⟩ true
      (by simp [isAcquired, hacq])]
    simp only [if_true]
    rw [bind_of_ret (recallLocal S (S.networkHostID, ptr)) _ _
      ⟨S.recallLocal (S.networkHostID, ptr) (S.isAcquired ptr w.st).2,
        w.log ++ [.isAcquired ptr true, .recallLocal S.networkHostID ptr]⟩ ()
      (by simp [recallLocal])]

/-- The two ways `go` ends outside a parallel loop on a local object: it returns
`ptr`, after a first test that found the object not acquired or after a test
that found it not acquired by the Local Directory; or it is still polling, every
test so far having found the object acquired by the Local Directory. -/
theorem go_local_outside_cases {σ : Type} (S : Sys σ) (fuel : Nat) (ptr : Addr)
    (w : World σ) (hout : S.inGaloisForEach w.st = false) :
    ((resolve_dispatch.go S fuel S.networkHostID ptr w).1 = .ret ptr ∧
      ((S.isAcquired ptr w.st = (false, (resolve_dispatch.go S fuel S.networkHostID ptr w).2.st) ∧
          (resolve_dispatch.go S fuel S.networkHostID ptr w).2.log =
            w.log ++ [.isAcquired ptr false]) ∨
        ((S.isAcquired ptr w.st).1 = true ∧
          ∃ k, k < fuel ∧
            (resolve_dispatch.go S fuel S.networkHostID ptr w).2.log =
              w.log ++ [.isAcquired ptr true, .recallLocal S.networkHostID ptr] ++
                rounds [.isAcquiredBy ptr Cnx.localDirectory true] k ++
                [.isAcquiredBy ptr Cnx.localDirectory false] ∧
            ∃ sPrev, S.isAcquiredBy ptr Cnx.localDirectory sPrev =
              (false, (resolve_dispatch.go S fuel S.networkHostID ptr w).2.st)))) ∨
    ((resolve_dispatch.go S fuel S.networkHostID ptr w).1 = .spin ∧
      (S.isAcquired ptr w.st).1 = true ∧
      (resolve_dispatch.go S fuel S.networkHostID ptr w).2.log =
        w.log ++ [.isAcquired ptr true, .recallLocal S.networkHostID ptr] ++
          rounds [.isAcquiredBy ptr Cnx.localDirectory true] fuel) := by
  rw [go_local_outside S fuel ptr w hout]
  cases hacq : (S.isAcquired ptr w.st).1
  · left
    simp only [Bool.false_eq_true, if_false, true_and]
    left
    exact ⟨Prod.ext hacq rfl, trivial⟩
  · simp only [if_true]
    rcases whileAcquiredByLocalDirectory_spec S ptr fuel
        ⟨S.recallLocal (S.networkHostID, ptr) (S.isAcquired ptr w.st).2,
          w.log ++ [.isAcquired ptr true, .recallLocal S.networkHostID ptr]⟩ with
      ⟨hret, k, hk, hlog, hst⟩ | ⟨hspin, hlog⟩
    · left
      rw [bind_of_ret _ _ _ _ _ (Prod.ext hret rfl)]
      exact ⟨rfl, Or.inr ⟨trivial, k, hk, hlog, hst⟩⟩
    · right
      rw [bind_of_spin _ _ _ _ (Prod.ext hspin rfl)]
      exact ⟨rfl, trivial, hlog⟩

/-- C5, as the code has it: for a non-null gptr owned by the current host,
outside a parallel loop, `resolve` either returns `p.ptr` or is still polling.
It returns at once when the first test finds the object not acquired; otherwise
it issues one recall and polls until the object is not acquired by the Local
Directory, and returns `p.ptr` right after the test that said so.  While every
test finds the object acquired by the Local Directory it keeps polling. -/
theorem resolve_local_outside {σ : Type} (S : Sys σ) (fuel : Nat) (p : gptr)
    (w : World σ) (hnn : p.ptr ≠ 0) (hown : p.owner = S.networkHostID)
    (hout : S.inGaloisForEach w.st = false) :
    ((resolve S fuel p w).1 = .ret p.ptr ∧
      ((S.isAcquired p.ptr w.st = (false, (resolve S fuel p w).2.st) ∧
          (resolve S fuel p w).2.log = w.log ++ [.isAcquired p.ptr false]) ∨
        ((S.isAcquired p.ptr w.st).1 = true ∧
          ∃ k, k < fuel ∧
            (resolve S fuel p w).2.log =
              w.log ++ [.isAcquired p.ptr true, .recallLocal p.owner p.ptr] ++
                rounds [.isAcquiredBy p.ptr Cnx.localDirectory true] k ++
                [.isAcquiredBy p.ptr Cnx.localDirectory false] ∧
            ∃ sPrev, S.isAcquiredBy p.ptr Cnx.localDirectory sPrev =
              (false, (resolve S fuel p w).2.st)))) ∨
    ((resolve S fuel p w).1 = .spin ∧
      (S.isAcquired p.ptr w.st).1 = true ∧
      (resolve S fuel p w).2.log =
        w.log ++ [.isAcquired p.ptr true, .recallLocal p.owner p.ptr] ++
          rounds [.isAcquiredBy p.ptr Cnx.localDirectory true] fuel) := by
  rw [resolve_eq_go S fuel p w hnn, hown]
  exact go_local_outside_cases S fuel p.ptr w hout

/-- Instance of C5: on host 1 the object at 4096 is away at host 2; `resolve`
recalls it, polls twice and returns 4096 once the Local Directory let go of it. -/
theorem resolve_local_outside_witness :
    (examplePtr.ptr ≠ 0 ∧ examplePtr.owner = exampleSys.networkHostID ∧
      exampleSys.inGaloisForEach (Host.awaitingReturn 4096) = false) ∧
    resolve exampleSys 5 examplePtr ⟨Host.awaitingReturn 4096, []⟩ =
      (.ret 4096,
        ⟨{ Host.quiet with cached := [(4096, 2)], sent := [Request.recallReq 2 4096] },
          [.isAcquired 4096 true, .recallLocal 1 4096,
            .isAcquiredBy 4096 Cnx.localDirectory true,
            .isAcquiredBy 4096 Cnx.localDirectory true,
            .isAcquiredBy 4096 Cnx.localDirectory false]⟩) ∧
    (((resolve exampleSys 5 examplePtr ⟨Host.awaitingReturn 4096, []⟩).1 =
        .ret examplePtr.ptr ∧
      ((exampleSys.isAcquired examplePtr.ptr (Host.awaitingReturn 4096) =
            (false, (resolve exampleSys 5 examplePtr ⟨Host.awaitingReturn 4096, []⟩).2.st) ∧
          (resolve exampleSys 5 examplePtr ⟨Host.awaitingReturn 4096, []⟩).2.log =
            [] ++ [.isAcquired examplePtr.ptr false]) ∨
        ((exampleSys.isAcquired examplePtr.ptr (Host.awaitingReturn 4096)).1 = true ∧
          ∃ k, k < 5 ∧
            (resolve exampleSys 5 examplePtr ⟨Host.awaitingReturn 4096, []⟩).2.log =
              [] ++ [.isAcquired examplePtr.ptr true,
                  .recallLocal examplePtr.owner examplePtr.ptr] ++
                rounds [.isAcquiredBy examplePtr.ptr Cnx.localDirectory true] k ++
                [.isAcquiredBy examplePtr.ptr Cnx.localDirectory false] ∧
            ∃ sPrev, exampleSys.isAcquiredBy examplePtr.ptr Cnx.localDirectory sPrev =
              (false,
                (resolve exampleSys 5 examplePtr ⟨Host.awaitingReturn 4096, []⟩).2.st)))) ∨
    ((resolve exampleSys 5 examplePtr ⟨Host.awaitingReturn 4096, []⟩).1 = .spin ∧
      (exampleSys.isAcquired examplePtr.ptr (Host.awaitingReturn 4096)).1 = true ∧
      (resolve exampleSys 5 examplePtr ⟨Host.awaitingReturn 4096, []⟩).2.log =
        [] ++ [.isAcquired examplePtr.ptr true,
            .recallLocal examplePtr.owner examplePtr.ptr] ++
          rounds [.isAcquiredBy examplePtr.ptr Cnx.localDirectory true] 5)) :=
  ⟨⟨by decide, rfl, rfl⟩, rfl,
    resolve_local_outside exampleSys 5 examplePtr ⟨Host.awaitingReturn 4096, []⟩
      (by decide) rfl rfl⟩

/-- Counterexample to C5 as stated: on host 1 the object at 4096 is free;
`transientAcquire` acquires it for the transient context; a `resolve` outside
any parallel loop then returns 4096 after one recall and one test, although the
object is still acquired (by the transient context) when it returns. -/
theorem resolve_outside_returns_held_object :
    transientAcquire exampleSys 1 examplePtr ⟨Host.quiet, []⟩ =
      (.ret 4096, ⟨Host.heldBy 4096 Cnx.transCnx false, [.try_acquire 4096 true]⟩) ∧
    examplePtr.ptr ≠ 0 ∧ examplePtr.owner = exampleSys.networkHostID ∧
    exampleSys.inGaloisForEach (Host.heldBy 4096 Cnx.transCnx false) = false ∧
    resolve exampleSys 1 examplePtr ⟨Host.heldBy 4096 Cnx.transCnx false, []⟩ =
      (.ret 4096, ⟨Host.heldBy 4096 Cnx.transCnx false,
        [.isAcquired 4096 true, .recallLocal 1 4096,
          .isAcquiredBy 4096 Cnx.localDirectory false]⟩) ∧
    (Host.heldBy 4096 Cnx.transCnx false).ownerOf 4096 = some Cnx.transCnx ∧
    (exampleSys.isAcquired 4096 (Host.heldBy 4096 Cnx.transCnx false)).1 = true := by
  refine ⟨rfl, by decide, rfl, rfl, rfl, rfl, rfl⟩

/-- C6: inside a parallel loop `resolve` on a non-null local gptr does not wait:
its result does not depend on the iteration budget, it makes one `acquire`
attempt, and it either returns the pointer (the attempt succeeded) or throws a
conflict signal after one recall (the attempt failed). -/
theorem resolve_local_inLoop_no_wait {σ : Type} (S : Sys σ) (fuel : Nat) (p : gptr)
    (w : World σ) (hnn : p.ptr ≠ 0) (hown : p.owner = S.networkHostID)
    (hin : S.inGaloisForEach w.st = true) :
    resolve S fuel p w = resolve S 0 p w ∧
    (((S.acquire p.ptr w.st).1 = true ∧
        resolve S fuel p w =
          (.ret p.ptr, ⟨(S.acquire p.ptr w.st).2, w.log ++ [.acquire p.ptr true]⟩)) ∨
      ((S.acquire p.ptr w.st).1 = false ∧
        ∃ (e : Signal) (b : Bool) (s2 : σ),
          (e = Signal.remote_ex p.ptr p.owner p.ptr ∨ e = Signal.conflict_ex p.ptr) ∧
          resolve S fuel p w =
            (.raise e, ⟨s2, w.log ++ [.acquire p.ptr false, .recallLocal p.owner p.ptr,
              .isAcquiredBy p.ptr Cnx.localDirectory b]⟩))) := by
  have h := go_local_inLoop S fuel p.ptr w hin
  have h0 := go_local_inLoop S 0 p.ptr w hin
  rw [← hown] at h h0
  rw [resolve_eq_go S fuel p w hnn, resolve_eq_go S 0 p w hnn]
  refine ⟨h.trans h0.symm, ?_⟩
  rw [h]
  cases hacq : (S.acquire p.ptr w.st).1
  · right
    refine ⟨rfl, _, _, _, ?_, if_neg (by simp)⟩
    by_cases hb : (S.isAcquiredBy p.ptr Cnx.localDirectory
        (S.recallLocal (p.owner, p.ptr) (S.acquire p.ptr w.st).2)).1 = true
    · left
      rw [if_pos hb]
    · right
      rw [if_neg hb]
  · left
    exact ⟨rfl, if_pos rfl⟩

/-- Instance of C6 on host 1: the object at 4096 is held by worker 1 and worker 0
resolves a pointer to it inside a parallel loop. -/
theorem resolve_local_inLoop_no_wait_witness :
    (examplePtr.ptr ≠ 0 ∧ examplePtr.owner = exampleSys.networkHostID ∧
      exampleSys.inGaloisForEach (Host.heldBy 4096 (Cnx.worker 1) true) = true) ∧
    resolve exampleSys 7 examplePtr ⟨Host.heldBy 4096 (Cnx.worker 1) true, []⟩ =
      resolve exampleSys 0 examplePtr ⟨Host.heldBy 4096 (Cnx.worker 1) true, []⟩ ∧
    (((exampleSys.acquire examplePtr.ptr (Host.heldBy 4096 (Cnx.worker 1) true)).1 = true ∧
        resolve exampleSys 7 examplePtr ⟨Host.heldBy 4096 (Cnx.worker 1) true, []⟩ =
          (.ret examplePtr.ptr,
            ⟨(exampleSys.acquire examplePtr.ptr (Host.heldBy 4096 (Cnx.worker 1) true)).2,
              [] ++ [.acquire examplePtr.ptr true]⟩)) ∨
      ((exampleSys.acquire examplePtr.ptr (Host.heldBy 4096 (Cnx.worker 1) true)).1 = false ∧
        ∃ (e : Signal) (b : Bool) (s2 : Host),
          (e = Signal.remote_ex examplePtr.ptr examplePtr.owner examplePtr.ptr ∨
            e = Signal.conflict_ex examplePtr.ptr) ∧
          resolve exampleSys 7 examplePtr ⟨Host.heldBy 4096 (Cnx.worker 1) true, []⟩ =
            (.raise e, ⟨s2, [] ++ [.acquire examplePtr.ptr false,
              .recallLocal examplePtr.owner examplePtr.ptr,
              .isAcquiredBy examplePtr.ptr Cnx.localDirectory b]⟩))) :=
  ⟨⟨by decide, rfl, rfl⟩,
    resolve_local_inLoop_no_wait exampleSys 7 examplePtr
      ⟨Host.heldBy 4096 (Cnx.worker 1) true, []⟩ (by decide) rfl rfl⟩

/-- C7: for a non-null gptr owned by the current host, a `resolve` that returns,
inside or outside a parallel loop, returns the address `p.ptr` itself, and
`operator->` and `operator*` both yield the object at that address. -/
theorem resolve_local_returns_direct {σ : Type} (S : Sys σ) (fuel : Nat) (p : gptr)
    (w w1 : World σ) (a : Addr) (hnn : p.ptr ≠ 0) (hown : p.owner = S.networkHostID)
    (hret : resolve S fuel p w = (.ret a, w1)) :
    a = p.ptr ∧ gptr.operator_arrow S fuel p w = (.ret p.ptr, w1) ∧
      gptr.operator_star S fuel p w = (.ret p.ptr, w1) := by
  have ha : a = p.ptr := by
    rw [resolve_eq_go S fuel p w hnn, hown] at hret
    cases hin : S.inGaloisForEach w.st
    · rcases go_local_outside_cases S fuel p.ptr w hin with ⟨h1, _⟩ | ⟨h1, _⟩
      · rw [hret] at h1
        exact Outcome.ret.inj h1
      · rw [hret] at h1
        cases h1
    · rw [go_local_inLoop S fuel p.ptr w hin] at hret
      by_cases hacq : (S.acquire p.ptr w.st).1 = true
      · rw [if_pos hacq] at hret
        exact (Outcome.ret.inj (congrArg Prod.fst hret)).symm
      · rw [if_neg hacq] at hret
        cases congrArg Prod.fst hret
  subst ha
  refine ⟨rfl, hret, ?_⟩
  have hs : gptr.operator_star S fuel p w = resolve S fuel p w :=
    bind_pure_eq (resolve S fuel p) w
  rw [hs, hret]

/-- Instance of C7 on host 1: worker 0 resolves a pointer to the free object at
4096 inside a parallel loop and gets the address 4096. -/
theorem resolve_local_returns_direct_witness :
    (examplePtr.ptr ≠ 0 ∧ examplePtr.owner = exampleSys.networkHostID ∧
      resolve exampleSys 0 examplePtr ⟨{ Host.quiet with inForEach := true }, []⟩ =
        (.ret 4096, ⟨Host.heldBy 4096 (Cnx.worker 0) true, [.acquire 4096 true]⟩)) ∧
    ((4096 : Addr) = examplePtr.ptr ∧
      gptr.operator_arrow exampleSys 0 examplePtr ⟨{ Host.quiet with inForEach := true }, []⟩ =
        (.ret examplePtr.ptr, ⟨Host.heldBy 4096 (Cnx.worker 0) true, [.acquire 4096 true]⟩) ∧
      gptr.operator_star exampleSys 0 examplePtr ⟨{ Host.quiet with inForEach := true }, []⟩ =
        (.ret examplePtr.ptr, ⟨Host.heldBy 4096 (Cnx.worker 0) true, [.acquire 4096 true]⟩)) :=
  ⟨⟨by decide, rfl, rfl⟩,
    resolve_local_returns_direct exampleSys 0 examplePtr
      ⟨{ Host.quiet with inForEach := true }, []⟩
      ⟨Host.heldBy 4096 (Cnx.worker 0) true, [.acquire 4096 true]⟩ 4096 (by decide) rfl rfl⟩

/-! ### `resolve` on an object owned by another host -/

/-- On an object of another host, `go` first asks the Remote Directory for the
proxy, then reads the flag and either makes one `acquire` attempt on the proxy
or enters the loop of lines 77-80; whatever it returns is the proxy. -/
theorem go_remote {σ : Type} (S : Sys σ) (fuel : Nat) (owner : HostId) (ptr rptr : Addr)
    (w : World σ) (s1 : σ) (hrem : owner ≠ S.networkHostID)
    (hres : S.remoteResolve (owner, ptr) w.st = (rptr, s1)) :
    resolve_dispatch.go S fuel owner ptr w =
      if S.inGaloisForEach s1 = true then
        if (S.acquire rptr s1).1 = true then
          (.ret rptr, ⟨(S.acquire rptr s1).2,
            w.log ++ [.remoteResolve owner ptr rptr, .acquire rptr true]⟩)
        else
          (.raise (Signal.remote_ex rptr owner ptr), ⟨(S.acquire rptr s1).2,
            w.log ++ [.remoteResolve owner ptr rptr, .acquire rptr false]⟩)
      else
        DistM.bind (whileAcquired S rptr fuel) (fun _ w1 => (.ret rptr, w1))
          ⟨s1, w.log ++ [.remoteResolve owner ptr rptr]⟩ := by
  have hr : remoteResolve S (owner, ptr) w =
      (.ret rptr, ⟨s1, w.log ++ [.remoteResolve owner ptr rptr]⟩) := by
    simp [remoteResolve, hres]
  simp only [resolve_dispatch.go, if_neg hrem, bind, pure]
  rw [bind_of_ret _ _ _ _ _ hr]
  cases hin : S.inGaloisForEach s1
  · rw [bind_of_ret (inGaloisForEach S) _ _
      ⟨s1, w.log ++ [.remoteResolve owner ptr rptr]⟩ false
      (by simp [inGaloisForEach, hin])]
    simp
  · rw [bind_of_ret (inGaloisForEach S) _ _ ⟨s1, w.log ++ [.remoteResolve owner ptr rptr]⟩ true
      (by simp [inGaloisForEach, hin])]
    cases hacq : (S.acquire rptr s1).1 <;>
    simp [DistM.bind, acquire, raise, hacq]

/-- C4, counterexample: on host 1 the Remote Directory places the proxy of the
object `(owner 2, address 1000)` at the local address 1000, and `resolve` of
that non-null gptr of another host returns 1000, the number it holds as
`p.ptr`. -/
theorem resolve_remote_returns_transmitted_number :
    (⟨1000, 2⟩ : gptr).ptr ≠ 0 ∧ (⟨1000, 2⟩ : gptr).owner ≠ exampleSys.networkHostID ∧
    exampleSys.remoteResolve (2, 1000) Host.quiet =
      (1000, { Host.quiet with proxies := [((2, 1000), 1000)], nextProxy := 1001,
                               sent := [Request.fetchReq 2 1000] }) ∧
    (resolve exampleSys 1 ⟨1000, 2⟩ ⟨Host.quiet, []⟩).1 =
      Outcome.ret (⟨1000, 2⟩ : gptr).ptr := by
  refine ⟨by decide, by decide, rfl, rfl⟩

/-- C4 as amended: for a non-null gptr owned by another host, whatever `resolve`
returns is the proxy `rptr` that the Remote Directory's resolve yields for
`(owner, ptr)`, whatever number that is.  Inside a parallel loop there is one
`acquire` attempt on the proxy, whose failure throws `remote_ex{rptr, owner, ptr}`;
outside, `resolve` polls `isAcquired(rptr)` and returns the proxy right after the
test that found it not acquired. -/
theorem resolve_remote_proxy {σ : Type} (S : Sys σ) (fuel : Nat) (p : gptr)
    (w : World σ) (rptr : Addr) (s1 : σ) (hnn : p.ptr ≠ 0)
    (hrem : p.owner ≠ S.networkHostID)
    (hres : S.remoteResolve (p.owner, p.ptr) w.st = (rptr, s1)) :
    (∀ (a : Addr) (w1 : World σ), resolve S fuel p w = (.ret a, w1) → a = rptr) ∧
    (S.inGaloisForEach s1 = true →
      resolve S fuel p w =
        if (S.acquire rptr s1).1 = true then
          (.ret rptr, ⟨(S.acquire rptr s1).2,
            w.log ++ [.remoteResolve p.owner p.ptr rptr, .acquire rptr true]⟩)
        else
          (.raise (Signal.remote_ex rptr p.owner p.ptr), ⟨(S.acquire rptr s1).2,
            w.log ++ [.remoteResolve p.owner p.ptr rptr, .acquire rptr false]⟩)) ∧
    (S.inGaloisForEach s1 = false →
      ((resolve S fuel p w).1 = .ret rptr ∧
        ∃ k, k < fuel ∧
          (resolve S fuel p w).2.log =
            w.log ++ [.remoteResolve p.owner p.ptr rptr] ++
              rounds ([.isAcquired rptr true] ++ networkPoll S) k ++
              [.isAcquired rptr false] ∧
          ∃ sPrev, S.isAcquired rptr sPrev = (false, (resolve S fuel p w).2.st)) ∨
      ((resolve S fuel p w).1 = .spin ∧
        (resolve S fuel p w).2.log =
          w.log ++ [.remoteResolve p.owner p.ptr rptr] ++
            rounds ([.isAcquired rptr true] ++ networkPoll S) fuel)) := by
  have hgo := go_remote S fuel p.owner p.ptr rptr w s1 hrem hres
  rw [resolve_eq_go S fuel p w hnn]
  have hin : S.inGaloisForEach s1 = true →
      resolve_dispatch.go S fuel p.owner p.ptr w =
        if (S.acquire rptr s1).1 = true then
          (.ret rptr, ⟨(S.acquire rptr s1).2,
            w.log ++ [.remoteResolve p.owner p.ptr rptr, .acquire rptr true]⟩)
        else
          (.raise (Signal.remote_ex rptr p.owner p.ptr), ⟨(S.acquire rptr s1).2,
            w.log ++ [.remoteResolve p.owner p.ptr rptr, .acquire rptr false]⟩) := by
    intro h
    rw [hgo, if_pos h]
  have hout : S.inGaloisForEach s1 = false →
      ((resolve_dispatch.go S fuel p.owner p.ptr w).1 = .ret rptr ∧
        ∃ k, k < fuel ∧
          (resolve_dispatch.go S fuel p.owner p.ptr w).2.log =
            w.log ++ [.remoteResolve p.owner p.ptr rptr] ++
              rounds ([.isAcquired rptr true] ++ networkPoll S) k ++
              [.isAcquired rptr false] ∧
          ∃ sPrev, S.isAcquired rptr sPrev =
            (false, (resolve_dispatch.go S fuel p.owner p.ptr w).2.st)) ∨
      ((resolve_dispatch.go S fuel p.owner p.ptr w).1 = .spin ∧
        (resolve_dispatch.go S fuel p.owner p.ptr w).2.log =
          w.log ++ [.remoteResolve p.owner p.ptr rptr] ++
            rounds ([.isAcquired rptr true] ++ networkPoll S) fuel) := by
    intro h
    rw [hgo, if_neg (by simp [h])]
    rcases whileAcquired_spec S rptr fuel
        ⟨s1, w.log ++ [.remoteResolve p.owner p.ptr rptr]⟩ with
      ⟨hret, k, hk, hlog, hst⟩ | ⟨hspin, hlog⟩
    · left
      rw [bind_of_ret _ _ _ _ _ (Prod.ext hret rfl)]
      exact ⟨rfl, k, hk, hlog, hst⟩
    · right
      rw [bind_of_spin _ _ _ _ (Prod.ext hspin rfl)]
      exact ⟨rfl, hlog⟩
  have hproxy : ∀ (a : Addr) (w1 : World σ),
      resolve_dispatch.go S fuel p.owner p.ptr w = (.ret a, w1) → a = rptr := by
    intro a w1 hret
    cases hflag : S.inGaloisForEach s1
    · rcases hout hflag with ⟨h1, _⟩ | ⟨h1, _⟩
      · rw [hret] at h1
        exact Outcome.ret.inj h1
      · rw [hret] at h1
        cases h1
    · have h2 := hin hflag
      rw [hret] at h2
      by_cases hacq : (S.acquire rptr s1).1 = true
      · rw [if_pos hacq] at h2
        exact Outcome.ret.inj (congrArg Prod.fst h2)
      · rw [if_neg hacq] at h2
        cases congrArg Prod.fst h2
  exact ⟨hproxy, hin, hout⟩

/-- Instance of C4 on host 1, outside a parallel loop: the proxy of the object
`(2, 4096)` is at 5000 and acquired; `resolve` tests it, handles the network
once, tests it again and returns 5000. -/
theorem resolve_remote_proxy_witness :
    (exampleRemotePtr.ptr ≠ 0 ∧ exampleRemotePtr.owner ≠ exampleSys.networkHostID ∧
      exampleSys.remoteResolve (exampleRemotePtr.owner, exampleRemotePtr.ptr) proxyHost =
        (5000, proxyHostAsked)) ∧
    resolve exampleSys 4 exampleRemotePtr ⟨proxyHost, []⟩ =
      (.ret 5000,
        ⟨{ Host.quiet with proxies := [((2, 4096), 5000)] },
          [.remoteResolve 2 4096 5000, .isAcquired 5000 true, .handleReceives,
            .isAcquired 5000 false]⟩) ∧
    ((∀ (a : Addr) (w1 : World Host),
        resolve exampleSys 4 exampleRemotePtr ⟨proxyHost, []⟩ = (.ret a, w1) → a = 5000) ∧
    (exampleSys.inGaloisForEach proxyHostAsked = true →
      resolve exampleSys 4 exampleRemotePtr ⟨proxyHost, []⟩ =
        if (exampleSys.acquire 5000 proxyHostAsked).1 = true then
          (.ret 5000, ⟨(exampleSys.acquire 5000 proxyHostAsked).2,
            [] ++ [.remoteResolve exampleRemotePtr.owner exampleRemotePtr.ptr 5000,
              .acquire 5000 true]⟩)
        else
          (.raise (Signal.remote_ex 5000 exampleRemotePtr.owner exampleRemotePtr.ptr),
            ⟨(exampleSys.acquire 5000 proxyHostAsked).2,
              [] ++ [.remoteResolve exampleRemotePtr.owner exampleRemotePtr.ptr 5000,
                .acquire 5000 false]⟩)) ∧
    (exampleSys.inGaloisForEach proxyHostAsked = false →
      ((resolve exampleSys 4 exampleRemotePtr ⟨proxyHost, []⟩).1 = .ret 5000 ∧
        ∃ k, k < 4 ∧
          (resolve exampleSys 4 exampleRemotePtr ⟨proxyHost, []⟩).2.log =
            [] ++ [.remoteResolve exampleRemotePtr.owner exampleRemotePtr.ptr 5000] ++
              rounds ([.isAcquired 5000 true] ++ networkPoll exampleSys) k ++
              [.isAcquired 5000 false] ∧
          ∃ sPrev, exampleSys.isAcquired 5000 sPrev =
            (false, (resolve exampleSys 4 exampleRemotePtr ⟨proxyHost, []⟩).2.st)) ∨
      ((resolve exampleSys 4 exampleRemotePtr ⟨proxyHost, []⟩).1 = .spin ∧
        (resolve exampleSys 4 exampleRemotePtr ⟨proxyHost, []⟩).2.log =
          [] ++ [.remoteResolve exampleRemotePtr.owner exampleRemotePtr.ptr 5000] ++
            rounds ([.isAcquired 5000 true] ++ networkPoll exampleSys) 4))) :=
  ⟨⟨by decide, by decide, rfl⟩, rfl,
    resolve_remote_proxy exampleSys 4 exampleRemotePtr ⟨proxyHost, []⟩ 5000 proxyHostAsked
      (by decide) (by decide) rfl⟩

/-! ### `transientAcquire` -/

/-- The local loop of `transientAcquire` either returns `p.ptr` right after a
`try_acquire(p.ptr)` that succeeded, every earlier attempt having failed and
been followed by a recall and the network poll, or has used up its budget in
failed attempts. -/
theorem transientAcquire_localLoop_spec {σ : Type} (S : Sys σ) (p : gptr) :
    ∀ (fuel : Nat) (w : World σ),
      ((transientAcquire.localLoop S p fuel w).1 = .ret p.ptr ∧
        ∃ k, k < fuel ∧
          (transientAcquire.localLoop S p fuel w).2.log =
            w.log ++ rounds ([.try_acquire p.ptr false, .recallLocal p.owner p.ptr] ++
                networkPoll S) k ++
              [.try_acquire p.ptr true] ∧
          ∃ sPrev, S.try_acquire p.ptr sPrev =
            (true, (transientAcquire.localLoop S p fuel w).2.st)) ∨
      ((transientAcquire.localLoop S p fuel w).1 = .spin ∧
        (transientAcquire.localLoop S p fuel w).2.log =
          w.log ++ rounds ([.try_acquire p.ptr false, .recallLocal p.owner p.ptr] ++
            networkPoll S) fuel) := by
  intro fuel
  induction fuel with
  | zero =>
    intro w
    right
    simp [transientAcquire.localLoop, spin, rounds]
  | succ n ih =>
    intro w
    cases hb : (S.try_acquire p.ptr w.st).1 with
    | true =>
      left
      have hrun : transientAcquire.localLoop S p (n + 1) w =
          (.ret p.ptr, ⟨(S.try_acquire p.ptr w.st).2, w.log ++ [.try_acquire p.ptr true]⟩) := by
        simp [transientAcquire.localLoop, bind, DistM.bind, pure, try_acquire, hb]
      rw [hrun]
      refine ⟨rfl, 0, Nat.succ_pos n, by simp [rounds], w.st, ?_⟩
      exact Prod.ext hb rfl
    | false =>
      have hrun : transientAcquire.localLoop S p (n + 1) w =
          transientAcquire.localLoop S p n
            ⟨if S.getTID = 0 then
                (S.handleReceives (S.recallLocal (p.owner, p.ptr) (S.try_acquire p.ptr w.st).2)).2
              else S.recallLocal (p.owner, p.ptr) (S.try_acquire p.ptr w.st).2,
              w.log ++ [.try_acquire p.ptr false, .recallLocal p.owner p.ptr] ++
                networkPoll S⟩ := by
        simp only [transientAcquire.localLoop, bind, pure]
        rw [bind_of_ret (try_acquire S p.ptr) _ w
          ⟨(S.try_acquire p.ptr w.st).2, w.log ++ [.try_acquire p.ptr false]⟩ false
          (by simp [try_acquire, hb])]
        simp only [Bool.not_false, if_true]
        rw [bind_of_ret (recallLocal S (p.owner, p.ptr)) _ _
          ⟨S.recallLocal (p.owner, p.ptr) (S.try_acquire p.ptr w.st).2,
            w.log ++ [.try_acquire p.ptr false, .recallLocal p.owner p.ptr]⟩ ()
          (by simp [recallLocal])]
        rw [bind_of_ret (pollNetwork S) _ _ _ () (pollNetwork_eq S _)]
      rw [hrun]
      rcases ih ⟨if S.getTID = 0 then
                (S.handleReceives (S.recallLocal (p.owner, p.ptr) (S.try_acquire p.ptr w.st).2)).2
              else S.recallLocal (p.owner, p.ptr) (S.try_acquire p.ptr w.st).2,
              w.log ++ [.try_acquire p.ptr false, .recallLocal p.owner p.ptr] ++
                networkPoll S⟩ with
        ⟨hret, k, hk, hlog, hst⟩ | ⟨hspin, hlog⟩
      · left
        refine ⟨hret, k + 1, Nat.succ_lt_succ hk, ?_, hst⟩
        rw [hlog]
        simp [rounds, List.append_assoc]
      · right
        refine ⟨hspin, ?_⟩
        rw [hlog]
        simp [rounds, List.append_assoc]

/-- The remote loop of `transientAcquire` either returns the proxy `r` that the
Remote Directory just yielded, right after a `try_acquire(r)` that succeeded,
every earlier iteration having failed on the proxy it was given, or has used up
its budget in failed iterations. -/
theorem transientAcquire_remoteLoop_spec {σ : Type} (S : Sys σ) (p : gptr) :
    ∀ (fuel : Nat) (w : World σ),
      (∃ r, (transientAcquire.remoteLoop S p fuel w).1 = .ret r ∧
        ∃ rs : List Addr, rs.length < fuel ∧
          (transientAcquire.remoteLoop S p fuel w).2.log =
            w.log ++ failedRemoteRounds S p rs ++
              [.remoteResolve p.owner p.ptr r, .try_acquire r true] ∧
          ∃ sPrev, S.try_acquire r sPrev =
            (true, (transientAcquire.remoteLoop S p fuel w).2.st)) ∨
      ((transientAcquire.remoteLoop S p fuel w).1 = .spin ∧
        ∃ rs : List Addr, rs.length = fuel ∧
          (transientAcquire.remoteLoop S p fuel w).2.log =
            w.log ++ failedRemoteRounds S p rs) := by
  intro fuel
  induction fuel with
  | zero =>
    intro w
    right
    exact ⟨rfl, [], rfl, by simp [transientAcquire.remoteLoop, spin, failedRemoteRounds]⟩
  | succ n ih =>
    intro w
    have hr : remoteResolve S (p.owner, p.ptr) w =
        (.ret (S.remoteResolve (p.owner, p.ptr) w.st).1,
          ⟨(S.remoteResolve (p.owner, p.ptr) w.st).2,
            w.log ++ [.remoteResolve p.owner p.ptr (S.remoteResolve (p.owner, p.ptr) w.st).1]⟩) :=
      rfl
    generalize hrp : (S.remoteResolve (p.owner, p.ptr) w.st).1 = r at hr
    generalize hs1 : (S.remoteResolve (p.owner, p.ptr) w.st).2 = s1 at hr
    cases hb : (S.try_acquire r s1).1 with
    | true =>
      left
      have hrun : transientAcquire.remoteLoop S p (n + 1) w =
          (.ret r, ⟨(S.try_acquire r s1).2,
            w.log ++ [.remoteResolve p.owner p.ptr r, .try_acquire r true]⟩) := by
        simp only [transientAcquire.remoteLoop, bind, pure]
        rw [bind_of_ret _ _ _ _ _ hr]
        simp [DistM.bind, try_acquire, hb]
      rw [hrun]
      refine ⟨r, rfl, [], Nat.succ_pos n, by simp [failedRemoteRounds], s1, ?_⟩
      exact Prod.ext hb rfl
    | false =>
      have hrun : transientAcquire.remoteLoop S p (n + 1) w =
          transientAcquire.remoteLoop S p n
            ⟨if S.getTID = 0 then (S.handleReceives (S.try_acquire r s1).2).2
              else (S.try_acquire r s1).2,
              w.log ++ [.remoteResolve p.owner p.ptr r, .try_acquire r false] ++
                networkPoll S⟩ := by
        simp only [transientAcquire.remoteLoop, bind, pure]
        rw [bind_of_ret _ _ _ _ _ hr]
        rw [bind_of_ret (try_acquire S r) _ _
          ⟨(S.try_acquire r s1).2,
            w.log ++ [.remoteResolve p.owner p.ptr r, .try_acquire r false]⟩ false
          (by simp [try_acquire, hb])]
        simp only [Bool.false_eq_true, if_false]
        rw [bind_of_ret (pollNetwork S) _ _ _ () (pollNetwork_eq S _)]
      rw [hrun]
      rcases ih ⟨if S.getTID = 0 then (S.handleReceives (S.try_acquire r s1).2).2
              else (S.try_acquire r s1).2,
              w.log ++ [.remoteResolve p.owner p.ptr r, .try_acquire r false] ++
                networkPoll S⟩ with
        ⟨r2, hret, rs, hk, hlog, hst⟩ | ⟨hspin, rs, hk, hlog⟩
      · left
        refine ⟨r2, hret, r :: rs, ?_, ?_, hst⟩
        · simpa using hk
        · rw [hlog]
          simp [failedRemoteRounds, List.append_assoc]
      · right
        refine ⟨hspin, r :: rs, ?_, ?_⟩
        · simpa using hk
        · rw [hlog]
          simp [failedRemoteRounds, List.append_assoc]

/-- C9: `transientAcquire` blocks and never signals a conflict.  It neither throws
nor asserts; when it returns, the returned object (`p.ptr` for a local gptr, the
proxy the Remote Directory just yielded for `(owner, ptr)` otherwise) is the one
whose `try_acquire` has just succeeded, and every earlier `try_acquire` failed
and was followed by a further attempt; otherwise it is still trying, each
iteration so far having ended in a failed attempt. -/
theorem transientAcquire_blocking {σ : Type} (S : Sys σ) (fuel : Nat) (p : gptr)
    (w : World σ) :
    (∀ e : Signal, (transientAcquire S fuel p w).1 ≠ .raise e) ∧
    (transientAcquire S fuel p w).1 ≠ .assertFail ∧
    (p.owner = S.networkHostID →
      ((transientAcquire S fuel p w).1 = .ret p.ptr ∧
        ∃ k, k < fuel ∧
          (transientAcquire S fuel p w).2.log =
            w.log ++ rounds ([.try_acquire p.ptr false, .recallLocal p.owner p.ptr] ++
                networkPoll S) k ++
              [.try_acquire p.ptr true] ∧
          ∃ sPrev, S.try_acquire p.ptr sPrev = (true, (transientAcquire S fuel p w).2.st)) ∨
      ((transientAcquire S fuel p w).1 = .spin ∧
        (transientAcquire S fuel p w).2.log =
          w.log ++ rounds ([.try_acquire p.ptr false, .recallLocal p.owner p.ptr] ++
            networkPoll S) fuel)) ∧
    (p.owner ≠ S.networkHostID →
      (∃ r, (transientAcquire S fuel p w).1 = .ret r ∧
        ∃ rs : List Addr, rs.length < fuel ∧
          (transientAcquire S fuel p w).2.log =
            w.log ++ failedRemoteRounds S p rs ++
              [.remoteResolve p.owner p.ptr r, .try_acquire r true] ∧
          ∃ sPrev, S.try_acquire r sPrev = (true, (transientAcquire S fuel p w).2.st)) ∨
      ((transientAcquire S fuel p w).1 = .spin ∧
        ∃ rs : List Addr, rs.length = fuel ∧
          (transientAcquire S fuel p w).2.log = w.log ++ failedRemoteRounds S p rs)) := by
  by_cases hown : p.owner = S.networkHostID
  · have hrun : transientAcquire S fuel p w = transientAcquire.localLoop S p fuel w := by
      simp [transientAcquire, hown]
    rw [hrun]
    have hspec := transientAcquire_localLoop_spec S p fuel w
    refine ⟨?_, ?_, fun _ => hspec, fun h => absurd hown h⟩
    · intro e he
      rcases hspec with ⟨h1, _⟩ | ⟨h1, _⟩ <;> rw [he] at h1 <;> cases h1
    · intro he
      rcases hspec with ⟨h1, _⟩ | ⟨h1, _⟩ <;> rw [he] at h1 <;> cases h1
  · have hrun : transientAcquire S fuel p w = transientAcquire.remoteLoop S p fuel w := by
      simp [transientAcquire, hown]
    rw [hrun]
    have hspec := transientAcquire_remoteLoop_spec S p fuel w
    refine ⟨?_, ?_, fun h => absurd h hown, fun _ => hspec⟩
    · intro e he
      rcases hspec with ⟨r, h1, _⟩ | ⟨h1, _⟩ <;> rw [he] at h1 <;> cases h1
    · intro he
      rcases hspec with ⟨r, h1, _⟩ | ⟨h1, _⟩ <;> rw [he] at h1 <;> cases h1

/-- Instance of C9 on host 1: the object at 4096 is away at host 2; the first
attempt fails, the recall is sent, the network poll handles the message that
gives the object back, and the second attempt acquires it. -/
theorem transientAcquire_blocking_witness :
    transientAcquire exampleSys 3 examplePtr ⟨Host.lentOut 4096, []⟩ =
      (.ret 4096,
        ⟨{ Host.quiet with
            owners := [(4096, Cnx.transCnx)], sent := [Request.recallReq 2 4096] },
          [.try_acquire 4096 false, .recallLocal 1 4096, .handleReceives,
            .try_acquire 4096 true]⟩) ∧
    (∀ e : Signal,
      (transientAcquire exampleSys 3 examplePtr ⟨Host.lentOut 4096, []⟩).1 ≠ .raise e) :=
  ⟨rfl, (transientAcquire_blocking exampleSys 3 examplePtr ⟨Host.lentOut 4096, []⟩).1⟩

/-! ### Recall -/

/-- C8: on the model of the Local Directory, a recall for a locally-owned object
that no remote host caches changes nothing: the host state (directory, locks,
network) is the same after it, the call returns normally, and issuing it twice
is the same as issuing it once. -/
theorem recall_without_remote_cache (s : Host) (key : HostId × Addr)
    (hostId tid : Nat) (me : Cnx) (ndebug : Bool) (log : List Event)
    (hnone : s.cached.lookup key.2 = none) (hquiet : s.sched = []) :
    s.recall key = s ∧ (s.recall key).recall key = s.recall key ∧
    recallLocal (hostSys hostId tid me ndebug) key ⟨s, log⟩ =
      (.ret (), ⟨s, log ++ [.recallLocal key.1 key.2]⟩) ∧
    DistM.bind (recallLocal (hostSys hostId tid me ndebug) key)
        (fun _ => recallLocal (hostSys hostId tid me ndebug) key) ⟨s, log⟩ =
      (.ret (), ⟨s, log ++ [.recallLocal key.1 key.2, .recallLocal key.1 key.2]⟩) := by
  have h1 : s.recall key = s := by
    simp [Host.recall, hnone]
  have htick : s.tick = s := by
    simp [Host.tick, hquiet]
  have h2 : recallLocal (hostSys hostId tid me ndebug) key ⟨s, log⟩ =
      (.ret (), ⟨s, log ++ [.recallLocal key.1 key.2]⟩) := by
    simp [recallLocal, hostSys, htick, h1]
  have h3 : recallLocal (hostSys hostId tid me ndebug) key
        ⟨s, log ++ [.recallLocal key.1 key.2]⟩ =
      (.ret (), ⟨s, log ++ [.recallLocal key.1 key.2, .recallLocal key.1 key.2]⟩) := by
    simp [recallLocal, hostSys, htick, h1]
  refine ⟨h1, by rw [h1, h1], h2, ?_⟩
  rw [bind_of_ret _ _ _ _ _ h2, h3]

/-- Instance of C8 on host 1: the object at 4096 is held by worker 1 and no remote
host caches it. -/
theorem recall_without_remote_cache_witness :
    ((Host.heldBy 4096 (Cnx.worker 1) true).cached.lookup ((1, 4096) : HostId × Addr).2 = none ∧
      (Host.heldBy 4096 (Cnx.worker 1) true).sched = []) ∧
    ((Host.heldBy 4096 (Cnx.worker 1) true).recall (1, 4096) =
        Host.heldBy 4096 (Cnx.worker 1) true ∧
      ((Host.heldBy 4096 (Cnx.worker 1) true).recall (1, 4096)).recall (1, 4096) =
        (Host.heldBy 4096 (Cnx.worker 1) true).recall (1, 4096) ∧
      recallLocal (hostSys 1 0 (Cnx.worker 0) false) (1, 4096)
          ⟨Host.heldBy 4096 (Cnx.worker 1) true, []⟩ =
        (.ret (), ⟨Host.heldBy 4096 (Cnx.worker 1) true,
          [] ++ [.recallLocal ((1, 4096) : HostId × Addr).1 ((1, 4096) : HostId × Addr).2]⟩) ∧
      DistM.bind (recallLocal (hostSys 1 0 (Cnx.worker 0) false) (1, 4096))
          (fun _ => recallLocal (hostSys 1 0 (Cnx.worker 0) false) (1, 4096))
          ⟨Host.heldBy 4096 (Cnx.worker 1) true, []⟩ =
        (.ret (), ⟨Host.heldBy 4096 (Cnx.worker 1) true,
          [] ++ [.recallLocal ((1, 4096) : HostId × Addr).1 ((1, 4096) : HostId × Addr).2,
            .recallLocal ((1, 4096) : HostId × Addr).1 ((1, 4096) : HostId × Addr).2]⟩)) :=
  ⟨⟨rfl, rfl⟩,
    recall_without_remote_cache (Host.heldBy 4096 (Cnx.worker 1) true) (1, 4096) 1 0
      (Cnx.worker 0) false [] rfl rfl⟩

/-! ### Null pointers, equality and order of global pointers -/

/-- C11: a default-constructed gptr has owner 0 and ptr 0 and converts to
`false`, on whatever host it is built; and a gptr converts to `false` exactly
when its ptr is 0. -/
theorem gptr_mkNull_is_null :
    gptr.mkNull.owner = 0 ∧ gptr.mkNull.ptr = 0 ∧ gptr.operator_bool gptr.mkNull = false ∧
    (∀ g : gptr, gptr.operator_bool g = false ↔ g.ptr = 0) ∧
    (∀ g : gptr, gptr.operator_bool g = true ↔ g.ptr ≠ 0) := by
  refine ⟨rfl, rfl, rfl, ?_, ?_⟩
  · intro g
    simp [gptr.operator_bool]
  · intro g
    simp [gptr.operator_bool]

/-- The operator `==` decides equality of the two fields. -/
theorem gptr_operator_eq_iff (a b : gptr) :
    a.operator_eq b = true ↔ a.owner = b.owner ∧ a.ptr = b.ptr := by
  simp only [gptr.operator_eq, Bool.and_eq_true, decide_eq_true_eq]
  constructor
  · rintro ⟨h1, h2⟩
    exact ⟨h2.symm, h1.symm⟩
  · rintro ⟨h1, h2⟩
    exact ⟨h2.symm, h1.symm⟩

/-- C12: `a == b` holds exactly when `a` and `b` have the same owner and the same
address; `a != b` is its negation; `==` is reflexive, symmetric and transitive;
and equal addresses with different owners compare unequal. -/
theorem gptr_operator_eq_equivalence :
    (∀ a b : gptr, a.operator_eq b = true ↔ a.owner = b.owner ∧ a.ptr = b.ptr) ∧
    (∀ a b : gptr, a.operator_ne b = !a.operator_eq b) ∧
    (∀ a : gptr, a.operator_eq a = true) ∧
    (∀ a b : gptr, a.operator_eq b = true → b.operator_eq a = true) ∧
    (∀ a b c : gptr, a.operator_eq b = true → b.operator_eq c = true →
      a.operator_eq c = true) ∧
    (∀ a b : gptr, a.ptr = b.ptr → a.owner ≠ b.owner →
      a.operator_eq b = false ∧ a.operator_ne b = true) := by
  have hne : ∀ a b : gptr, a.operator_ne b = !a.operator_eq b := by
    intro a b
    simp only [gptr.operator_ne, gptr.operator_eq, Bool.not_and]
    by_cases h1 : b.ptr = a.ptr <;> by_cases h2 : b.owner = a.owner <;> simp [h1, h2]
  refine ⟨gptr_operator_eq_iff, hne, ?_, ?_, ?_, ?_⟩
  · intro a
    exact (gptr_operator_eq_iff a a).2 ⟨rfl, rfl⟩
  · intro a b h
    have h1 := (gptr_operator_eq_iff a b).1 h
    exact (gptr_operator_eq_iff b a).2 ⟨h1.1.symm, h1.2.symm⟩
  · intro a b c hab hbc
    have h1 := (gptr_operator_eq_iff a b).1 hab
    have h2 := (gptr_operator_eq_iff b c).1 hbc
    exact (gptr_operator_eq_iff a c).2 ⟨h1.1.trans h2.1, h1.2.trans h2.2⟩
  · intro a b _ ho
    have hf : a.operator_eq b = false := by
      cases h : a.operator_eq b
      · rfl
      · exact absurd ((gptr_operator_eq_iff a b).1 h).1 ho
    refine ⟨hf, ?_⟩
    rw [hne, hf]
    rfl

/-- Transitivity of the lexicographic order on pairs of numbers. -/
theorem lex_lt_trans (o1 p1 o2 p2 o3 p3 : Nat)
    (h12 : o1 < o2 ∨ (o1 = o2 ∧ p1 < p2)) (h23 : o2 < o3 ∨ (o2 = o3 ∧ p2 < p3)) :
    o1 < o3 ∨ (o1 = o3 ∧ p1 < p3) := by
  omega

/-- Trichotomy of the lexicographic order on pairs of numbers. -/
theorem lex_lt_trichotomy (o1 p1 o2 p2 : Nat) :
    ((o1 < o2 ∨ (o1 = o2 ∧ p1 < p2)) ∨ (o1 = o2 ∧ p1 = p2) ∨
      (o2 < o1 ∨ (o2 = o1 ∧ p2 < p1))) ∧
    ¬ ((o1 < o2 ∨ (o1 = o2 ∧ p1 < p2)) ∧ (o1 = o2 ∧ p1 = p2)) ∧
    ¬ ((o1 < o2 ∨ (o1 = o2 ∧ p1 < p2)) ∧ (o2 < o1 ∨ (o2 = o1 ∧ p2 < p1))) ∧
    ¬ ((o1 = o2 ∧ p1 = p2) ∧ (o2 < o1 ∨ (o2 = o1 ∧ p2 < p1))) := by
  omega

/-- The operator `<` is the lexicographic order on `(owner, ptr)`. -/
theorem gptr_operator_lt_iff (a b : gptr) :
    a.operator_lt b = true ↔ a.owner < b.owner ∨ (a.owner = b.owner ∧ a.ptr < b.ptr) := by
  unfold gptr.operator_lt
  by_cases h : a.owner = b.owner
  · simp [h]
  · simp only [if_neg h, decide_eq_true_eq]
    constructor
    · intro hlt
      exact Or.inl hlt
    · rintro (hlt | ⟨he, _⟩)
      · exact hlt
      · exact absurd he h

/-- C13: `operator<` is the lexicographic order on (owner, then address) and
`operator>` is its converse; `<` is irreflexive and transitive, and of `a < b`,
`a == b`, `b < a` exactly one holds. -/
theorem gptr_operator_lt_strict_total :
    (∀ a b : gptr, a.operator_lt b = true ↔
      a.owner < b.owner ∨ (a.owner = b.owner ∧ a.ptr < b.ptr)) ∧
    (∀ a b : gptr, a.operator_gt b = b.operator_lt a) ∧
    (∀ a : gptr, a.operator_lt a = false) ∧
    (∀ a b c : gptr, a.operator_lt b = true → b.operator_lt c = true →
      a.operator_lt c = true) ∧
    (∀ a b : gptr,
      (a.operator_lt b = true ∨ a.operator_eq b = true ∨ b.operator_lt a = true) ∧
      ¬ (a.operator_lt b = true ∧ a.operator_eq b = true) ∧
      ¬ (a.operator_lt b = true ∧ b.operator_lt a = true) ∧
      ¬ (a.operator_eq b = true ∧ b.operator_lt a = true)) := by
  refine ⟨gptr_operator_lt_iff, ?_, ?_, ?_, ?_⟩
  · intro a b
    unfold gptr.operator_gt gptr.operator_lt
    by_cases h : a.owner = b.owner
    · rw [if_pos h, if_pos h.symm]
    · rw [if_neg h, if_neg (fun e => h e.symm)]
  · intro a
    simp [gptr.operator_lt]
  · intro a b c hab hbc
    rw [gptr_operator_lt_iff] at hab hbc ⊢
    exact lex_lt_trans a.owner a.ptr b.owner b.ptr c.owner c.ptr hab hbc
  · intro a b
    rw [gptr_operator_lt_iff, gptr_operator_lt_iff, gptr_operator_eq_iff]
    exact lex_lt_trichotomy a.owner a.ptr b.owner b.ptr

/-! ### Which member operations change a global pointer -/

/-- The method `prefetch()` does nothing. -/
theorem gptr_prefetch_eq {σ : Type} (S : Sys σ) (g : gptr) (w : World σ) :
    gptr.prefetch S g w = (.ret (), w) := by
  simp [gptr.prefetch, pure]

/-- Counterexample to C14 as stated: on host 1 the gptr `(owner 1, address 4096)`
becomes the null gptr `(owner 0, address 0)` by `initialize(0)`, becomes
`(owner 3, address 8192)` by `deserialize` of a buffer holding that pointer, and
becomes `(owner 2, address 512)` by the assignment of that gptr. -/
theorem gptr_identity_changed_by_member :
    (gptr.call exampleSys 1 ⟨4096, 1⟩ (MemberOp.init 0) ⟨Host.quiet, []⟩).self = ⟨0, 0⟩ ∧
    (gptr.call exampleSys 1 ⟨4096, 1⟩ (MemberOp.init 0) ⟨Host.quiet, []⟩).self ≠ ⟨4096, 1⟩ ∧
    (gptr.call exampleSys 1 ⟨4096, 1⟩
        (MemberOp.deserialize (DeSerializeBuffer.ofBytes (gptr.serialize ⟨8192, 3⟩ [])))
        ⟨Host.quiet, []⟩).self = ⟨8192, 3⟩ ∧
    (gptr.call exampleSys 1 ⟨4096, 1⟩
        (MemberOp.deserialize (DeSerializeBuffer.ofBytes (gptr.serialize ⟨8192, 3⟩ [])))
        ⟨Host.quiet, []⟩).self ≠ ⟨4096, 1⟩ ∧
    (gptr.call exampleSys 1 ⟨4096, 1⟩ (MemberOp.operator_assign ⟨512, 2⟩)
        ⟨Host.quiet, []⟩).self = ⟨512, 2⟩ ∧
    (gptr.call exampleSys 1 ⟨4096, 1⟩ (MemberOp.operator_assign_move ⟨512, 2⟩)
        ⟨Host.quiet, []⟩).self = ⟨512, 2⟩ := by
  refine ⟨by decide, by decide, by decide, by decide, by decide, by decide⟩

/-- C14, as the code has it: a public member operation other than `initialize`,
`deserialize` and the two assignment operators leaves the owner and the
address of the gptr unchanged, however its call into the runtime ends;
`initialize(p)` sets the address to `p` and the owner to the current host id
when `p` is non-null and to 0 otherwise, a `deserialize` that reads a pair
sets both fields to it, and an assignment sets both fields to those of its
argument, whatever the gptr held before. -/
theorem gptr_identity_kept_by_members {σ : Type} (S : Sys σ) (fuel : Nat) (g : gptr)
    (op : MemberOp) (w : World σ)
    (hinit : ∀ p : Addr, op ≠ MemberOp.init p)
    (hdes : ∀ s : DeSerializeBuffer, op ≠ MemberOp.deserialize s)
    (hcopy : ∀ rhs : gptr, op ≠ MemberOp.operator_assign rhs)
    (hmove : ∀ rhs : gptr, op ≠ MemberOp.operator_assign_move rhs) :
    (gptr.call S fuel g op w).self.owner = g.owner ∧
    (gptr.call S fuel g op w).self.ptr = g.ptr ∧
    (∀ p : Addr, p ≠ 0 →
      (gptr.call S fuel g (MemberOp.init p) w).self = ⟨p, S.networkHostID⟩) ∧
    (gptr.call S fuel g (MemberOp.init 0) w).self = ⟨0, 0⟩ ∧
    (∀ (s s1 : DeSerializeBuffer) (g1 : gptr), gptr.deserialize g s = some (g1, s1) →
      (gptr.call S fuel g (MemberOp.deserialize s) w).self = g1) ∧
    (∀ rhs : gptr, (gptr.call S fuel g (MemberOp.operator_assign rhs) w).self = rhs ∧
      (gptr.call S fuel g (MemberOp.operator_assign_move rhs) w).self = rhs) := by
  have hsame : (gptr.call S fuel g op w).self = g := by
    cases op with
    | init p => exact absurd rfl (hinit p)
    | deserialize s => exact absurd rfl (hdes s)
    | operator_assign rhs => exact absurd rfl (hcopy rhs)
    | operator_assign_move rhs => exact absurd rfl (hmove rhs)
    | prefetch => rfl
    | operator_star => rfl
    | operator_arrow => rfl
    | operator_lt rhs => rfl
    | operator_gt rhs => rfl
    | operator_eq rhs => rfl
    | operator_ne rhs => rfl
    | operator_bool => rfl
    | isLocal => rfl
    | sameHost rhs => rfl
    | serialize s => rfl
    | dump => rfl
  refine ⟨by rw [hsame], by rw [hsame], ?_, ?_, ?_, ?_⟩
  · intro p hp
    simp [gptr.call, gptr.initialize, hp]
  · simp [gptr.call, gptr.initialize]
  · intro s s1 g1 hd
    simp [gptr.call, hd]
  · intro rhs
    exact ⟨rfl, rfl⟩

/-- Instance of C14 on host 1: dereferencing the gptr `(owner 1, address 4096)`
with `operator->` while another thread holds the object throws `conflict_ex`
and leaves the gptr as it is. -/
theorem gptr_identity_kept_by_members_witness :
    ((∀ p : Addr, MemberOp.operator_arrow ≠ MemberOp.init p) ∧
      (∀ s : DeSerializeBuffer, MemberOp.operator_arrow ≠ MemberOp.deserialize s) ∧
      (∀ rhs : gptr, MemberOp.operator_arrow ≠ MemberOp.operator_assign rhs) ∧
      (∀ rhs : gptr, MemberOp.operator_arrow ≠ MemberOp.operator_assign_move rhs)) ∧
    ((gptr.call exampleSys 1 ⟨4096, 1⟩ MemberOp.operator_arrow
        ⟨Host.heldBy 4096 (Cnx.worker 1) true, []⟩).value =
      MemberValue.pointer (Outcome.raise (Signal.conflict_ex 4096))) ∧
    ((gptr.call exampleSys 1 ⟨4096, 1⟩ MemberOp.operator_arrow
        ⟨Host.heldBy 4096 (Cnx.worker 1) true, []⟩).self.owner = (⟨4096, 1⟩ : gptr).owner ∧
      (gptr.call exampleSys 1 ⟨4096, 1⟩ MemberOp.operator_arrow
        ⟨Host.heldBy 4096 (Cnx.worker 1) true, []⟩).self.ptr = (⟨4096, 1⟩ : gptr).ptr ∧
      (∀ p : Addr, p ≠ 0 →
        (gptr.call exampleSys 1 ⟨4096, 1⟩ (MemberOp.init p)
          ⟨Host.heldBy 4096 (Cnx.worker 1) true, []⟩).self =
          ⟨p, exampleSys.networkHostID⟩) ∧
      (gptr.call exampleSys 1 ⟨4096, 1⟩ (MemberOp.init 0)
        ⟨Host.heldBy 4096 (Cnx.worker 1) true, []⟩).self = ⟨0, 0⟩ ∧
      (∀ (s s1 : DeSerializeBuffer) (g1 : gptr),
        gptr.deserialize ⟨4096, 1⟩ s = some (g1, s1) →
        (gptr.call exampleSys 1 ⟨4096, 1⟩ (MemberOp.deserialize s)
          ⟨Host.heldBy 4096 (Cnx.worker 1) true, []⟩).self = g1) ∧
      (∀ rhs : gptr,
        (gptr.call exampleSys 1 ⟨4096, 1⟩ (MemberOp.operator_assign rhs)
          ⟨Host.heldBy 4096 (Cnx.worker 1) true, []⟩).self = rhs ∧
        (gptr.call exampleSys 1 ⟨4096, 1⟩ (MemberOp.operator_assign_move rhs)
          ⟨Host.heldBy 4096 (Cnx.worker 1) true, []⟩).self = rhs)) :=
  ⟨⟨fun _ hc => MemberOp.noConfusion hc, fun _ hc => MemberOp.noConfusion hc,
      fun _ hc => MemberOp.noConfusion hc, fun _ hc => MemberOp.noConfusion hc⟩,
    by decide,
    gptr_identity_kept_by_members exampleSys 1 ⟨4096, 1⟩ MemberOp.operator_arrow
      ⟨Host.heldBy 4096 (Cnx.worker 1) true, []⟩
      (fun _ hc => MemberOp.noConfusion hc) (fun _ hc => MemberOp.noConfusion hc)
      (fun _ hc => MemberOp.noConfusion hc) (fun _ hc => MemberOp.noConfusion hc)⟩

/-! ### The allocator factory -/

/-- The created sizes of a trace in two parts. -/
theorem createdSizes_append (t1 t2 : List FactoryEvent) :
    createdSizes (t1 ++ t2) = createdSizes t1 ++ createdSizes t2 := by
  induction t1 with
  | nil => rfl
  | cons e rest ih =>
    cases e <;> simp [createdSizes, ih]

/-- A size is among the created ones exactly when the trace holds a creation for it. -/
theorem mem_createdSizes (t : List FactoryEvent) (s : Nat) :
    s ∈ createdSizes t ↔ ∃ a, FactoryEvent.create s a ∈ t := by
  induction t with
  | nil => simp [createdSizes]
  | cons e rest ih =>
    cases e with
    | lock => simp [createdSizes, ih]
    | unlock => simp [createdSizes, ih]
    | create s1 a1 =>
      simp only [createdSizes, List.mem_cons, ih, FactoryEvent.create.injEq]
      constructor
      · rintro (h | ⟨a, h⟩)
        · exact ⟨a1, Or.inl ⟨h, rfl⟩⟩
        · exact ⟨a, Or.inr h⟩
      · rintro ⟨a, (⟨h, _⟩ | h)⟩
        · exact Or.inl h
        · exact Or.inr ⟨a, h⟩

/-- A new factory satisfies the invariant. -/
theorem fresh_WF (live : List Addr) : (SizedAllocatorFactory.fresh live).WF := by
  refine ⟨?_, ?_, ?_, ?_⟩
  · intro k a h
    cases h
  · intro k1 k2 a h
    cases h
  · intro s a
    constructor
    · intro h
      cases h
    · intro h
      cases h
  · exact List.nodup_nil

/-- A call for a size whose allocator exists: the lock is taken and released,
nothing is created, the entry is returned. -/
theorem getAllocatorForSize_existing (newAddr : List Addr → Addr) (size : Nat)
    (f : SizedAllocatorFactory) (a : Addr) (hlock : f.lockHeld = false)
    (hne : a ≠ 0) (hex : f.allocators size = some a) :
    SizedAllocatorFactory.getAllocatorForSize newAddr size f =
      some (a, ⟨false, f.allocators, f.live,
        f.trace ++ [FactoryEvent.lock, FactoryEvent.unlock]⟩) := by
  have hidx : mapIndex f.allocators size = f.allocators := by
    funext k
    by_cases hk : k = size
    · simp [mapIndex, hk, hex]
    · simp [mapIndex, hk]
  simp [SizedAllocatorFactory.getAllocatorForSize, hlock, hidx, hex, hne]

/-- A call for a size without allocator: the lock is taken, one allocator is
created and entered in the map, the lock is released, the new allocator is
returned. -/
theorem getAllocatorForSize_absent (newAddr : List Addr → Addr) (size : Nat)
    (f : SizedAllocatorFactory) (hlock : f.lockHeld = false)
    (hex : f.allocators size = none) :
    SizedAllocatorFactory.getAllocatorForSize newAddr size f =
      some (newAddr f.live,
        ⟨false, mapAssign f.allocators size (newAddr f.live), newAddr f.live :: f.live,
          f.trace ++ [FactoryEvent.lock, FactoryEvent.create size (newAddr f.live),
            FactoryEvent.unlock]⟩) := by
  have hassign : mapAssign (mapIndex f.allocators size) size (newAddr f.live) =
      mapAssign f.allocators size (newAddr f.live) := by
    funext k
    by_cases hk : k = size
    · simp [mapAssign, hk]
    · simp [mapAssign, mapIndex, hk]
  have hget : (mapIndex f.allocators size size).getD 0 = 0 := by
    simp [mapIndex, hex]
  simp [SizedAllocatorFactory.getAllocatorForSize, hlock, hget, hassign, mapAssign]

/-- The creations recorded after a call that created an allocator. -/
theorem mem_trace_after_create (t : List FactoryEvent) (s size : Nat) (a b : Addr) :
    FactoryEvent.create s b ∈
        t ++ [FactoryEvent.lock, FactoryEvent.create size a, FactoryEvent.unlock] ↔
      FactoryEvent.create s b ∈ t ∨ (s = size ∧ b = a) := by
  simp

/-- One call on a factory that satisfies the invariant, the lock being free: it
returns a non-null allocator, now the entry of the size; the invariant holds
again, the lock is free again, the entries that existed are kept, and a new
entry can only be one for the size requested. -/
theorem getAllocatorForSize_step (newAddr : List Addr → Addr)
    (hfresh : ∀ l, newAddr l ∉ l) (hnn : ∀ l, newAddr l ≠ 0) (size : Nat)
    (f : SizedAllocatorFactory) (hlock : f.lockHeld = false) (hwf : f.WF) :
    ∃ a f1, SizedAllocatorFactory.getAllocatorForSize newAddr size f = some (a, f1) ∧
      f1.lockHeld = false ∧ f1.WF ∧ f1.allocators size = some a ∧
      (∀ k b, f.allocators k = some b → f1.allocators k = some b) ∧
      (∀ k b, f1.allocators k = some b → f.allocators k = some b ∨ k = size) := by
  obtain ⟨h1, h2, h3, h4⟩ := hwf
  cases hex : f.allocators size with
  | some a =>
    have hne : a ≠ 0 := (h1 size a hex).1
    refine ⟨a, _, getAllocatorForSize_existing newAddr size f a hlock hne hex, rfl,
      ⟨h1, h2, ?_, ?_⟩, hex, fun k b h => h, fun k b h => Or.inl h⟩
    · intro s b
      rw [← h3 s b]
      simp
    · show (createdSizes (f.trace ++ [FactoryEvent.lock, FactoryEvent.unlock])).Nodup
      rw [createdSizes_append]
      simpa [createdSizes] using h4
  | none =>
    have hnotin : ∀ k, f.allocators k ≠ some (newAddr f.live) := by
      intro k hk
      exact hfresh f.live (h1 k _ hk).2
    refine ⟨newAddr f.live, _, getAllocatorForSize_absent newAddr size f hlock hex, rfl,
      ⟨?_, ?_, ?_, ?_⟩, by simp [mapAssign], ?_, ?_⟩
    · intro k a hk
      by_cases hks : k = size
      · simp only [mapAssign, hks, if_true, Option.some.injEq] at hk
        subst hk
        exact ⟨hnn f.live, List.mem_cons_self _ _⟩
      · simp only [mapAssign, hks, if_false] at hk
        exact ⟨(h1 k a hk).1, List.mem_cons_of_mem _ (h1 k a hk).2⟩
    · intro k1 k2 a hk1 hk2
      by_cases e1 : k1 = size <;> by_cases e2 : k2 = size
      · rw [e1, e2]
      · simp only [mapAssign, e1, if_true, Option.some.injEq] at hk1
        simp only [mapAssign, e2, if_false] at hk2
        subst hk1
        exact absurd hk2 (hnotin k2)
      · simp only [mapAssign, e2, if_true, Option.some.injEq] at hk2
        simp only [mapAssign, e1, if_false] at hk1
        subst hk2
        exact absurd hk1 (hnotin k1)
      · simp only [mapAssign, e1, if_false] at hk1
        simp only [mapAssign, e2, if_false] at hk2
        exact h2 k1 k2 a hk1 hk2
    · intro s b
      show FactoryEvent.create s b ∈ f.trace ++ [FactoryEvent.lock,
          FactoryEvent.create size (newAddr f.live), FactoryEvent.unlock] ↔
        mapAssign f.allocators size (newAddr f.live) s = some b
      rw [mem_trace_after_create]
      by_cases hs : s = size
      · subst hs
        simp only [mapAssign, if_true, Option.some.injEq, true_and]
        constructor
        · rintro (h | h)
          · rw [h3 s b, hex] at h
            cases h
          · exact h.symm
        · intro h
          exact Or.inr h.symm
      · simp only [mapAssign, hs, if_false, false_and, or_false]
        exact h3 s b
    · show (createdSizes (f.trace ++ [FactoryEvent.lock,
        FactoryEvent.create size (newAddr f.live), FactoryEvent.unlock])).Nodup
      rw [createdSizes_append]
      simp only [createdSizes]
      rw [List.nodup_append]
      refine ⟨h4, List.nodup_singleton _, ?_⟩
      intro x hx hx2
      rw [List.mem_singleton] at hx2
      subst hx2
      obtain ⟨b, hb⟩ := (mem_createdSizes f.trace x).1 hx
      rw [h3 x b, hex] at hb
      cases hb
    · intro k b hk
      by_cases hks : k = size
      · subst hks
        rw [hex] at hk
        cases hk
      · simp [mapAssign, hks, hk]
    · intro k b hk
      by_cases hks : k = size
      · exact Or.inr hks
      · simp only [mapAssign, hks, if_false] at hk
        exact Or.inl hk

/-- Successive calls on a factory that satisfies the invariant: every call returns,
the invariant and the free lock are kept, and every request got the allocator
that is the entry of its size at the end. -/
theorem requests_spec (newAddr : List Addr → Addr)
    (hfresh : ∀ l, newAddr l ∉ l) (hnn : ∀ l, newAddr l ≠ 0) :
    ∀ (reqs : List Nat) (f : SizedAllocatorFactory), f.lockHeld = false → f.WF →
      ∃ as f1, SizedAllocatorFactory.requests newAddr reqs f = some (as, f1) ∧
        as.length = reqs.length ∧ f1.lockHeld = false ∧ f1.WF ∧
        (∀ k b, f.allocators k = some b → f1.allocators k = some b) ∧
        (∀ k b, f1.allocators k = some b → f.allocators k = some b ∨ k ∈ reqs) ∧
        (∀ p ∈ reqs.zip as, f1.allocators p.1 = some p.2) := by
  intro reqs
  induction reqs with
  | nil =>
    intro f hlock hwf
    exact ⟨[], f, rfl, rfl, hlock, hwf, fun _ _ h => h, fun _ _ h => Or.inl h,
      fun p hp => by simp at hp⟩
  | cons size rest ih =>
    intro f hlock hwf
    obtain ⟨a, f1, hcall, hlock1, hwf1, hentry, hkeep, hnew⟩ :=
      getAllocatorForSize_step newAddr hfresh hnn size f hlock hwf
    obtain ⟨as, f2, hrest, hlen, hlock2, hwf2, hkeep2, hnew2, hzip⟩ := ih f1 hlock1 hwf1
    refine ⟨a :: as, f2, ?_, by simp [hlen], hlock2, hwf2, ?_, ?_, ?_⟩
    · simp [SizedAllocatorFactory.requests, hcall, hrest]
    · intro k b h
      exact hkeep2 k b (hkeep k b h)
    · intro k b h
      rcases hnew2 k b h with h1 | h1
      · rcases hnew k b h1 with h2 | h2
        · exact Or.inl h2
        · exact Or.inr (by simp [h2])
      · exact Or.inr (List.mem_cons_of_mem _ h1)
    · intro p hp
      rw [List.zip_cons_cons, List.mem_cons] at hp
      rcases hp with hp | hp
      · rw [hp]
        exact hkeep2 size a hentry
      · exact hzip p hp

/-- C15: starting from a new factory, in any sequence of calls of
`getAllocatorForSize` every call returns a non-null allocator; two calls return
the same allocator exactly when they ask for the same size; every allocator
returned was created for the size asked, no size has two creations, and
allocators are created for requested sizes only. -/
theorem factory_one_allocator_per_size (newAddr : List Addr → Addr)
    (hfresh : ∀ l, newAddr l ∉ l) (hnn : ∀ l, newAddr l ≠ 0)
    (live : List Addr) (reqs : List Nat) :
    ∃ as f, SizedAllocatorFactory.requests newAddr reqs
        (SizedAllocatorFactory.fresh live) = some (as, f) ∧
      as.length = reqs.length ∧
      (∀ p ∈ reqs.zip as, p.2 ≠ 0) ∧
      (∀ p ∈ reqs.zip as, ∀ q ∈ reqs.zip as, (p.1 = q.1 ↔ p.2 = q.2)) ∧
      (∀ p ∈ reqs.zip as, FactoryEvent.create p.1 p.2 ∈ f.trace) ∧
      (createdSizes f.trace).Nodup ∧
      (∀ s ∈ createdSizes f.trace, s ∈ reqs) := by
  obtain ⟨as, f, hrun, hlen, _, hwf, _, hnew, hzip⟩ :=
    requests_spec newAddr hfresh hnn reqs (SizedAllocatorFactory.fresh live) rfl
      (fresh_WF live)
  obtain ⟨h1, h2, h3, h4⟩ := hwf
  refine ⟨as, f, hrun, hlen, ?_, ?_, ?_, h4, ?_⟩
  · intro p hp
    exact (h1 p.1 p.2 (hzip p hp)).1
  · intro p hp q hq
    constructor
    · intro h
      have hp1 := hzip p hp
      have hq1 := hzip q hq
      rw [h, hq1] at hp1
      exact (Option.some.inj hp1).symm
    · intro h
      have hp1 := hzip p hp
      have hq1 := hzip q hq
      rw [← h] at hq1
      exact h2 p.1 q.1 p.2 hp1 hq1
  · intro p hp
    exact (h3 p.1 p.2).2 (hzip p hp)
  · intro s hs
    obtain ⟨b, hb⟩ := (mem_createdSizes f.trace s).1 hs
    rcases hnew s b ((h3 s b).1 hb) with h | h
    · cases h
    · exact h

/-- The allocation function of the concrete runs returns a non-null address that
is not among the live ones. -/
theorem bumpNew_fresh : (∀ l, bumpNew l ∉ l) ∧ (∀ l, bumpNew l ≠ 0) := by
  have hle : ∀ (l : List Addr) (x : Addr), x ∈ l → x ≤ l.foldr max 0 := by
    intro l
    induction l with
    | nil =>
      intro x hx
      cases hx
    | cons y rest ih =>
      intro x hx
      rw [List.mem_cons] at hx
      rcases hx with hx | hx
      · rw [hx]
        exact le_max_left _ _
      · exact le_trans (ih x hx) (le_max_right _ _)
  constructor
  · intro l hmem
    have h := hle l (bumpNew l) hmem
    unfold bumpNew at h
    exact absurd h (Nat.not_succ_le_self _)
  · intro l
    exact Nat.succ_ne_zero _

/-- Instance of C15: requests for the sizes 8, 16 and 8 on a new factory return
the allocators 101, 102 and 101, with one creation for 8 and one for 16. -/
theorem factory_one_allocator_per_size_witness :
    ((∀ l, bumpNew l ∉ l) ∧ (∀ l, bumpNew l ≠ 0)) ∧
    (SizedAllocatorFactory.requests bumpNew [8, 16, 8]
        (SizedAllocatorFactory.fresh [100])).map Prod.fst = some [101, 102, 101] ∧
    (SizedAllocatorFactory.requests bumpNew [8, 16, 8]
        (SizedAllocatorFactory.fresh [100])).map (fun r => r.2.trace) =
      some [FactoryEvent.lock, FactoryEvent.create 8 101, FactoryEvent.unlock,
        FactoryEvent.lock, FactoryEvent.create 16 102, FactoryEvent.unlock,
        FactoryEvent.lock, FactoryEvent.unlock] ∧
    ∃ as f, SizedAllocatorFactory.requests bumpNew [8, 16, 8]
        (SizedAllocatorFactory.fresh [100]) = some (as, f) ∧
      as.length = [8, 16, 8].length ∧
      (∀ p ∈ [8, 16, 8].zip as, p.2 ≠ 0) ∧
      (∀ p ∈ [8, 16, 8].zip as, ∀ q ∈ [8, 16, 8].zip as, (p.1 = q.1 ↔ p.2 = q.2)) ∧
      (∀ p ∈ [8, 16, 8].zip as, FactoryEvent.create p.1 p.2 ∈ f.trace) ∧
      (createdSizes f.trace).Nodup ∧
      (∀ s ∈ createdSizes f.trace, s ∈ [8, 16, 8]) :=
  ⟨bumpNew_fresh, by decide, by decide,
    factory_one_allocator_per_size bumpNew bumpNew_fresh.1 bumpNew_fresh.2 [100] [8, 16, 8]⟩

/-- Counterexample to C19 as stated: the factory holds the allocator 101 for the
size 8 and its lock is free; `getAllocatorForSize(8)` returns 101 and has taken
the lock (and released it) on the way. -/
theorem factory_lock_taken_for_existing_size :
    factoryWithSize8.allocators 8 = some 101 ∧ factoryWithSize8.lockHeld = false ∧
    (SizedAllocatorFactory.getAllocatorForSize bumpNew 8 factoryWithSize8).map
        (fun r => (r.1, r.2.lockHeld, r.2.trace)) =
      some (101, false, [FactoryEvent.lock, FactoryEvent.unlock]) ∧
    FactoryEvent.lock ∈ [FactoryEvent.lock, FactoryEvent.unlock] := by
  refine ⟨by decide, rfl, by decide, by decide⟩

/-- C19, as the code has it: every call of `getAllocatorForSize` on a factory whose
lock is free takes the lock first and releases it last, also for a size whose
allocator exists; in between it creates at most one allocator, and none when
the allocator exists; the lock is free when the call returns. -/
theorem factory_lock_on_every_call (newAddr : List Addr → Addr) (size : Nat)
    (f : SizedAllocatorFactory) (hlock : f.lockHeld = false) :
    ∃ a f1, SizedAllocatorFactory.getAllocatorForSize newAddr size f = some (a, f1) ∧
      f1.lockHeld = false ∧
      (f1.trace = f.trace ++ [FactoryEvent.lock, FactoryEvent.unlock] ∨
        f1.trace = f.trace ++
          [FactoryEvent.lock, FactoryEvent.create size a, FactoryEvent.unlock]) ∧
      (∀ b, b ≠ 0 → f.allocators size = some b →
        a = b ∧ f1.trace = f.trace ++ [FactoryEvent.lock, FactoryEvent.unlock]) := by
  by_cases h : (f.allocators size).getD 0 = 0
  · refine ⟨newAddr f.live,
      ⟨false, mapAssign (mapIndex f.allocators size) size (newAddr f.live),
        newAddr f.live :: f.live,
        f.trace ++ [FactoryEvent.lock, FactoryEvent.create size (newAddr f.live),
          FactoryEvent.unlock]⟩, ?_, rfl, Or.inr rfl, ?_⟩
    · simp [SizedAllocatorFactory.getAllocatorForSize, hlock, mapIndex, mapAssign, h]
    · intro b hb hex
      rw [hex] at h
      exact absurd h hb
  · refine ⟨(f.allocators size).getD 0,
      ⟨false, mapIndex f.allocators size, f.live,
        f.trace ++ [FactoryEvent.lock, FactoryEvent.unlock]⟩, ?_, rfl, Or.inl rfl, ?_⟩
    · simp [SizedAllocatorFactory.getAllocatorForSize, hlock, mapIndex, h]
    · intro b _ hex
      rw [hex]
      exact ⟨rfl, rfl⟩

/-- Instance of C19: a call for the size 8, whose allocator exists. -/
theorem factory_lock_on_every_call_witness :
    factoryWithSize8.lockHeld = false ∧
    ∃ a f1, SizedAllocatorFactory.getAllocatorForSize bumpNew 8 factoryWithSize8 =
        some (a, f1) ∧
      f1.lockHeld = false ∧
      (f1.trace = factoryWithSize8.trace ++ [FactoryEvent.lock, FactoryEvent.unlock] ∨
        f1.trace = factoryWithSize8.trace ++
          [FactoryEvent.lock, FactoryEvent.create 8 a, FactoryEvent.unlock]) ∧
      (∀ b, b ≠ 0 → factoryWithSize8.allocators 8 = some b →
        a = b ∧ f1.trace = factoryWithSize8.trace ++
          [FactoryEvent.lock, FactoryEvent.unlock]) :=
  ⟨rfl, factory_lock_on_every_call bumpNew 8 factoryWithSize8 rfl⟩

/-! ### Large allocations -/

/-- C16: `largeAlloc` never returns a null pointer: in every build and for every
length, when the underlying allocation yields null the process aborts, and
otherwise `largeAlloc` returns the pointer the underlying allocation produced. -/
theorem largeAlloc_never_null (E : MemEnv) (len : Nat) :
    largeAlloc E len ≠ AllocOutcome.ret 0 ∧
    (E.allocate len = 0 → largeAlloc E len = AllocOutcome.abort) ∧
    (E.allocate len ≠ 0 → largeAlloc E len = AllocOutcome.ret (E.allocate len)) ∧
    (E.build = NumaBuild.plain → E.allocate len = E.malloc len) ∧
    (E.build ≠ NumaBuild.plain →
      E.allocate len = E.numa_alloc_interleaved_subset len (nodemask E.getActiveThreads)) := by
  refine ⟨?_, ?_, ?_, ?_, ?_⟩
  · intro h
    unfold largeAlloc at h
    by_cases h0 : E.allocate len = 0
    · simp [h0] at h
    · simp only [h0, if_false, AllocOutcome.ret.injEq] at h
  · intro h0
    simp [largeAlloc, h0]
  · intro h0
    simp [largeAlloc, h0]
  · intro hb
    simp [MemEnv.allocate, hb]
  · intro hb
    unfold MemEnv.allocate
    cases hbuild : E.build with
    | GALOIS_NUMA_OLD => rfl
    | GALOIS_NUMA => rfl
    | plain => exact absurd hbuild hb

/-! ### Which waiting loops handle the network -/

/-- Counterexample to C18 as stated.  On thread 1 of host 1, `resolve` outside a
parallel loop waits one iteration for the proxy at 5000 of the object `(2, 4096)`
and on thread 1 `transientAcquire` waits one iteration for the object at 4096,
both without any call of `handleReceives`; and on thread 0 the loop of `resolve`
on the local object at 4096 polls twice without any call of `handleReceives`. -/
theorem waiting_without_handleReceives :
    exampleSysThread1.getTID = 1 ∧
    resolve exampleSysThread1 4 exampleRemotePtr ⟨proxyHost, []⟩ =
      (.ret 5000,
        ⟨{ Host.quiet with proxies := [((2, 4096), 5000)] },
          [.remoteResolve 2 4096 5000, .isAcquired 5000 true, .isAcquired 5000 false]⟩) ∧
    Event.handleReceives ∉
      (resolve exampleSysThread1 4 exampleRemotePtr ⟨proxyHost, []⟩).2.log ∧
    (transientAcquire exampleSysThread1 4 examplePtr
        ⟨{ Host.heldBy 4096 (Cnx.worker 0) false with
            sched := [EnvAction.idle, EnvAction.idle, EnvAction.unlock 4096] }, []⟩).2.log =
      [.try_acquire 4096 false, .recallLocal 1 4096, .try_acquire 4096 true] ∧
    exampleSys.getTID = 0 ∧
    (resolve exampleSys 5 examplePtr ⟨Host.awaitingReturn 4096, []⟩).1 = .ret 4096 ∧
    (resolve exampleSys 5 examplePtr ⟨Host.awaitingReturn 4096, []⟩).2.log =
      [.isAcquired 4096 true, .recallLocal 1 4096,
        .isAcquiredBy 4096 Cnx.localDirectory true,
        .isAcquiredBy 4096 Cnx.localDirectory true,
        .isAcquiredBy 4096 Cnx.localDirectory false] ∧
    Event.handleReceives ∉
      (resolve exampleSys 5 examplePtr ⟨Host.awaitingReturn 4096, []⟩).2.log := by
  refine ⟨rfl, rfl, by decide, rfl, rfl, rfl, rfl, by decide⟩

/-- C18, as the code has it: the loop of `resolve` that waits for a proxy and the
two loops of `transientAcquire` run the statement
`if (!LL::getTID()) handleReceives();` in each iteration that does not leave the
loop, right after the failed test or attempt (and the recall, in the local loop
of `transientAcquire`): on thread 0 that is one call of `handleReceives` per such
iteration, on every other thread none. -/
theorem waiting_loops_poll_on_thread_zero {σ : Type} (S : Sys σ) (fuel : Nat)
    (p : gptr) (rptr : Addr) (w : World σ) :
    (S.getTID = 0 → networkPoll S = [Event.handleReceives]) ∧
    (S.getTID ≠ 0 → networkPoll S = []) ∧
    (∃ k, k ≤ fuel ∧
      ((whileAcquired S rptr fuel w).2.log =
          w.log ++ rounds ([.isAcquired rptr true] ++ networkPoll S) k ++
            [.isAcquired rptr false] ∨
        (whileAcquired S rptr fuel w).2.log =
          w.log ++ rounds ([.isAcquired rptr true] ++ networkPoll S) k)) ∧
    (∃ k, k ≤ fuel ∧
      ((transientAcquire.localLoop S p fuel w).2.log =
          w.log ++ rounds ([.try_acquire p.ptr false, .recallLocal p.owner p.ptr] ++
            networkPoll S) k ++ [.try_acquire p.ptr true] ∨
        (transientAcquire.localLoop S p fuel w).2.log =
          w.log ++ rounds ([.try_acquire p.ptr false, .recallLocal p.owner p.ptr] ++
            networkPoll S) k)) ∧
    (∃ rs : List Addr, rs.length ≤ fuel ∧
      ((∃ r, (transientAcquire.remoteLoop S p fuel w).2.log =
          w.log ++ failedRemoteRounds S p rs ++
            [.remoteResolve p.owner p.ptr r, .try_acquire r true]) ∨
        (transientAcquire.remoteLoop S p fuel w).2.log =
          w.log ++ failedRemoteRounds S p rs)) := by
  refine ⟨?_, ?_, ?_, ?_, ?_⟩
  · intro h
    simp [networkPoll, h]
  · intro h
    simp [networkPoll, h]
  · rcases whileAcquired_spec S rptr fuel w with ⟨_, k, hk, hlog, _⟩ | ⟨_, hlog⟩
    · exact ⟨k, Nat.le_of_lt hk, Or.inl hlog⟩
    · exact ⟨fuel, Nat.le_refl _, Or.inr hlog⟩
  · rcases transientAcquire_localLoop_spec S p fuel w with ⟨_, k, hk, hlog, _⟩ | ⟨_, hlog⟩
    · exact ⟨k, Nat.le_of_lt hk, Or.inl hlog⟩
    · exact ⟨fuel, Nat.le_refl _, Or.inr hlog⟩
  · rcases transientAcquire_remoteLoop_spec S p fuel w with
      ⟨r, _, rs, hk, hlog, _⟩ | ⟨_, rs, hk, hlog⟩
    · exact ⟨rs, Nat.le_of_lt hk, Or.inl ⟨r, hlog⟩⟩
    · exact ⟨rs, Nat.le_of_eq hk, Or.inr hlog⟩

/-! ### Messages of `sendAlt` and `broadcastAlt` -/

/-- Writing arguments appends to the buffer. -/
theorem gSerializeArgs_append (param : List (Nat × Nat)) (pre : SerializeBuffer) :
    gSerializeArgs param pre = pre ++ gSerializeArgs param [] := by
  induction param generalizing pre with
  | nil => simp [gSerializeArgs]
  | cons a rest ih =>
    obtain ⟨width, v⟩ := a
    simp only [gSerializeArgs]
    rw [ih (gSerializePrim width pre v), ih (gSerializePrim width [] v)]
    simp [gSerializePrim, List.append_assoc]

/-- Reading a tuple back right after the bytes that precede it: the values
written, in the order written. -/
theorem gDeserializeTuple_gSerializeArgs (param : List (Nat × Nat)) :
    ∀ (pre rest : List Nat), (∀ a ∈ param, a.2 < 256 ^ a.1) →
      gDeserializeTuple (param.map Prod.fst) ⟨gSerializeArgs param pre ++ rest, pre.length⟩ =
        some (param.map Prod.snd,
          ⟨gSerializeArgs param pre ++ rest, (gSerializeArgs param pre).length⟩) := by
  induction param with
  | nil =>
    intro pre rest _
    simp [gDeserializeTuple, gSerializeArgs]
  | cons a ps ih =>
    intro pre rest hfit
    obtain ⟨width, v⟩ := a
    have hv : v < 256 ^ width := hfit (width, v) (List.mem_cons_self _ _)
    have hps : ∀ a ∈ ps, a.2 < 256 ^ a.1 := fun a ha => hfit a (List.mem_cons_of_mem _ ha)
    have hbuf : gSerializeArgs ((width, v) :: ps) pre ++ rest =
        gSerializePrim width pre v ++ (gSerializeArgs ps [] ++ rest) := by
      simp only [gSerializeArgs]
      rw [gSerializeArgs_append ps (gSerializePrim width pre v), List.append_assoc]
    have h1 := gDeserializePrim_gSerializePrim width v pre (gSerializeArgs ps [] ++ rest) hv
    have hlen : (gSerializePrim width pre v).length = pre.length + width := by
      simp [gSerializePrim, bytesLE_length]
    have h2 := ih (gSerializePrim width pre v) rest hps
    rw [hlen] at h2
    have hsame : gSerializeArgs ((width, v) :: ps) pre =
        gSerializeArgs ps (gSerializePrim width pre v) := rfl
    simp only [List.map_cons, gDeserializeTuple]
    rw [hbuf, h1]
    simp only
    rw [← hbuf, hsame, h2]

/-- The index sequence `gens<N>` is `0, 1, ..., N-1`. -/
theorem gens_eq_range (N : Nat) (S : List Nat) :
    genericLandingPad.gens N S = List.range N ++ S := by
  induction N generalizing S with
  | zero => simp [genericLandingPad.gens]
  | succ n ih =>
    simp only [genericLandingPad.gens]
    rw [ih, List.range_succ, List.append_assoc]
    rfl

/-- Taking the elements of a list at the indices `0, 1, ..., length-1` gives the list. -/
theorem map_getD_range (args : List Nat) :
    (List.range args.length).map (fun i => args.getD i 0) = args := by
  apply List.ext_getElem
  · simp
  · intro i h1 h2
    simp [List.getD_eq_getElem?_getD, List.getElem?_eq_getElem h2]

/-- The landing pad run on the buffer `gSerialize(buf, recv, param...)` filled makes
one call, of `recv` with the parameters in their order. -/
theorem func_on_serialized (recv : Addr) (param : List (Nat × Nat)) (calls : List Call)
    (hrecv : recv < 2 ^ 64) (hfit : ∀ a ∈ param, a.2 < 256 ^ a.1) :
    genericLandingPad.func (param.map Prod.fst)
        (DeSerializeBuffer.ofBytes (gSerializeArgs ((ptrWidth, recv) :: param) [])) calls =
      some (calls ++ [⟨recv, param.map Prod.snd⟩]) := by
  have h256 : (256 : Nat) ^ ptrWidth = 2 ^ 64 := by norm_num [ptrWidth]
  have hr : recv < 256 ^ ptrWidth := by
    rw [h256]
    exact hrecv
  have hbuf : gSerializeArgs ((ptrWidth, recv) :: param) [] =
      gSerializePrim ptrWidth [] recv ++ gSerializeArgs param [] := by
    simp only [gSerializeArgs]
    rw [gSerializeArgs_append]
  have h1 := gDeserializePrim_gSerializePrim ptrWidth recv [] (gSerializeArgs param []) hr
  have hlen : (gSerializePrim ptrWidth [] recv).length = ptrWidth := by
    simp [gSerializePrim, bytesLE_length]
  have h2 := gDeserializeTuple_gSerializeArgs param (gSerializePrim ptrWidth [] recv) [] hfit
  rw [List.append_nil, hlen, gSerializeArgs_append] at h2
  simp only [List.length_nil, Nat.zero_add] at h1
  simp only [genericLandingPad.func, DeSerializeBuffer.ofBytes, hbuf, h1, h2,
    genericLandingPad.callFunc, List.length_map, gens_eq_range, List.append_nil]
  have hidx := map_getD_range (param.map Prod.snd)
  rw [List.length_map] at hidx
  rw [hidx]

/-- C17: the message that `sendAlt` (or `broadcastAlt`) builds names the landing pad
`genericLandingPad<Args...>::func` of its argument types, and that landing pad
run on the buffer of the message calls `recv` exactly once, with the arguments
passed to `sendAlt`, in the same order. -/
theorem sendAlt_decoded_by_landingPad (dest : HostId) (recv : Addr)
    (param : List (Nat × Nat)) (calls : List Call)
    (hrecv : recv < 2 ^ 64) (hfit : ∀ a ∈ param, a.2 < 256 ^ a.1) :
    (NetworkInterface.sendAlt dest recv param).dest = some dest ∧
    (NetworkInterface.sendAlt dest recv param).landingPad = param.map Prod.fst ∧
    (NetworkInterface.sendAlt dest recv param).dispatch calls =
      some (calls ++ [⟨recv, param.map Prod.snd⟩]) ∧
    (NetworkInterface.broadcastAlt recv param).dest = none ∧
    (NetworkInterface.broadcastAlt recv param).dispatch calls =
      some (calls ++ [⟨recv, param.map Prod.snd⟩]) :=
  ⟨rfl, rfl, func_on_serialized recv param calls hrecv hfit, rfl,
    func_on_serialized recv param calls hrecv hfit⟩

/-- Instance of C17: `sendAlt(3, recv, a, b)` with `recv` at 4096, a four-byte `a = 7`
and a one-byte `b = 255`. -/
theorem sendAlt_decoded_by_landingPad_witness :
    ((4096 : Addr) < 2 ^ 64 ∧ ∀ a ∈ [((4 : Nat), (7 : Nat)), (1, 255)], a.2 < 256 ^ a.1) ∧
    (NetworkInterface.sendAlt 3 4096 [(4, 7), (1, 255)]).buf =
      [0, 16, 0, 0, 0, 0, 0, 0, 7, 0, 0, 0, 255] ∧
    ((NetworkInterface.sendAlt 3 4096 [(4, 7), (1, 255)]).dest = some 3 ∧
    (NetworkInterface.sendAlt 3 4096 [(4, 7), (1, 255)]).landingPad =
      [((4 : Nat), (7 : Nat)), (1, 255)].map Prod.fst ∧
    (NetworkInterface.sendAlt 3 4096 [(4, 7), (1, 255)]).dispatch [] =
      some ([] ++ [⟨4096, [((4 : Nat), (7 : Nat)), (1, 255)].map Prod.snd⟩]) ∧
    (NetworkInterface.broadcastAlt 4096 [(4, 7), (1, 255)]).dest = none ∧
    (NetworkInterface.broadcastAlt 4096 [(4, 7), (1, 255)]).dispatch [] =
      some ([] ++ [⟨4096, [((4 : Nat), (7 : Nat)), (1, 255)].map Prod.snd⟩])) :=
  ⟨⟨by norm_num, by decide⟩, by decide,
    sendAlt_decoded_by_landingPad 3 4096 [(4, 7), (1, 255)] [] (by norm_num) (by decide)⟩

/-! ### Edge iteration in `ThirdGraph` -/

/-- A computation that returns at once without touching the runtime. -/
theorem Returns_ret {σ α : Type} (Inv : World σ → Prop) (r : α) :
    Returns Inv (fun w => (Outcome.ret r, w)) r :=
  fun w hw => ⟨w, rfl, hw⟩

/-- Sequencing of two computations that return. -/
theorem Returns_bind {σ α β : Type} (Inv : World σ → Prop) (m : DistM σ α)
    (f : α → DistM σ β) (a : α) (b : β) (h1 : Returns Inv m a) (h2 : Returns Inv (f a) b) :
    Returns Inv (DistM.bind m f) b := by
  intro w hw
  obtain ⟨w1, e1, i1⟩ := h1 w hw
  obtain ⟨w2, e2, i2⟩ := h2 w1 i1
  exact ⟨w2, by rw [bind_of_ret m f w w1 a e1, e2], i2⟩

/-- The statement `assert(N)` passes on a non-null handle. -/
theorem assertHandle_returns {σ : Type} (S : Sys σ) (Inv : World σ → Prop) (N : gptr)
    (hN : N.ptr ≠ 0) : Returns Inv (assertHandle S N) () := by
  intro w hw
  exact ⟨w, by simp [assertHandle, gptr.operator_bool, hN, pure], hw⟩

/-- The expression `d->getActive()` on a handle that designates a node object. -/
theorem getActive_returns {σ : Type} (S : Sys σ) (fuel : Nat) (Inv : World σ → Prop)
    (g : ThirdGraph) (d : gptr) (a : Addr) (hd : Resolves S fuel Inv d a) :
    Returns Inv (g.getActive S fuel d) (g.nodes a).active := by
  simp only [ThirdGraph.getActive, bind, pure]
  exact Returns_bind Inv _ _ a _ hd (Returns_ret Inv _)

/-- The expression `N->begin()` on a handle that designates a node object. -/
theorem node_begin_returns {σ : Type} (S : Sys σ) (fuel : Nat) (Inv : World σ → Prop)
    (g : ThirdGraph) (N : gptr) (a : Addr) (hN : Resolves S fuel Inv N a) :
    Returns Inv (g.node_begin S fuel N) ⟨a, 0⟩ := by
  simp only [ThirdGraph.node_begin, bind, pure]
  exact Returns_bind Inv _ _ a _ hN (Returns_ret Inv _)

/-- The expression `N->end()` on a handle that designates a node object. -/
theorem node_end_returns {σ : Type} (S : Sys σ) (fuel : Nat) (Inv : World σ → Prop)
    (g : ThirdGraph) (N : gptr) (a : Addr) (hN : Resolves S fuel Inv N a) :
    Returns Inv (g.node_end S fuel N) ⟨a, (g.nodes a).edges.length⟩ := by
  simp only [ThirdGraph.node_end, bind, pure]
  exact Returns_bind Inv _ _ a _ hN (Returns_ret Inv _)

/-- The loop of `prefetch()` calls returns: `prefetch` does nothing. -/
theorem prefetchLoop_returns {σ : Type} (S : Sys σ) (Inv : World σ → Prop) :
    ∀ l : List Edge, Returns Inv (ThirdGraph.prefetchLoop S l) () := by
  intro l
  induction l with
  | nil => exact Returns_ret Inv ()
  | cons e rest ih =>
    simp only [ThirdGraph.prefetchLoop, bind]
    refine Returns_bind Inv _ _ () _ ?_ ih
    intro w hw
    exact ⟨w, gptr_prefetch_eq S e.dst w, hw⟩

/-- The loop over the destinations in `edge_begin` returns when every
destination designates a node object. -/
theorem lockLoop_returns {σ : Type} (S : Sys σ) (fuel : Nat) (Inv : World σ → Prop)
    (g : ThirdGraph) (loc : gptr → Addr) :
    ∀ l : List Edge, (∀ e ∈ l, Resolves S fuel Inv e.dst (loc e.dst)) →
      Returns Inv (g.lockLoop S fuel l) () := by
  intro l
  induction l with
  | nil =>
    intro _
    exact Returns_ret Inv ()
  | cons e rest ih =>
    intro hres
    simp only [ThirdGraph.lockLoop, bind]
    exact Returns_bind Inv _ _ _ _
      (getActive_returns S fuel Inv g e.dst (loc e.dst) (hres e (List.mem_cons_self _ _)))
      (ih (fun e1 he1 => hres e1 (List.mem_cons_of_mem _ he1)))

/-- Skipping the edges whose destination is inactive: the position reached. -/
theorem satisfy_predicate_returns {σ : Type} (S : Sys σ) (fuel : Nat) (Inv : World σ → Prop)
    (g : ThirdGraph) (loc : gptr → Addr) :
    ∀ (rest : List Edge) (base : Nat),
      (∀ e ∈ rest, Resolves S fuel Inv e.dst (loc e.dst)) →
      Returns Inv (g.satisfy_predicate S fuel rest base)
        (base + (rest.takeWhile (fun e => !g.dstActive loc e)).length) := by
  intro rest
  induction rest with
  | nil =>
    intro base _
    exact Returns_ret Inv base
  | cons e r ih =>
    intro base hres
    have he := getActive_returns S fuel Inv g e.dst (loc e.dst)
      (hres e (List.mem_cons_self _ _))
    simp only [ThirdGraph.satisfy_predicate, ThirdGraph.is_edge, bind, pure]
    refine Returns_bind Inv _ _ _ _ he ?_
    cases hact : (g.nodes (loc e.dst)).active with
    | true =>
      have h0 : (List.takeWhile (fun e => !g.dstActive loc e) (e :: r)).length = 0 := by
        simp [List.takeWhile, ThirdGraph.dstActive, hact]
      rw [h0]
      exact Returns_ret Inv base
    | false =>
      have h1 : (List.takeWhile (fun e => !g.dstActive loc e) (e :: r)).length =
          1 + (List.takeWhile (fun e => !g.dstActive loc e) r).length := by
        simp [List.takeWhile, ThirdGraph.dstActive, hact]
        omega
      rw [h1, ← Nat.add_assoc]
      exact ih (base + 1) (fun e1 he1 => hres e1 (List.mem_cons_of_mem _ he1))

/-- After the skipped edges comes the end or an edge that is not skipped. -/
theorem dropWhile_head (q : Edge → Bool) (l : List Edge) :
    l.dropWhile (fun e => !q e) = [] ∨
      ∃ e r, l.dropWhile (fun e => !q e) = e :: r ∧ q e = true := by
  induction l with
  | nil => exact Or.inl rfl
  | cons a r ih =>
    cases ha : q a with
    | true =>
      right
      exact ⟨a, r, by simp [List.dropWhile, ha], ha⟩
    | false =>
      simpa [List.dropWhile, ha] using ih

/-- Skipped edges do not pass the filter. -/
theorem filter_dropWhile (q : Edge → Bool) (l : List Edge) :
    (l.dropWhile (fun e => !q e)).filter q = l.filter q := by
  induction l with
  | nil => rfl
  | cons a r ih =>
    cases ha : q a with
    | true => simp [List.dropWhile, ha]
    | false => simpa [List.dropWhile, List.filter, ha] using ih

/-- The constructor of a filter iterator over the deque of a node object whose
destinations all designate node objects: it returns, at the first position
from `first` on whose edge has an active destination. -/
theorem make_filter_iterator_returns {σ : Type} (S : Sys σ) (fuel : Nat)
    (Inv : World σ → Prop) (g : ThirdGraph) (loc : gptr → Addr) (first last : deque_iterator)
    (hres : ∀ e ∈ (g.nodes first.node).edges, Resolves S fuel Inv e.dst (loc e.dst)) :
    Returns Inv (g.make_filter_iterator S fuel first last)
      ⟨first.node,
        first.pos + ((g.range first last).takeWhile (fun e => !g.dstActive loc e)).length,
        last.pos⟩ := by
  simp only [ThirdGraph.make_filter_iterator, bind, pure]
  refine Returns_bind Inv _ _ _ _
    (satisfy_predicate_returns S fuel Inv g loc (g.range first last) first.pos ?_)
    (Returns_ret Inv _)
  intro e he
  apply hres
  exact List.mem_of_mem_take (List.mem_of_mem_drop he)

/-- The whole deque of a node object as a range. -/
theorem range_whole (g : ThirdGraph) (a b : Addr) :
    g.range ⟨a, 0⟩ ⟨b, (g.nodes a).edges.length⟩ = (g.nodes a).edges := by
  simp [ThirdGraph.range]

/-- The empty range at the end of the deque of a node object. -/
theorem range_end (g : ThirdGraph) (a b : Addr) :
    g.range ⟨a, (g.nodes a).edges.length⟩ ⟨b, (g.nodes a).edges.length⟩ = [] := by
  simp [ThirdGraph.range]

/-- Method `edge_begin(N)` on a non-null handle that designates a node object
whose destinations all designate node objects: it returns the iterator at the
first stored edge with an active destination. -/
theorem edge_begin_returns {σ : Type} (S : Sys σ) (fuel : Nat) (Inv : World σ → Prop)
    (g : ThirdGraph) (loc : gptr → Addr) (N : gptr) (a : Addr) (hN : N.ptr ≠ 0)
    (hres : Resolves S fuel Inv N a)
    (hdst : ∀ e ∈ (g.nodes a).edges, Resolves S fuel Inv e.dst (loc e.dst)) :
    Returns Inv (g.edge_begin S fuel N)
      ⟨a, ((g.nodes a).edges.takeWhile (fun e => !g.dstActive loc e)).length,
        (g.nodes a).edges.length⟩ := by
  have hb := node_begin_returns S fuel Inv g N a hres
  have he := node_end_returns S fuel Inv g N a hres
  have hm := make_filter_iterator_returns S fuel Inv g loc ⟨a, 0⟩
    ⟨a, (g.nodes a).edges.length⟩ hdst
  rw [range_whole] at hm
  simp only [Nat.zero_add] at hm
  simp only [ThirdGraph.edge_begin, bind]
  refine Returns_bind Inv _ _ () _ (assertHandle_returns S Inv N hN) ?_
  refine Returns_bind Inv _ _ _ _ hb ?_
  refine Returns_bind Inv _ _ _ _ he ?_
  refine Returns_bind Inv _ _ () _ (prefetchLoop_returns S Inv _) ?_
  refine Returns_bind Inv _ _ _ _ hb ?_
  refine Returns_bind Inv _ _ _ _ he ?_
  refine Returns_bind Inv _ _ () _ ?_ ?_
  · rw [range_whole]
    exact lockLoop_returns S fuel Inv g loc _ hdst
  refine Returns_bind Inv _ _ _ _ hb ?_
  refine Returns_bind Inv _ _ _ _ he ?_
  exact hm

/-- Method `edge_end(N)` on a non-null handle that designates a node object: it
returns the iterator at the end of the deque. -/
theorem edge_end_returns {σ : Type} (S : Sys σ) (fuel : Nat) (Inv : World σ → Prop)
    (g : ThirdGraph) (N : gptr) (a : Addr) (hN : N.ptr ≠ 0)
    (hres : Resolves S fuel Inv N a) :
    Returns Inv (g.edge_end S fuel N)
      ⟨a, (g.nodes a).edges.length, (g.nodes a).edges.length⟩ := by
  have he := node_end_returns S fuel Inv g N a hres
  simp only [ThirdGraph.edge_end, bind]
  refine Returns_bind Inv _ _ () _ (assertHandle_returns S Inv N hN) ?_
  refine Returns_bind Inv _ _ _ _ he ?_
  refine Returns_bind Inv _ _ _ _ he ?_
  simp only [ThirdGraph.make_filter_iterator, range_end, ThirdGraph.satisfy_predicate, bind,
    pure]
  exact Returns_bind Inv _ _ _ _ (Returns_ret Inv _) (Returns_ret Inv _)

/-- Method `getEdgeDst(ii)` on an iterator at an edge whose destination
designates an active node object: the assertion passes and the destination is
returned. -/
theorem getEdgeDst_returns {σ : Type} (S : Sys σ) (fuel : Nat) (Inv : World σ → Prop)
    (g : ThirdGraph) (loc : gptr → Addr) (ii : edge_iterator) (e : Edge)
    (hstar : g.star ii = some e) (hres : Resolves S fuel Inv e.dst (loc e.dst))
    (hact : g.dstActive loc e = true) :
    Returns Inv (g.getEdgeDst S fuel ii) e.dst := by
  have ha := getActive_returns S fuel Inv g e.dst (loc e.dst) hres
  simp only [ThirdGraph.getEdgeDst, hstar, bind, pure]
  cases hnd : S.NDEBUG with
  | true =>
    simp only [Bool.not_true, Bool.false_eq_true, if_false]
    refine Returns_bind Inv _ _ PUnit.unit _ ?_ ?_
    · exact Returns_ret Inv _
    · exact Returns_ret Inv _
  | false =>
    simp only [Bool.not_false, if_true]
    refine Returns_bind Inv _ _ _ _ ha ?_
    have hact1 : (g.nodes (loc e.dst)).active = true := hact
    rw [hact1]
    simp only [Bool.not_true, Bool.false_eq_true, if_false]
    refine Returns_bind Inv _ _ PUnit.unit _ ?_ ?_
    · exact Returns_ret Inv _
    · exact Returns_ret Inv _

/-- The loop from a position that is the end or designates an edge with an active
destination: it returns, having visited the remaining edges with an active
destination, in the stored order. -/
theorem iterate_spec {σ : Type} (S : Sys σ) (fuel : Nat) (Inv : World σ → Prop)
    (g : ThirdGraph) (loc : gptr → Addr) (a : Addr)
    (hdst : ∀ e ∈ (g.nodes a).edges, Resolves S fuel Inv e.dst (loc e.dst)) :
    ∀ (steps : Nat) (pre rest : List Edge), (g.nodes a).edges = pre ++ rest →
      (rest = [] ∨ ∃ e r, rest = e :: r ∧ g.dstActive loc e = true) → rest.length < steps →
      ∃ its, Returns Inv (g.iterate S fuel steps ⟨a, pre.length, (g.nodes a).edges.length⟩
          ⟨a, (g.nodes a).edges.length, (g.nodes a).edges.length⟩) its ∧
        its.map Prod.snd = rest.filter (g.dstActive loc) ∧
        ∀ p ∈ its, g.star p.1 = some p.2 ∧ p.2 ∈ (g.nodes a).edges ∧
          g.dstActive loc p.2 = true := by
  intro steps
  induction steps with
  | zero =>
    intro pre rest _ _ hlt
    exact absurd hlt (Nat.not_lt_zero _)
  | succ n ih =>
    intro pre rest hsplit hhead hlt
    rcases hhead with hnil | ⟨e, r, hrest, hact⟩
    · subst hnil
      have hlen : pre.length = (g.nodes a).edges.length := by
        rw [hsplit, List.append_nil]
      refine ⟨[], ?_, rfl, ?_⟩
      · simp only [ThirdGraph.iterate, hlen, if_true, pure]
        exact Returns_ret Inv _
      · intro p hp
        cases hp
    · subst hrest
      have hlen : (g.nodes a).edges.length = pre.length + (r.length + 1) := by
        rw [hsplit]
        simp
      have hne : pre.length ≠ (g.nodes a).edges.length := by omega
      have hget : (pre ++ e :: r)[pre.length]? = some e := by
        rw [List.getElem?_append_right (Nat.le_refl _), Nat.sub_self]
        simp
      have hstar : g.star ⟨a, pre.length, (g.nodes a).edges.length⟩ = some e := by
        simp only [ThirdGraph.star]
        rw [hsplit]
        exact hget
      have hdrop : g.range ⟨a, pre.length + 1⟩ ⟨a, (g.nodes a).edges.length⟩ = r := by
        simp only [ThirdGraph.range]
        rw [List.take_length, hsplit]
        have : pre ++ e :: r = (pre ++ [e]) ++ r := by simp
        rw [this]
        have hl : pre.length + 1 = (pre ++ [e]).length := by simp
        rw [hl, List.drop_left]
      have hinc : Returns Inv (g.increment S fuel ⟨a, pre.length, (g.nodes a).edges.length⟩)
          ⟨a, (pre ++ e :: r.takeWhile (fun e => !g.dstActive loc e)).length,
            (g.nodes a).edges.length⟩ := by
        have hm := make_filter_iterator_returns S fuel Inv g loc ⟨a, pre.length + 1⟩
          ⟨a, (g.nodes a).edges.length⟩ hdst
        rw [hdrop] at hm
        have hl : (pre ++ e :: r.takeWhile (fun e => !g.dstActive loc e)).length =
            pre.length + 1 + (r.takeWhile (fun e => !g.dstActive loc e)).length := by
          simp
          omega
        rw [hl]
        exact hm
      have hsplit2 : (g.nodes a).edges =
          (pre ++ e :: r.takeWhile (fun e => !g.dstActive loc e)) ++
            r.dropWhile (fun e => !g.dstActive loc e) := by
        rw [hsplit]
        simp [List.takeWhile_append_dropWhile]
      have hlt2 : (r.dropWhile (fun e => !g.dstActive loc e)).length < n := by
        have h1 : (r.dropWhile (fun e => !g.dstActive loc e)).length ≤ r.length :=
          (List.dropWhile_sublist _).length_le
        simp only [List.length_cons] at hlt
        omega
      obtain ⟨its, hits, hmap, hall⟩ :=
        ih (pre ++ e :: r.takeWhile (fun e => !g.dstActive loc e))
          (r.dropWhile (fun e => !g.dstActive loc e)) hsplit2
          (dropWhile_head (g.dstActive loc) r) hlt2
      refine ⟨(⟨a, pre.length, (g.nodes a).edges.length⟩, e) :: its, ?_, ?_, ?_⟩
      · simp only [ThirdGraph.iterate, if_neg hne, hstar, bind, pure]
        refine Returns_bind Inv _ _ _ _ hinc ?_
        exact Returns_bind Inv _ _ _ _ hits (Returns_ret Inv _)
      · simp only [List.map_cons, hmap, List.filter_cons, hact, if_true,
          filter_dropWhile (g.dstActive loc) r]
      · intro p hp
        rw [List.mem_cons] at hp
        rcases hp with hp | hp
        · subst hp
          refine ⟨hstar, ?_, hact⟩
          rw [hsplit]
          simp
        · exact hall p hp

/-- The loop over `edge_begin(N)` ... `edge_end(N)` on a non-null handle that
designates a node object whose destinations all designate node objects: it
returns, having visited the stored edges with an active destination, in the
stored order. -/
theorem visits_returns {σ : Type} (S : Sys σ) (fuel steps : Nat) (Inv : World σ → Prop)
    (g : ThirdGraph) (loc : gptr → Addr) (N : gptr) (a : Addr) (hN : N.ptr ≠ 0)
    (hres : Resolves S fuel Inv N a)
    (hdst : ∀ e ∈ (g.nodes a).edges, Resolves S fuel Inv e.dst (loc e.dst))
    (hsteps : (g.nodes a).edges.length < steps) :
    ∃ its, Returns Inv (g.visits S fuel steps N) its ∧
      its.map Prod.snd = (g.nodes a).edges.filter (g.dstActive loc) ∧
      (∀ p ∈ its, g.star p.1 = some p.2 ∧ p.2 ∈ (g.nodes a).edges ∧
        g.dstActive loc p.2 = true) ∧
      Returns Inv (g.edgesOf S fuel steps N) ((g.nodes a).edges.filter (g.dstActive loc)) := by
  have hlt : ((g.nodes a).edges.dropWhile (fun e => !g.dstActive loc e)).length < steps :=
    Nat.lt_of_le_of_lt (List.dropWhile_sublist _).length_le hsteps
  obtain ⟨its, hits, hmap, hall⟩ :=
    iterate_spec S fuel Inv g loc a hdst steps
      ((g.nodes a).edges.takeWhile (fun e => !g.dstActive loc e))
      ((g.nodes a).edges.dropWhile (fun e => !g.dstActive loc e))
      (List.takeWhile_append_dropWhile _ _).symm
      (dropWhile_head (g.dstActive loc) (g.nodes a).edges) hlt
  rw [filter_dropWhile] at hmap
  have hvis : Returns Inv (g.visits S fuel steps N) its := by
    simp only [ThirdGraph.visits, bind]
    refine Returns_bind Inv _ _ _ _ (edge_begin_returns S fuel Inv g loc N a hN hres hdst) ?_
    exact Returns_bind Inv _ _ _ _ (edge_end_returns S fuel Inv g N a hN hres) hits
  refine ⟨its, hvis, hmap, hall, ?_⟩
  simp only [ThirdGraph.edgesOf, bind, pure]
  refine Returns_bind Inv _ _ _ _ hvis ?_
  rw [← hmap]
  exact Returns_ret Inv _

/-- Method `addEdge(src, dst)` on an `Out` graph, for non-null handles of which
`src` designates a node object: it returns, and the new edge is the last one
of the deque of that object. -/
theorem addEdge_out {σ : Type} (S : Sys σ) (fuel : Nat) (Inv : World σ → Prop)
    (g : ThirdGraph) (src dst : gptr) (a : Addr) (w : World σ)
    (hs : src.ptr ≠ 0) (hd : dst.ptr ≠ 0) (hres : Resolves S fuel Inv src a)
    (hdir : g.EDir = EdgeDirection.Out) (hw : Inv w) :
    ∃ w1, g.addEdge S fuel src dst w =
        (Outcome.ret (), g.setNode a ((g.nodes a).emplace_back dst), w1) ∧ Inv w1 := by
  obtain ⟨w1, h1, i1⟩ := hres w hw
  refine ⟨w1, ?_, i1⟩
  simp [ThirdGraph.addEdge, gptr.operator_bool, hs, hd, h1, hdir]

/-- Method `addEdge(src, dst)` on an `Un` graph, for non-null handles that
designate node objects: it returns; the edge back to `src` is the last one of
the deque of the object of `dst`, and then the new edge is the last one of the
deque of the object of `src`. -/
theorem addEdge_un {σ : Type} (S : Sys σ) (fuel : Nat) (Inv : World σ → Prop)
    (g : ThirdGraph) (src dst : gptr) (a b : Addr) (w : World σ)
    (hs : src.ptr ≠ 0) (hd : dst.ptr ≠ 0) (hres : Resolves S fuel Inv src a)
    (hresd : Resolves S fuel Inv dst b) (hdir : g.EDir = EdgeDirection.Un) (hw : Inv w) :
    ∃ w1, g.addEdge S fuel src dst w =
        (Outcome.ret (),
          (g.setNode b ((g.nodes b).emplace_back src)).setNode a
            (((g.setNode b ((g.nodes b).emplace_back src)).nodes a).emplace_back dst), w1) ∧
      Inv w1 := by
  obtain ⟨w1, h1, i1⟩ := hres w hw
  obtain ⟨w2, h2, i2⟩ := hresd w1 i1
  refine ⟨w2, ?_, i2⟩
  simp [ThirdGraph.addEdge, gptr.operator_bool, hs, hd, h1, h2, hdir]

/-- The filter of edge iteration looks at the flags of the node objects only. -/
theorem dstActive_congr (g g1 : ThirdGraph) (loc : gptr → Addr)
    (h : ∀ c, (g1.nodes c).active = (g.nodes c).active) :
    g1.dstActive loc = g.dstActive loc := by
  funext e
  exact h (loc e.dst)

/-- Sequencing after a computation that throws. -/
theorem bind_of_raise {σ α β : Type} (m : DistM σ α) (f : α → DistM σ β) (w w1 : World σ)
    (e : Signal) (h : m w = (.raise e, w1)) : DistM.bind m f w = (.raise e, w1) := by
  simp [DistM.bind, h]

/-- Method `edge_begin(N)` when the first `N->` throws: the signal goes to the
caller. -/
theorem edge_begin_raises {σ : Type} (S : Sys σ) (fuel : Nat) (g : ThirdGraph) (N : gptr)
    (e : Signal) (w w1 : World σ) (hN : N.ptr ≠ 0)
    (h : gptr.operator_arrow S fuel N w = (Outcome.raise e, w1)) :
    g.edge_begin S fuel N w = (Outcome.raise e, w1) := by
  have ha : assertHandle S N w = (Outcome.ret (), w) := by
    simp [assertHandle, gptr.operator_bool, hN, pure]
  have hb : g.node_begin S fuel N w = (Outcome.raise e, w1) := by
    simp only [ThirdGraph.node_begin, bind]
    exact bind_of_raise _ _ w w1 e h
  simp only [ThirdGraph.edge_begin, bind]
  rw [bind_of_ret _ _ w w () ha]
  exact bind_of_raise _ _ w w1 e hb

/-- Whatever way a call `addEdge(src, dst)` ends, every node object keeps its flag,
its data and its stored edges in place; edges are only added behind them. -/
theorem addEdge_appends_only {σ : Type} (S : Sys σ) (fuel : Nat) (g : ThirdGraph)
    (src dst : gptr) (w : World σ) (c : Addr) :
    ∃ suffix, ((g.addEdge S fuel src dst w).2.1.nodes c).edges =
        (g.nodes c).edges ++ suffix ∧
      ((g.addEdge S fuel src dst w).2.1.nodes c).active = (g.nodes c).active ∧
      ((g.addEdge S fuel src dst w).2.1.nodes c).data = (g.nodes c).data := by
  have hsame : ∃ suffix, (g.nodes c).edges = (g.nodes c).edges ++ suffix ∧
      (g.nodes c).active = (g.nodes c).active ∧ (g.nodes c).data = (g.nodes c).data :=
    ⟨[], by simp, rfl, rfl⟩
  have hset : ∀ (g0 : ThirdGraph) (a : Addr) (d : gptr),
      ∃ suffix, ((g0.setNode a ((g0.nodes a).emplace_back d)).nodes c).edges =
          (g0.nodes c).edges ++ suffix ∧
        ((g0.setNode a ((g0.nodes a).emplace_back d)).nodes c).active = (g0.nodes c).active ∧
        ((g0.setNode a ((g0.nodes a).emplace_back d)).nodes c).data = (g0.nodes c).data := by
    intro g0 a d
    by_cases hc : c = a
    · subst hc
      exact ⟨[⟨d, 0⟩], by simp [ThirdGraph.setNode, GraphNode.emplace_back],
        by simp [ThirdGraph.setNode, GraphNode.emplace_back],
        by simp [ThirdGraph.setNode, GraphNode.emplace_back]⟩
    · exact ⟨[], by simp [ThirdGraph.setNode, hc], by simp [ThirdGraph.setNode, hc],
        by simp [ThirdGraph.setNode, hc]⟩
  unfold ThirdGraph.addEdge
  split_ifs
  · exact hsame
  · exact hsame
  · rcases h1 : gptr.operator_arrow S fuel src w with ⟨o1, w1⟩
    cases o1 with
    | ret a =>
      cases hdir : g.EDir with
      | Out => exact hset g a dst
      | Un =>
        rcases h2 : gptr.operator_arrow S fuel dst w1 with ⟨o2, w2⟩
        obtain ⟨s1, e1, a1, d1⟩ := hset g (match o2 with | .ret b => b | _ => 0) src
        obtain ⟨s2, e2, a2, d2⟩ :=
          hset (g.setNode (match o2 with | .ret b => b | _ => 0)
            ((g.nodes (match o2 with | .ret b => b | _ => 0)).emplace_back src)) a dst
        cases o2 with
        | ret b =>
          simp only [h2]
          exact ⟨s1 ++ s2, by rw [e2, e1, List.append_assoc], by rw [a2, a1], by rw [d2, d1]⟩
        | raise e => simp only [h2]; exact ⟨[], by simp, trivial, trivial⟩
        | assertFail => simp only [h2]; exact ⟨[], by simp, trivial, trivial⟩
        | spin => simp only [h2]; exact ⟨[], by simp, trivial, trivial⟩
      | InOut => exact hsame
    | raise e => exact hsame
    | assertFail => exact hsame
    | spin => exact hsame

/-- A sequence of calls `addEdge(src, d)` on an `Out` graph, for non-null handles
of which `src` designates a node object: every call returns, and the deque of
that object ends with the new edges in the order of the calls; flags and other
node objects are as before. -/
theorem addEdges_out {σ : Type} (S : Sys σ) (fuel : Nat) (Inv : World σ → Prop)
    (src : gptr) (a : Addr) (hs : src.ptr ≠ 0) (hres : Resolves S fuel Inv src a) :
    ∀ (dsts : List gptr) (g : ThirdGraph) (w : World σ), (∀ d ∈ dsts, d.ptr ≠ 0) →
      g.EDir = EdgeDirection.Out → Inv w →
      ∃ g1 w1, g.addEdges S fuel src dsts w = (Outcome.ret (), g1, w1) ∧ Inv w1 ∧
        (g1.nodes a).edges = (g.nodes a).edges ++ dsts.map (fun d => (⟨d, 0⟩ : Edge)) ∧
        (∀ c, c ≠ a → g1.nodes c = g.nodes c) ∧
        (∀ c, (g1.nodes c).active = (g.nodes c).active) := by
  intro dsts
  induction dsts with
  | nil =>
    intro g w _ _ hw
    exact ⟨g, w, rfl, hw, by simp, fun _ _ => rfl, fun _ => rfl⟩
  | cons d ds ih =>
    intro g w hnn hdir hw
    obtain ⟨w1, h1, i1⟩ :=
      addEdge_out S fuel Inv g src d a w hs (hnn d (List.mem_cons_self _ _)) hres hdir hw
    obtain ⟨g2, w2, h2, i2, e2, o2, f2⟩ :=
      ih (g.setNode a ((g.nodes a).emplace_back d)) w1
        (fun x hx => hnn x (List.mem_cons_of_mem _ hx)) hdir i1
    refine ⟨g2, w2, ?_, i2, ?_, ?_, ?_⟩
    · simp only [ThirdGraph.addEdges, h1]
      exact h2
    · rw [e2]
      simp [ThirdGraph.setNode, GraphNode.emplace_back]
    · intro c hc
      rw [o2 c hc]
      simp [ThirdGraph.setNode, hc]
    · intro c
      rw [f2 c]
      by_cases hc : c = a
      · subst hc
        simp [ThirdGraph.setNode, GraphNode.emplace_back]
      · simp [ThirdGraph.setNode, hc]

/-- C20: for a non-null node handle `N` that designates a node object, all of whose
stored edges lead to handles that designate node objects (every dereference
involved returns, from the states of the runtime that satisfy `Inv`), the loop
from `edge_begin(N)` to `edge_end(N)` returns and visits exactly the stored
edges of `N` whose destination is active, in the stored order; `getEdgeDst` on
every visited iterator passes its assertion and returns an active node.  The
stored order is the order of addition: `addEdge(N, dst)` returns with the new
edge stored last (on an `Un` graph after the edge back to `N`, when `dst`
designates the object of `N` itself), and the loop over the graph it leaves
yields the edges as before, followed by the new one if its destination is
active.  A sequence of calls `addEdge(N, d)` on an `Out` graph returns with the
new edges stored behind the old ones in the order of the calls, and the loop
yields them in that order.  However a call of `addEdge` on any handles ends, no
stored edge is removed or moved: every deque is the one before, with edges added
behind.  When the first `N->` of `edge_begin(N)` throws, `edge_begin` ends with
the same signal. -/
theorem edge_iteration_yields_active_edges {σ : Type} (S : Sys σ) (fuel steps : Nat)
    (Inv : World σ → Prop) (g : ThirdGraph) (loc : gptr → Addr) (N : gptr) (a : Addr)
    (hN : N.ptr ≠ 0) (hres : Resolves S fuel Inv N a)
    (hdst : ∀ e ∈ (g.nodes a).edges, Resolves S fuel Inv e.dst (loc e.dst))
    (hsteps : (g.nodes a).edges.length < steps) :
    (∃ its, Returns Inv (g.visits S fuel steps N) its ∧
      its.map Prod.snd = (g.nodes a).edges.filter (g.dstActive loc) ∧
      Returns Inv (g.edgesOf S fuel steps N) ((g.nodes a).edges.filter (g.dstActive loc)) ∧
      ∀ p ∈ its, g.star p.1 = some p.2 ∧ p.2 ∈ (g.nodes a).edges ∧
        Returns Inv (g.getEdgeDst S fuel p.1) p.2.dst ∧
        (g.nodes (loc p.2.dst)).active = true) ∧
    (∀ (dst : gptr) (w : World σ), dst.ptr ≠ 0 → g.EDir = EdgeDirection.Out → Inv w →
      ∃ g1 w1, g.addEdge S fuel N dst w = (Outcome.ret (), g1, w1) ∧ Inv w1 ∧
        (g1.nodes a).edges = (g.nodes a).edges ++ [⟨dst, 0⟩] ∧
        (∀ c, c ≠ a → g1.nodes c = g.nodes c) ∧
        (Resolves S fuel Inv dst (loc dst) →
          Returns Inv (g1.edgesOf S fuel (steps + 1) N)
            (((g.nodes a).edges ++ [(⟨dst, 0⟩ : Edge)]).filter (g.dstActive loc)))) ∧
    (∀ (dst : gptr) (b : Addr) (w : World σ), dst.ptr ≠ 0 → g.EDir = EdgeDirection.Un →
      Resolves S fuel Inv dst b → Inv w →
      ∃ g1 w1, g.addEdge S fuel N dst w = (Outcome.ret (), g1, w1) ∧ Inv w1 ∧
        (g1.nodes a).edges =
          (g.nodes a).edges ++ (if b = a then [⟨N, 0⟩] else []) ++ [⟨dst, 0⟩] ∧
        (b ≠ a → (g1.nodes b).edges = (g.nodes b).edges ++ [⟨N, 0⟩]) ∧
        (∀ c, c ≠ a → c ≠ b → g1.nodes c = g.nodes c)) ∧
    (∀ (dsts : List gptr) (w : World σ), (∀ d ∈ dsts, d.ptr ≠ 0) →
      g.EDir = EdgeDirection.Out → Inv w →
      ∃ g1 w1, g.addEdges S fuel N dsts w = (Outcome.ret (), g1, w1) ∧ Inv w1 ∧
        (g1.nodes a).edges = (g.nodes a).edges ++ dsts.map (fun d => (⟨d, 0⟩ : Edge)) ∧
        (∀ c, c ≠ a → g1.nodes c = g.nodes c) ∧
        ((∀ d ∈ dsts, Resolves S fuel Inv d (loc d)) →
          Returns Inv (g1.edgesOf S fuel (steps + dsts.length) N)
            (((g.nodes a).edges ++ dsts.map (fun d => (⟨d, 0⟩ : Edge))).filter
              (g.dstActive loc)))) ∧
    (∀ (src dst : gptr) (w : World σ) (c : Addr),
      ∃ suffix, ((g.addEdge S fuel src dst w).2.1.nodes c).edges =
        (g.nodes c).edges ++ suffix) ∧
    (∀ (e : Signal) (w0 w1 : World σ),
      gptr.operator_arrow S fuel N w0 = (Outcome.raise e, w1) →
      g.edge_begin S fuel N w0 = (Outcome.raise e, w1)) := by
  refine ⟨?_, ?_, ?_, ?_, ?_, ?_⟩
  · obtain ⟨its, hvis, hmap, hall, hedges⟩ :=
      visits_returns S fuel steps Inv g loc N a hN hres hdst hsteps
    refine ⟨its, hvis, hmap, hedges, ?_⟩
    intro p hp
    obtain ⟨h1, h2, h3⟩ := hall p hp
    exact ⟨h1, h2, getEdgeDst_returns S fuel Inv g loc p.1 p.2 h1 (hdst p.2 h2) h3, h3⟩
  · intro dst w hd hdir hw
    obtain ⟨w1, h1, i1⟩ := addEdge_out S fuel Inv g N dst a w hN hd hres hdir hw
    have hedges : ((g.setNode a ((g.nodes a).emplace_back dst)).nodes a).edges =
        (g.nodes a).edges ++ [⟨dst, 0⟩] := by
      simp [ThirdGraph.setNode, GraphNode.emplace_back]
    have hflags : ∀ c, ((g.setNode a ((g.nodes a).emplace_back dst)).nodes c).active =
        (g.nodes c).active := by
      intro c
      by_cases hc : c = a
      · subst hc
        simp [ThirdGraph.setNode, GraphNode.emplace_back]
      · simp [ThirdGraph.setNode, hc]
    refine ⟨_, w1, h1, i1, hedges, ?_, ?_⟩
    · intro c hc
      simp [ThirdGraph.setNode, hc]
    · intro hrd
      have hdst1 : ∀ e ∈ ((g.setNode a ((g.nodes a).emplace_back dst)).nodes a).edges,
          Resolves S fuel Inv e.dst (loc e.dst) := by
        intro e he
        rw [hedges] at he
        rcases List.mem_append.mp he with h | h
        · exact hdst e h
        · rw [List.mem_singleton.mp h]
          exact hrd
      obtain ⟨_, _, _, _, hres1⟩ :=
        visits_returns S fuel (steps + 1) Inv (g.setNode a ((g.nodes a).emplace_back dst))
          loc N a hN hres hdst1 (by rw [hedges]; simp; omega)
      rw [hedges, dstActive_congr g _ loc hflags] at hres1
      exact hres1
  · intro dst b w hd hdir hrd hw
    obtain ⟨w1, h1, i1⟩ := addEdge_un S fuel Inv g N dst a b w hN hd hres hrd hdir hw
    refine ⟨_, w1, h1, i1, ?_, ?_, ?_⟩
    · by_cases hba : b = a
      · subst hba
        simp [ThirdGraph.setNode, GraphNode.emplace_back]
      · have hab : ¬ a = b := fun h => hba h.symm
        simp [ThirdGraph.setNode, GraphNode.emplace_back, hba, hab]
    · intro hba
      simp [ThirdGraph.setNode, GraphNode.emplace_back, hba]
    · intro c hca hcb
      simp [ThirdGraph.setNode, hca, hcb]
  · intro dsts w hnn hdir hw
    obtain ⟨g1, w1, h1, i1, hedges, hother, hflags⟩ :=
      addEdges_out S fuel Inv N a hN hres dsts g w hnn hdir hw
    refine ⟨g1, w1, h1, i1, hedges, hother, ?_⟩
    intro hrd
    have hdst1 : ∀ e ∈ (g1.nodes a).edges, Resolves S fuel Inv e.dst (loc e.dst) := by
      intro e he
      rw [hedges] at he
      rcases List.mem_append.mp he with h | h
      · exact hdst e h
      · obtain ⟨d, hd, hde⟩ := List.mem_map.mp h
        rw [← hde]
        exact hrd d hd
    obtain ⟨_, _, _, _, hres1⟩ :=
      visits_returns S fuel (steps + dsts.length) Inv g1 loc N a hN hres hdst1
        (by rw [hedges]; simp; omega)
    rw [hedges, dstActive_congr g g1 loc hflags] at hres1
    exact hres1
  · intro src dst w c
    obtain ⟨suffix, h, _⟩ := addEdge_appends_only S fuel g src dst w c
    exact ⟨suffix, h⟩
  · intro e w0 w1 h
    exact edge_begin_raises S fuel g N e w0 w1 hN h

/-- On a host where nothing else goes on, outside a parallel loop, the handles of
the four nodes of `exampleGraph` designate the node objects at their
addresses. -/
theorem exampleGraph_resolves :
    Resolves exampleSys 1 quietWorld ⟨100, 1⟩ 100 ∧
    Resolves exampleSys 1 quietWorld ⟨200, 1⟩ 200 ∧
    Resolves exampleSys 1 quietWorld ⟨300, 1⟩ 300 ∧
    Resolves exampleSys 1 quietWorld ⟨400, 1⟩ 400 := by
  refine ⟨?_, ?_, ?_, ?_⟩ <;>
  · intro w hw
    cases w with
    | mk st log =>
      simp only [quietWorld] at hw
      subst hw
      exact ⟨_, rfl, rfl⟩

/-- Every edge stored in the node at 100 of `exampleGraph` leads to a handle that
designates the node object at its address. -/
theorem exampleGraph_closed :
    ∀ e ∈ (exampleGraph.nodes 100).edges,
      Resolves exampleSys 1 quietWorld e.dst (gptr.ptr e.dst) := by
  intro e he
  have he1 : e ∈ exampleNode.edges := he
  simp only [exampleNode, List.mem_cons, List.mem_singleton, List.not_mem_nil, or_false] at he1
  rcases he1 with h | h | h | h <;> subst h
  · exact exampleGraph_resolves.2.1
  · exact exampleGraph_resolves.2.2.1
  · exact exampleGraph_resolves.2.2.2
  · exact exampleGraph_resolves.2.1

/-- Instance of C20 on host 1, where nothing else goes on: from the node at 100 of
`exampleGraph`, whose stored edges lead to 200, 300 (inactive), 400 and 200, the
loop yields the edges to 200, 400 and 200.  When another thread holds the node
at 300 inside a parallel loop, `is_edge` on the edge to 300 ends with
`conflict_ex`, and `edge_begin` does so when the node at 100 is held.  Adding
edges to 400 and then to 300 leaves them last in the deque, in that order. -/
theorem edge_iteration_yields_active_edges_witness :
    ((⟨100, 1⟩ : gptr).ptr ≠ 0 ∧ Resolves exampleSys 1 quietWorld ⟨100, 1⟩ 100 ∧
      (∀ e ∈ (exampleGraph.nodes 100).edges,
        Resolves exampleSys 1 quietWorld e.dst (gptr.ptr e.dst)) ∧
      (exampleGraph.nodes 100).edges.length < 5) ∧
    ((exampleGraph.nodes 100).edges.filter (exampleGraph.dstActive gptr.ptr) =
        [⟨⟨200, 1⟩, 0⟩, ⟨⟨400, 1⟩, 0⟩, ⟨⟨200, 1⟩, 0⟩] ∧
      (exampleGraph.is_edge exampleSys 1 ⟨⟨300, 1⟩, 0⟩
          ⟨Host.heldBy 300 (Cnx.worker 1) true, []⟩).1 =
        Outcome.raise (Signal.conflict_ex 300) ∧
      ((exampleGraph.addEdges exampleSys 1 ⟨100, 1⟩ [⟨400, 1⟩, ⟨300, 1⟩]
          ⟨Host.quiet, []⟩).2.1.nodes 100).edges =
        [⟨⟨200, 1⟩, 0⟩, ⟨⟨300, 1⟩, 0⟩, ⟨⟨400, 1⟩, 0⟩, ⟨⟨200, 1⟩, 0⟩, ⟨⟨400, 1⟩, 0⟩,
          ⟨⟨300, 1⟩, 0⟩] ∧
      (exampleGraph.edge_begin exampleSys 1 ⟨100, 1⟩
          ⟨Host.heldBy 100 (Cnx.worker 1) true, []⟩).1 =
        Outcome.raise (Signal.conflict_ex 100)) ∧
    ((∃ its, Returns quietWorld (exampleGraph.visits exampleSys 1 5 ⟨100, 1⟩) its ∧
      its.map Prod.snd =
        (exampleGraph.nodes 100).edges.filter (exampleGraph.dstActive gptr.ptr) ∧
      Returns quietWorld (exampleGraph.edgesOf exampleSys 1 5 ⟨100, 1⟩)
        ((exampleGraph.nodes 100).edges.filter (exampleGraph.dstActive gptr.ptr)) ∧
      ∀ p ∈ its, exampleGraph.star p.1 = some p.2 ∧ p.2 ∈ (exampleGraph.nodes 100).edges ∧
        Returns quietWorld (exampleGraph.getEdgeDst exampleSys 1 p.1) p.2.dst ∧
        (exampleGraph.nodes (gptr.ptr p.2.dst)).active = true) ∧
    (∀ (dst : gptr) (w : World Host), dst.ptr ≠ 0 →
      exampleGraph.EDir = EdgeDirection.Out → quietWorld w →
      ∃ g1 w1, exampleGraph.addEdge exampleSys 1 ⟨100, 1⟩ dst w = (Outcome.ret (), g1, w1) ∧
        quietWorld w1 ∧
        (g1.nodes 100).edges = (exampleGraph.nodes 100).edges ++ [⟨dst, 0⟩] ∧
        (∀ c, c ≠ 100 → g1.nodes c = exampleGraph.nodes c) ∧
        (Resolves exampleSys 1 quietWorld dst (gptr.ptr dst) →
          Returns quietWorld (g1.edgesOf exampleSys 1 (5 + 1) ⟨100, 1⟩)
            (((exampleGraph.nodes 100).edges ++ [(⟨dst, 0⟩ : Edge)]).filter
              (exampleGraph.dstActive gptr.ptr)))) ∧
    (∀ (dst : gptr) (b : Addr) (w : World Host), dst.ptr ≠ 0 →
      exampleGraph.EDir = EdgeDirection.Un →
      Resolves exampleSys 1 quietWorld dst b → quietWorld w →
      ∃ g1 w1, exampleGraph.addEdge exampleSys 1 ⟨100, 1⟩ dst w = (Outcome.ret (), g1, w1) ∧
        quietWorld w1 ∧
        (g1.nodes 100).edges =
          (exampleGraph.nodes 100).edges ++ (if b = 100 then [⟨⟨100, 1⟩, 0⟩] else []) ++
            [⟨dst, 0⟩] ∧
        (b ≠ 100 → (g1.nodes b).edges = (exampleGraph.nodes b).edges ++ [⟨⟨100, 1⟩, 0⟩]) ∧
        (∀ c, c ≠ 100 → c ≠ b → g1.nodes c = exampleGraph.nodes c)) ∧
    (∀ (dsts : List gptr) (w : World Host), (∀ d ∈ dsts, d.ptr ≠ 0) →
      exampleGraph.EDir = EdgeDirection.Out → quietWorld w →
      ∃ g1 w1, exampleGraph.addEdges exampleSys 1 ⟨100, 1⟩ dsts w = (Outcome.ret (), g1, w1) ∧
        quietWorld w1 ∧
        (g1.nodes 100).edges =
          (exampleGraph.nodes 100).edges ++ dsts.map (fun d => (⟨d, 0⟩ : Edge)) ∧
        (∀ c, c ≠ 100 → g1.nodes c = exampleGraph.nodes c) ∧
        ((∀ d ∈ dsts, Resolves exampleSys 1 quietWorld d (gptr.ptr d)) →
          Returns quietWorld (g1.edgesOf exampleSys 1 (5 + dsts.length) ⟨100, 1⟩)
            (((exampleGraph.nodes 100).edges ++ dsts.map (fun d => (⟨d, 0⟩ : Edge))).filter
              (exampleGraph.dstActive gptr.ptr)))) ∧
    (∀ (src dst : gptr) (w : World Host) (c : Addr),
      ∃ suffix, ((exampleGraph.addEdge exampleSys 1 src dst w).2.1.nodes c).edges =
        (exampleGraph.nodes c).edges ++ suffix) ∧
    (∀ (e : Signal) (w0 w1 : World Host),
      gptr.operator_arrow exampleSys 1 ⟨100, 1⟩ w0 = (Outcome.raise e, w1) →
      exampleGraph.edge_begin exampleSys 1 ⟨100, 1⟩ w0 = (Outcome.raise e, w1))) :=
  ⟨⟨by decide, exampleGraph_resolves.1, exampleGraph_closed, by decide⟩,
    ⟨by decide, rfl, rfl, rfl⟩,
    edge_iteration_yields_active_edges exampleSys 1 5 quietWorld exampleGraph gptr.ptr
      ⟨100, 1⟩ 100 (by decide) exampleGraph_resolves.1 exampleGraph_closed (by decide)⟩

/-! ### Initialisation of a global pointer against its constructors -/

/-- C25: for every raw pointer `p`, every current host id `h` and every previous
value `g`, `g.initialize(p)` makes the gptr equal to `gptr(p)` (owner `h`,
address `p`) when `p` is non-null and equal to the default-constructed null gptr
(owner 0, address 0) when `p` is null; the explicit constructor applied to a
null pointer keeps the owner `h`, and that gptr compares equal to the
default-constructed one exactly when `h = 0`. -/
theorem gptr_initialize_vs_constructor (p : Addr) (h : HostId) (g : gptr) :
    gptr.initialize h g p = (if p = 0 then gptr.mkNull else gptr.ofRaw h p) ∧
    gptr.ofRaw h p = ⟨p, h⟩ ∧ gptr.mkNull = ⟨0, 0⟩ ∧
    (gptr.ofRaw h 0).owner = h ∧ (gptr.ofRaw h 0).ptr = 0 ∧
    ((gptr.ofRaw h 0).operator_eq gptr.mkNull = true ↔ h = 0) ∧
    (gptr.operator_eq ( gptr.initialize h g 0) gptr.mkNull = true) := by
  refine ⟨?_, rfl, rfl, rfl, rfl, ?_, ?_⟩
  · by_cases hp : p = 0
    · subst hp
      simp [ gptr.initialize, gptr.mkNull]
    · simp [ gptr.initialize, gptr.ofRaw, hp]
  · simp [gptr.operator_eq, gptr.ofRaw, gptr.mkNull]
    exact eq_comm
  · simp [gptr.operator_eq, gptr.initialize, gptr.mkNull]

/-! ### Removing a node of `ThirdGraph` -/

/-- Replacing the node object at an address twice keeps the second object. -/
theorem setNode_setNode (g : ThirdGraph) (a : Addr) (x y : GraphNode) :
    (g.setNode a x).setNode a y = g.setNode a y := by
  simp only [ThirdGraph.setNode]
  congr 1
  funext k
  by_cases hk : k = a <;> simp [hk]

/-- Method `removeNode(N)` on an active node of a graph with edges: every `N->`
returns the node object, which becomes inactive and loses its stored edges. -/
theorem removeNode_active {σ : Type} (S : Sys σ) (fuel : Nat) (Inv : World σ → Prop)
    (g : ThirdGraph) (N : gptr) (a : Addr) (w : World σ)
    (hres : Resolves S fuel Inv N a) (hdir : g.EDir ≠ EdgeDirection.InOut)
    (hact : (g.nodes a).active = true) (hw : Inv w) :
    ∃ w1, g.removeNode S fuel N w =
        (Outcome.ret (), g.setNode a ⟨false, (g.nodes a).data, []⟩, w1) ∧ Inv w1 := by
  obtain ⟨w1, h1, i1⟩ := hres w hw
  obtain ⟨w2, h2, i2⟩ := hres w1 i1
  obtain ⟨w3, h3, i3⟩ := hres w2 i2
  have hclear : ((g.setNode a ((g.nodes a).setActive false)).nodes a).clearEdges g.EDir =
      some ⟨false, (g.nodes a).data, []⟩ := by
    cases hd : g.EDir with
    | Un => simp [ThirdGraph.setNode, GraphNode.setActive, GraphNode.clearEdges]
    | Out => simp [ThirdGraph.setNode, GraphNode.setActive, GraphNode.clearEdges]
    | InOut => exact absurd hd hdir
  refine ⟨w3, ?_, i3⟩
  simp only [ThirdGraph.removeNode, h1, GraphNode.getActive, hact, if_true, h2, h3, hclear,
    setNode_setNode]

/-- Method `removeNode(N)` on an inactive node: the graph is left as it is. -/
theorem removeNode_inactive {σ : Type} (S : Sys σ) (fuel : Nat) (Inv : World σ → Prop)
    (g : ThirdGraph) (N : gptr) (a : Addr) (w : World σ)
    (hres : Resolves S fuel Inv N a) (hact : (g.nodes a).active = false) (hw : Inv w) :
    ∃ w1, g.removeNode S fuel N w = (Outcome.ret (), g, w1) ∧ Inv w1 := by
  obtain ⟨w1, h1, i1⟩ := hres w hw
  refine ⟨w1, ?_, i1⟩
  simp [ThirdGraph.removeNode, h1, GraphNode.getActive, hact]

/-- Method `removeNode(N)` when the first `N->` throws: the signal goes to the
caller and the graph is as before. -/
theorem removeNode_raises {σ : Type} (S : Sys σ) (fuel : Nat) (g : ThirdGraph) (N : gptr)
    (e : Signal) (w w1 : World σ)
    (h : gptr.operator_arrow S fuel N w = (Outcome.raise e, w1)) :
    g.removeNode S fuel N w = (Outcome.raise e, g, w1) := by
  simp [ThirdGraph.removeNode, h, Outcome.discard]

/-- Outcome of `removeNode(N)` on a handle that designates a node object: it
returns; the object is inactive afterwards, without stored edges if the node
was active; an inactive node leaves the graph as it is; no other object
changes. -/
theorem removeNode_spec {σ : Type} (S : Sys σ) (fuel : Nat) (Inv : World σ → Prop)
    (g : ThirdGraph) (N : gptr) (a : Addr) (w : World σ)
    (hres : Resolves S fuel Inv N a) (hdir : g.EDir ≠ EdgeDirection.InOut) (hw : Inv w) :
    ∃ g1 w1, g.removeNode S fuel N w = (Outcome.ret (), g1, w1) ∧ Inv w1 ∧
      (g1.nodes a).active = false ∧
      ((g.nodes a).active = true → g1.nodes a = ⟨false, (g.nodes a).data, []⟩) ∧
      ((g.nodes a).active = false → g1 = g) ∧
      (∀ c, c ≠ a → g1.nodes c = g.nodes c) ∧ g1.EDir = g.EDir := by
  cases hact : (g.nodes a).active with
  | true =>
    obtain ⟨w1, h1, i1⟩ := removeNode_active S fuel Inv g N a w hres hdir hact hw
    refine ⟨_, w1, h1, i1, ?_, ?_, fun h => by simp at h, ?_, rfl⟩
    · simp [ThirdGraph.setNode]
    · intro _
      simp [ThirdGraph.setNode]
    · intro c hc
      simp [ThirdGraph.setNode, hc]
  | false =>
    obtain ⟨w1, h1, i1⟩ := removeNode_inactive S fuel Inv g N a w hres hact hw
    exact ⟨g, w1, h1, i1, hact, fun h => by simp at h, fun _ => rfl, fun _ _ => rfl, rfl⟩

/-- Method `addNode(N)` on a handle that designates a node object: it returns and
the object is active. -/
theorem addNode_spec {σ : Type} (S : Sys σ) (fuel : Nat) (Inv : World σ → Prop)
    (g : ThirdGraph) (N : gptr) (a : Addr) (w : World σ)
    (hres : Resolves S fuel Inv N a) (hw : Inv w) :
    ∃ w1, g.addNode S fuel N w =
        (Outcome.ret (), g.setNode a ((g.nodes a).setActive true), w1) ∧ Inv w1 := by
  obtain ⟨w1, h1, i1⟩ := hres w hw
  exact ⟨w1, by simp [ThirdGraph.addNode, h1], i1⟩

/-- Method `containsNode(N)` on a non-null handle that designates a node object. -/
theorem containsNode_returns {σ : Type} (S : Sys σ) (fuel : Nat) (Inv : World σ → Prop)
    (g : ThirdGraph) (N : gptr) (a : Addr) (hN : N.ptr ≠ 0)
    (hres : Resolves S fuel Inv N a) :
    Returns Inv (g.containsNode S fuel N) (g.nodes a).active := by
  simp only [ThirdGraph.containsNode, bind]
  exact Returns_bind Inv _ _ () _ (assertHandle_returns S Inv N hN)
    (getActive_returns S fuel Inv g N a hres)

/-- The filter of edge iteration after the node object at one address was
replaced: the destinations at the other addresses pass as before. -/
theorem dstActive_of_nodes_eq (g g1 : ThirdGraph) (loc : gptr → Addr) (a : Addr)
    (hother : ∀ c, c ≠ a → g1.nodes c = g.nodes c) (e : Edge) :
    g1.dstActive loc e = if loc e.dst = a then (g1.nodes a).active else g.dstActive loc e := by
  by_cases he : loc e.dst = a
  · simp [ThirdGraph.dstActive, he]
  · simp [ThirdGraph.dstActive, he, hother (loc e.dst) he]

/-- C24: for a non-null handle `N` that designates a node object (every `N->`
returns it, from the states of the runtime that satisfy `Inv`), `removeNode(N)`
returns; if the node was active, `containsNode(N)` is false afterwards and `N`
has no stored edge, so that the loop over its edges yields nothing; if the node
was inactive the graph is unchanged; a second `removeNode(N)` changes nothing;
the edges stored in the object of another handle `M` are all kept, the loop
over `M` skips those that lead to `N`, and yields them again once `addNode(N)`
has made `N` active.  When the first `N->` throws a conflict signal instead,
`removeNode` passes it on and leaves the graph as it is. -/
theorem removeNode_clears_and_is_idempotent {σ : Type} (S : Sys σ) (fuel : Nat)
    (Inv : World σ → Prop) (g : ThirdGraph) (N : gptr) (a : Addr) (w : World σ)
    (hN : N.ptr ≠ 0) (hres : Resolves S fuel Inv N a)
    (hdir : g.EDir ≠ EdgeDirection.InOut) (hw : Inv w) :
    (∃ g1 w1, g.removeNode S fuel N w = (Outcome.ret (), g1, w1) ∧ Inv w1 ∧
      ((g.nodes a).active = true →
        g1.nodes a = ⟨false, (g.nodes a).data, []⟩ ∧
        ∀ steps, 0 < steps → Returns Inv (g1.edgesOf S fuel steps N) []) ∧
      ((g.nodes a).active = false → g1 = g) ∧
      Returns Inv (g1.containsNode S fuel N) false ∧
      (∀ w2, Inv w2 → ∃ w3, g1.removeNode S fuel N w2 = (Outcome.ret (), g1, w3) ∧ Inv w3) ∧
      (∀ c, c ≠ a → g1.nodes c = g.nodes c) ∧
      (∀ (M : gptr) (b : Addr) (loc : gptr → Addr) (steps : Nat), M.ptr ≠ 0 →
        Resolves S fuel Inv M b → b ≠ a →
        (∀ e ∈ (g.nodes b).edges, Resolves S fuel Inv e.dst (loc e.dst)) →
        (g.nodes b).edges.length < steps →
        (g1.nodes b).edges = (g.nodes b).edges ∧
        Returns Inv (g1.edgesOf S fuel steps M)
          ((g.nodes b).edges.filter
            (fun e => if loc e.dst = a then false else g.dstActive loc e)) ∧
        ∀ w2, Inv w2 → ∃ g2 w3, g1.addNode S fuel N w2 = (Outcome.ret (), g2, w3) ∧ Inv w3 ∧
          (g2.nodes b).edges = (g.nodes b).edges ∧
          Returns Inv (g2.edgesOf S fuel steps M)
            ((g.nodes b).edges.filter
              (fun e => if loc e.dst = a then true else g.dstActive loc e)))) ∧
    (∀ (e : Signal) (w0 w1 : World σ),
      gptr.operator_arrow S fuel N w0 = (Outcome.raise e, w1) →
      g.removeNode S fuel N w0 = (Outcome.raise e, g, w1)) := by
  refine ⟨?_, fun e w0 w1 h => removeNode_raises S fuel g N e w0 w1 h⟩
  obtain ⟨g1, w1, hrem, i1, hinact, hedges, hsame, hother, hdir1⟩ :=
    removeNode_spec S fuel Inv g N a w hres hdir hw
  have hcont : Returns Inv (g1.containsNode S fuel N) false := by
    have h := containsNode_returns S fuel Inv g1 N a hN hres
    rw [hinact] at h
    exact h
  refine ⟨g1, w1, hrem, i1, ?_, hsame, hcont, ?_, hother, ?_⟩
  · intro hact
    refine ⟨hedges hact, ?_⟩
    intro steps hsteps
    have hnil : (g1.nodes a).edges = [] := by rw [hedges hact]
    obtain ⟨_, _, _, _, h⟩ := visits_returns S fuel steps Inv g1 (fun d => d.ptr) N a hN hres
      (by rw [hnil]; intro e he; cases he) (by rw [hnil]; exact hsteps)
    rw [hnil] at h
    exact h
  · intro w2 hw2
    exact removeNode_inactive S fuel Inv g1 N a w2 hres hinact hw2
  · intro M b loc steps hM hresM hba hdst hsteps
    have hb1 : g1.nodes b = g.nodes b := hother b hba
    refine ⟨by rw [hb1], ?_, ?_⟩
    · obtain ⟨_, _, _, _, h⟩ := visits_returns S fuel steps Inv g1 loc M b hM hresM
        (by rw [hb1]; exact hdst) (by rw [hb1]; exact hsteps)
      rw [hb1] at h
      have hq : g1.dstActive loc =
          fun e => if loc e.dst = a then false else g.dstActive loc e := by
        funext e
        rw [dstActive_of_nodes_eq g g1 loc a hother e, hinact]
      rw [hq] at h
      exact h
    · intro w2 hw2
      obtain ⟨w3, hadd, i3⟩ := addNode_spec S fuel Inv g1 N a w2 hres hw2
      have h2other : ∀ c, c ≠ a →
          (g1.setNode a ((g1.nodes a).setActive true)).nodes c = g.nodes c := by
        intro c hc
        simp [ThirdGraph.setNode, hc, hother c hc]
      have hb2 : (g1.setNode a ((g1.nodes a).setActive true)).nodes b = g.nodes b :=
        h2other b hba
      refine ⟨_, w3, hadd, i3, by rw [hb2], ?_⟩
      obtain ⟨_, _, _, _, h⟩ := visits_returns S fuel steps Inv
        (g1.setNode a ((g1.nodes a).setActive true)) loc M b hM hresM
        (by rw [hb2]; exact hdst) (by rw [hb2]; exact hsteps)
      rw [hb2] at h
      have hq : (g1.setNode a ((g1.nodes a).setActive true)).dstActive loc =
          fun e => if loc e.dst = a then true else g.dstActive loc e := by
        funext e
        rw [dstActive_of_nodes_eq g _ loc a h2other e]
        simp [ThirdGraph.setNode, GraphNode.setActive]
      rw [hq] at h
      exact h

/-- Instance of C24 on host 1, where nothing else goes on: removing the active
node at 200 of `exampleGraph` leaves it inactive; the four edges stored in the
node at 100 are kept and the loop over them yields only the edge to 400.  When
another thread holds the node at 200 inside a parallel loop, `removeNode` ends
with `conflict_ex` and the node stays active. -/
theorem removeNode_clears_and_is_idempotent_witness :
    ((⟨200, 1⟩ : gptr).ptr ≠ 0 ∧ Resolves exampleSys 1 quietWorld ⟨200, 1⟩ 200 ∧
      exampleGraph.EDir ≠ EdgeDirection.InOut ∧ quietWorld ⟨Host.quiet, []⟩) ∧
    ((exampleGraph.removeNode exampleSys 1 ⟨200, 1⟩ ⟨Host.quiet, []⟩).1 = Outcome.ret () ∧
      (exampleGraph.removeNode exampleSys 1 ⟨200, 1⟩ ⟨Host.quiet, []⟩).2.1.nodes 200 =
        ⟨false, 0, []⟩ ∧
      (exampleGraph.removeNode exampleSys 1 ⟨200, 1⟩ ⟨Host.quiet, []⟩).2.1.nodes 100 =
        exampleNode ∧
      (exampleGraph.removeNode exampleSys 1 ⟨100, 1⟩ ⟨Host.quiet, []⟩).2.1.nodes 100 =
        ⟨false, 0, []⟩ ∧
      (exampleGraph.nodes 100).edges.filter
          (fun e => if gptr.ptr e.dst = 200 then false
            else exampleGraph.dstActive gptr.ptr e) =
        [⟨⟨400, 1⟩, 0⟩] ∧
      (exampleGraph.removeNode exampleSys 1 ⟨200, 1⟩
          ⟨Host.heldBy 200 (Cnx.worker 1) true, []⟩).1 =
        Outcome.raise (Signal.conflict_ex 200) ∧
      (exampleGraph.removeNode exampleSys 1 ⟨200, 1⟩
          ⟨Host.heldBy 200 (Cnx.worker 1) true, []⟩).2.1.nodes 200 = ⟨true, 0, []⟩) ∧
    ((∃ g1 w1, exampleGraph.removeNode exampleSys 1 ⟨200, 1⟩ ⟨Host.quiet, []⟩ =
        (Outcome.ret (), g1, w1) ∧ quietWorld w1 ∧
      ((exampleGraph.nodes 200).active = true →
        g1.nodes 200 = ⟨false, (exampleGraph.nodes 200).data, []⟩ ∧
        ∀ steps, 0 < steps →
          Returns quietWorld (g1.edgesOf exampleSys 1 steps ⟨200, 1⟩) []) ∧
      ((exampleGraph.nodes 200).active = false → g1 = exampleGraph) ∧
      Returns quietWorld (g1.containsNode exampleSys 1 ⟨200, 1⟩) false ∧
      (∀ w2, quietWorld w2 →
        ∃ w3, g1.removeNode exampleSys 1 ⟨200, 1⟩ w2 = (Outcome.ret (), g1, w3) ∧
          quietWorld w3) ∧
      (∀ c, c ≠ 200 → g1.nodes c = exampleGraph.nodes c) ∧
      (∀ (M : gptr) (b : Addr) (loc : gptr → Addr) (steps : Nat), M.ptr ≠ 0 →
        Resolves exampleSys 1 quietWorld M b → b ≠ 200 →
        (∀ e ∈ (exampleGraph.nodes b).edges,
          Resolves exampleSys 1 quietWorld e.dst (loc e.dst)) →
        (exampleGraph.nodes b).edges.length < steps →
        (g1.nodes b).edges = (exampleGraph.nodes b).edges ∧
        Returns quietWorld (g1.edgesOf exampleSys 1 steps M)
          ((exampleGraph.nodes b).edges.filter
            (fun e => if loc e.dst = 200 then false else exampleGraph.dstActive loc e)) ∧
        ∀ w2, quietWorld w2 →
          ∃ g2 w3, g1.addNode exampleSys 1 ⟨200, 1⟩ w2 = (Outcome.ret (), g2, w3) ∧
            quietWorld w3 ∧
            (g2.nodes b).edges = (exampleGraph.nodes b).edges ∧
            Returns quietWorld (g2.edgesOf exampleSys 1 steps M)
              ((exampleGraph.nodes b).edges.filter
                (fun e => if loc e.dst = 200 then true
                  else exampleGraph.dstActive loc e)))) ∧
    (∀ (e : Signal) (w0 w1 : World Host),
      gptr.operator_arrow exampleSys 1 ⟨200, 1⟩ w0 = (Outcome.raise e, w1) →
      exampleGraph.removeNode exampleSys 1 ⟨200, 1⟩ w0 = (Outcome.raise e, exampleGraph, w1))) :=
  ⟨⟨by decide, exampleGraph_resolves.2.1, by decide, rfl⟩,
    ⟨rfl, rfl, rfl, rfl, by decide, rfl, rfl⟩,
    removeNode_clears_and_is_idempotent exampleSys 1 quietWorld exampleGraph ⟨200, 1⟩ 200
      ⟨Host.quiet, []⟩ (by decide) exampleGraph_resolves.2.1 (by decide) rfl⟩

/-! ### The cached count of `ObjectRecord` -/

/-- An insertion into the multimap adds one entry. -/
theorem Map_insert_length (val : Addr × Nat) (m : Map) :
    (Map.insert val m).length = m.length + 1 := by
  induction m with
  | nil => rfl
  | cons e rest ih =>
    by_cases h : val.1 < e.1
    · simp [Map.insert, h]
    · simp [Map.insert, h, ih]

/-- An insertion into the multimap adds the entry and keeps all the others. -/
theorem Map_insert_perm (val : Addr × Nat) (m : Map) :
    (Map.insert val m).Perm (val :: m) := by
  induction m with
  | nil => exact List.Perm.refl _
  | cons e rest ih =>
    by_cases h : val.1 < e.1
    · simp [Map.insert, h]
    · simp only [Map.insert, h, if_false]
      exact (List.Perm.cons e ih).trans (List.Perm.swap val e rest)

/-- An insertion raises the count of its key by one and no other count. -/
theorem Map_count_insert (val : Addr × Nat) (p : Addr) (m : Map) :
    Map.count p (Map.insert val m) = Map.count p m + (if val.1 = p then 1 else 0) := by
  have h := (Map_insert_perm val m).filter (fun e => decide (e.1 = p))
  have hl := h.length_eq
  unfold Map.count
  rw [hl]
  by_cases hp : val.1 = p
  · simp [List.filter, hp]
  · simp [List.filter, hp]

/-- After `erase(p)` no entry has the key `p` and the counts of the other keys are
as before. -/
theorem Map_count_erase (p q : Addr) (m : Map) :
    Map.count q (Map.erase p m) = if q = p then 0 else Map.count q m := by
  unfold Map.count Map.erase
  rw [List.filter_filter]
  by_cases h2 : q = p
  · subst h2
    rw [if_pos rfl]
    have h : m.filter (fun a => decide (a.1 = q) && !decide (a.1 = q)) = [] := by
      rw [List.filter_eq_nil_iff]
      intro a _
      simp
    rw [h]
    rfl
  · rw [if_neg h2]
    congr 1
    apply List.filter_congr
    intro a _
    by_cases h3 : a.1 = q
    · have h1 : ¬ a.1 = p := fun h => h2 (h3 ▸ h)
      simp [h3, h1, h2]
    · simp [h3]

/-- Some entry has the key exactly when the count of the key is positive. -/
theorem Map_findNotEnd_iff (p : Addr) (m : Map) :
    Map.findNotEnd p m = decide (0 < Map.count p m) := by
  induction m with
  | nil => rfl
  | cons e rest ih =>
    unfold Map.findNotEnd Map.count at ih ⊢
    by_cases h : e.1 = p
    · simp [List.filter, h]
    · simp [List.filter, h] at ih ⊢
      exact ih

/-- One call on a record whose lock is free returns, leaves the lock free and the
cached count equal to the size of the multimap converted to `unsigned`. -/
theorem ObjectRecord_call_spec (r : ObjectRecord) (c : RecordCall)
    (hlock : r.lockHeld = false) :
    ∃ r1, r.call c = some r1 ∧ r1.lockHeld = false ∧
      r1.num = toUnsigned r1.objStore.length ∧
      r1.objStore.length ≤ r.objStore.length + 1 := by
  cases c with
  | insert val =>
    refine ⟨⟨false, Map.insert val r.objStore,
        toUnsigned (Map.insert val r.objStore).length⟩,
      by simp [ObjectRecord.call, ObjectRecord.insert, ObjectRecord.lock, hlock,
        ObjectRecord.unlock], rfl, rfl, ?_⟩
    simp [Map_insert_length]
  | erase ptr =>
    refine ⟨⟨false, Map.erase ptr r.objStore,
        toUnsigned (Map.erase ptr r.objStore).length⟩,
      by simp [ObjectRecord.call, ObjectRecord.erase, ObjectRecord.lock, hlock,
        ObjectRecord.unlock], rfl, rfl, ?_⟩
    simp only [Map.erase]
    exact Nat.le_succ_of_le (List.length_filter_le _ _)
  | clear =>
    exact ⟨_, rfl, by simp [ObjectRecord.clear, hlock], rfl, by simp [ObjectRecord.clear]⟩

/-- A non-empty sequence of calls on a record whose lock is free returns, with
the cached count equal to the size of the multimap converted to `unsigned`. -/
theorem ObjectRecord_calls_spec :
    ∀ (cs : List RecordCall) (r : ObjectRecord), cs ≠ [] → r.lockHeld = false →
      ∃ r1, r.calls cs = some r1 ∧ r1.lockHeld = false ∧
        r1.num = toUnsigned r1.objStore.length ∧
        r1.objStore.length ≤ r.objStore.length + cs.length := by
  intro cs
  induction cs with
  | nil =>
    intro r h _
    exact absurd rfl h
  | cons c rest ih =>
    intro r _ hlock
    obtain ⟨r1, h1, hl1, hn1, hb1⟩ := ObjectRecord_call_spec r c hlock
    by_cases hrest : rest = []
    · subst hrest
      exact ⟨r1, by simp [ObjectRecord.calls, h1], hl1, hn1, by simpa using hb1⟩
    · obtain ⟨r2, h2, hl2, hn2, hb2⟩ := ih r1 hrest hl1
      refine ⟨r2, by simp [ObjectRecord.calls, h1, h2], hl2, hn2, ?_⟩
      simp only [List.length_cons]
      omega

/-- C23: on a record whose lock is free, whatever its multimap and its cached
count (the count is not initialised by a constructor), every non-empty sequence
of `insert`, `erase` and `clear` calls returns, and afterwards `size()` is the
number of entries of the multimap and `empty()` holds exactly when there is
none, as long as the number of entries stays below `2^32` (`num` is an
`unsigned`).  On the record reached, `insert` adds one entry whether or not its
key is present, `erase(p)` removes the entries with key `p` and no other, and
`find(p)` holds exactly when `get_count(p) > 0`. -/
theorem objectRecord_size_matches_content (r : ObjectRecord) (cs : List RecordCall)
    (hcs : cs ≠ []) (hlock : r.lockHeld = false)
    (hbound : r.objStore.length + cs.length < 4294967296) :
    ∃ r1, r.calls cs = some r1 ∧ r1.size = r1.objStore.length ∧
      (r1.empty = true ↔ r1.objStore = []) ∧
      (∀ val, ∃ r2, r1.insert val = some r2 ∧
        r2.objStore.length = r1.objStore.length + 1 ∧
        r2.objStore.Perm (val :: r1.objStore) ∧
        ∀ p, Map.count p r2.objStore =
          Map.count p r1.objStore + (if val.1 = p then 1 else 0)) ∧
      (∀ p, ∃ r2, r1.erase p = some r2 ∧
        r2.objStore = r1.objStore.filter (fun e => !decide (e.1 = p)) ∧
        ∀ q, Map.count q r2.objStore = if q = p then 0 else Map.count q r1.objStore) ∧
      (∀ p, r1.find p = decide (0 < r1.get_count p)) := by
  obtain ⟨r1, h1, hl1, hn1, hb1⟩ := ObjectRecord_calls_spec cs r hcs hlock
  have hlt : r1.objStore.length < 4294967296 := Nat.lt_of_le_of_lt hb1 hbound
  have hsize : r1.num = r1.objStore.length := by
    rw [hn1, toUnsigned, Nat.mod_eq_of_lt hlt]
  refine ⟨r1, h1, hsize, ?_, ?_, ?_, ?_⟩
  · simp only [ObjectRecord.empty, hsize, decide_eq_true_eq]
    exact List.length_eq_zero
  · intro val
    exact ⟨⟨false, Map.insert val r1.objStore, toUnsigned (Map.insert val r1.objStore).length⟩,
      by simp [ObjectRecord.insert, ObjectRecord.lock, hl1, ObjectRecord.unlock],
      Map_insert_length val r1.objStore, Map_insert_perm val r1.objStore,
      fun p => Map_count_insert val p r1.objStore⟩
  · intro p
    exact ⟨⟨false, Map.erase p r1.objStore, toUnsigned (Map.erase p r1.objStore).length⟩,
      by simp [ObjectRecord.erase, ObjectRecord.lock, hl1, ObjectRecord.unlock],
      rfl, fun q => Map_count_erase p q r1.objStore⟩
  · intro p
    have hc : Map.count p r1.objStore < 4294967296 :=
      Nat.lt_of_le_of_lt (List.length_filter_le _ _) hlt
    rw [ObjectRecord.find, ObjectRecord.get_count, toUnsigned, Nat.mod_eq_of_lt hc]
    exact Map_findNotEnd_iff p r1.objStore

/-- Instance of C23: a record that starts with an empty multimap and the count
12345; after three `insert` calls, two of them with the key 4096, and
`erase(4096)` the record holds the one entry with the key 8192 and `size()` is 1. -/
theorem objectRecord_size_matches_content_witness :
    (([RecordCall.insert (4096, 1), RecordCall.insert (8192, 3), RecordCall.insert (4096, 2),
        RecordCall.erase 4096] : List RecordCall) ≠ [] ∧
      (⟨false, [], 12345⟩ : ObjectRecord).lockHeld = false ∧
      (⟨false, [], 12345⟩ : ObjectRecord).objStore.length +
        ([RecordCall.insert (4096, 1), RecordCall.insert (8192, 3),
          RecordCall.insert (4096, 2), RecordCall.erase 4096] : List RecordCall).length
        < 4294967296) ∧
    ((⟨false, [], 12345⟩ : ObjectRecord).calls
        [RecordCall.insert (4096, 1), RecordCall.insert (8192, 3), RecordCall.insert (4096, 2)]
        = some ⟨false, [(4096, 1), (4096, 2), (8192, 3)], 3⟩ ∧
      (⟨false, [], 12345⟩ : ObjectRecord).calls
        [RecordCall.insert (4096, 1), RecordCall.insert (8192, 3), RecordCall.insert (4096, 2),
          RecordCall.erase 4096] = some ⟨false, [(8192, 3)], 1⟩ ∧
      (⟨false, [], 12345⟩ : ObjectRecord).size = 12345) ∧
    ∃ r1, (⟨false, [], 12345⟩ : ObjectRecord).calls
        [RecordCall.insert (4096, 1), RecordCall.insert (8192, 3), RecordCall.insert (4096, 2),
          RecordCall.erase 4096] = some r1 ∧
      r1.size = r1.objStore.length ∧
      (r1.empty = true ↔ r1.objStore = []) ∧
      (∀ val, ∃ r2, r1.insert val = some r2 ∧
        r2.objStore.length = r1.objStore.length + 1 ∧
        r2.objStore.Perm (val :: r1.objStore) ∧
        ∀ p, Map.count p r2.objStore =
          Map.count p r1.objStore + (if val.1 = p then 1 else 0)) ∧
      (∀ p, ∃ r2, r1.erase p = some r2 ∧
        r2.objStore = r1.objStore.filter (fun e => !decide (e.1 = p)) ∧
        ∀ q, Map.count q r2.objStore = if q = p then 0 else Map.count q r1.objStore) ∧
      (∀ p, r1.find p = decide (0 < r1.get_count p)) :=
  ⟨⟨by decide, rfl, by decide⟩, ⟨by decide, by decide, rfl⟩,
    objectRecord_size_matches_content ⟨false, [], 12345⟩
      [RecordCall.insert (4096, 1), RecordCall.insert (8192, 3), RecordCall.insert (4096, 2),
        RecordCall.erase 4096] (by decide) rfl (by decide)⟩

/-! ### The order of `TopPair` and the map of `printTop` -/

/-- Comparison `operator<` of `TopPair` spelled out: both values are numbers, and
the first has the smaller value, or the same value and the greater node id. -/
theorem TopPair_lt_iff {V : Type} [LinearOrder V] (a b : TopPair V) :
    a.operator_lt b = true ↔
      ∃ x y, a.value = FloatVal.num x ∧ b.value = FloatVal.num y ∧
        (x < y ∨ (x = y ∧ b.id < a.id)) := by
  unfold TopPair.operator_lt
  cases ha : a.value with
  | nan => simp [FloatVal.eq, FloatVal.lt]
  | num x =>
    cases hb : b.value with
    | nan => simp [FloatVal.eq, FloatVal.lt]
    | num y =>
      by_cases h : x = y
      · simp [FloatVal.eq, FloatVal.lt, h]
      · simp [FloatVal.eq, FloatVal.lt, h]

/-- No pair is below itself. -/
theorem TopPair_lt_irrefl {V : Type} [LinearOrder V] (a : TopPair V) :
    a.operator_lt a = false := by
  cases h : a.operator_lt a with
  | false => rfl
  | true =>
    obtain ⟨x, y, hx, hy, hxy⟩ := (TopPair_lt_iff a a).mp h
    rw [hx] at hy
    have hxy1 : x = y := FloatVal.num.inj hy
    subst hxy1
    rcases hxy with h1 | ⟨_, h1⟩
    · exact absurd h1 (lt_irrefl x)
    · exact absurd h1 (Nat.lt_irrefl _)

/-- The comparison of `TopPair` is transitive. -/
theorem TopPair_lt_trans {V : Type} [LinearOrder V] (a b c : TopPair V)
    (hab : a.operator_lt b = true) (hbc : b.operator_lt c = true) :
    a.operator_lt c = true := by
  rw [TopPair_lt_iff] at hab hbc ⊢
  obtain ⟨x, y, hx, hy, hxy⟩ := hab
  obtain ⟨y1, z, hy1, hz, hyz⟩ := hbc
  rw [hy] at hy1
  have hyy : y = y1 := FloatVal.num.inj hy1
  subst hyy
  refine ⟨x, z, hx, hz, ?_⟩
  rcases hxy with h1 | ⟨h1, h2⟩
  · rcases hyz with h3 | ⟨h3, _⟩
    · exact Or.inl (lt_trans h1 h3)
    · exact Or.inl (h3 ▸ h1)
  · rcases hyz with h3 | ⟨h3, h4⟩
    · exact Or.inl (h1 ▸ h3)
    · exact Or.inr ⟨h1.trans h3, Nat.lt_trans h4 h2⟩

/-- The comparison of `TopPair` is asymmetric. -/
theorem TopPair_lt_asymm {V : Type} [LinearOrder V] (a b : TopPair V)
    (hab : a.operator_lt b = true) : b.operator_lt a = false := by
  cases hba : b.operator_lt a with
  | false => rfl
  | true =>
    have h := TopPair_lt_trans a b a hab hba
    rw [TopPair_lt_irrefl] at h
    exact absurd h (by decide)

/-- Two pairs with different node ids whose values are not NaN are comparable. -/
theorem TopPair_lt_total {V : Type} [LinearOrder V] (a b : TopPair V) (hid : a.id ≠ b.id)
    (ha : a.value ≠ FloatVal.nan) (hb : b.value ≠ FloatVal.nan) :
    a.operator_lt b = true ∨ b.operator_lt a = true := by
  rw [TopPair_lt_iff, TopPair_lt_iff]
  cases hx : a.value with
  | nan => exact absurd hx ha
  | num x =>
    cases hy : b.value with
    | nan => exact absurd hy hb
    | num y =>
      rcases lt_trichotomy x y with h | h | h
      · exact Or.inl ⟨x, y, rfl, rfl, Or.inl h⟩
      · rcases Nat.lt_or_gt_of_ne hid with h1 | h1
        · exact Or.inr ⟨y, x, rfl, rfl, Or.inr ⟨h.symm, h1⟩⟩
        · exact Or.inl ⟨x, y, rfl, rfl, Or.inr ⟨h, h1⟩⟩
      · exact Or.inr ⟨y, x, rfl, rfl, Or.inl h⟩

/-- Two different pairs whose values are not NaN are comparable. -/
theorem TopPair_lt_trichotomy {V : Type} [LinearOrder V] (a b : TopPair V) (hne : a ≠ b)
    (ha : a.value ≠ FloatVal.nan) (hb : b.value ≠ FloatVal.nan) :
    a.operator_lt b = true ∨ b.operator_lt a = true := by
  by_cases hid : a.id = b.id
  · rw [TopPair_lt_iff, TopPair_lt_iff]
    cases hx : a.value with
    | nan => exact absurd hx ha
    | num x =>
      cases hy : b.value with
      | nan => exact absurd hy hb
      | num y =>
        have hv : x ≠ y := by
          intro hv
          apply hne
          cases a
          cases b
          simp_all
        rcases lt_or_gt_of_ne hv with h | h
        · exact Or.inl ⟨x, y, rfl, rfl, Or.inl h⟩
        · exact Or.inr ⟨y, x, rfl, rfl, Or.inl h⟩
  · exact TopPair_lt_total a b hid ha hb

/-- A pair whose value is a NaN is neither below nor above any pair. -/
theorem TopPair_lt_nan {V : Type} [LinearOrder V] (a b : TopPair V)
    (ha : a.value = FloatVal.nan) :
    a.operator_lt b = false ∧ b.operator_lt a = false := by
  constructor
  · cases h : a.operator_lt b with
    | false => rfl
    | true =>
      obtain ⟨x, _, hx, _, _⟩ := (TopPair_lt_iff a b).mp h
      rw [ha] at hx
      cases hx
  · cases h : b.operator_lt a with
    | false => rfl
    | true =>
      obtain ⟨_, y, _, hy, _⟩ := (TopPair_lt_iff b a).mp h
      rw [ha] at hy
      cases hy

/-- Every entry of the map after an insertion is the new entry or an old one. -/
theorem Top_mem_of_mem_insert {V : Type} [LinearOrder V] (val e : TopPair V × Nat) :
    ∀ l : Top V, e ∈ Top.insert val l → e = val ∨ e ∈ l := by
  intro l
  induction l with
  | nil =>
    intro h
    simpa [Top.insert] using h
  | cons a rest ih =>
    intro h
    unfold Top.insert at h
    split_ifs at h
    · simpa using h
    · rcases List.mem_cons.mp h with h1 | h1
      · exact Or.inr (h1 ▸ List.mem_cons_self _ _)
      · rcases ih h1 with h2 | h2
        · exact Or.inl h2
        · exact Or.inr (List.mem_cons_of_mem _ h2)
    · exact Or.inr h

/-- An insertion removes no entry of the map. -/
theorem Top_mem_insert_of_mem {V : Type} [LinearOrder V] (val e : TopPair V × Nat) :
    ∀ l : Top V, e ∈ l → e ∈ Top.insert val l := by
  intro l
  induction l with
  | nil =>
    intro h
    simp at h
  | cons a rest ih =>
    intro h
    unfold Top.insert
    split_ifs
    · exact List.mem_cons_of_mem _ h
    · rcases List.mem_cons.mp h with h1 | h1
      · exact h1 ▸ List.mem_cons_self _ _
      · exact List.mem_cons_of_mem _ (ih h1)
    · exact h

/-- An entry whose key is comparable with every key of the map is inserted: the
map holds it afterwards and has one entry more. -/
theorem Top_insert_new {V : Type} [LinearOrder V] (val : TopPair V × Nat) :
    ∀ l : Top V,
      (∀ e ∈ l, val.1.operator_lt e.1 = true ∨ e.1.operator_lt val.1 = true) →
      val ∈ Top.insert val l ∧ (Top.insert val l).length = l.length + 1 := by
  intro l
  induction l with
  | nil =>
    intro _
    simp [Top.insert]
  | cons a rest ih =>
    intro hcmp
    unfold Top.insert
    by_cases h1 : val.1.operator_lt a.1 = true
    · simp [h1]
    · have h2 : a.1.operator_lt val.1 = true := by
        rcases hcmp a (List.mem_cons_self _ _) with h | h
        · exact absurd h h1
        · exact h
      obtain ⟨hm, hl⟩ := ih (fun e he => hcmp e (List.mem_cons_of_mem _ he))
      rw [if_neg h1, if_pos h2]
      exact ⟨List.mem_cons_of_mem _ hm, by simp [hl]⟩

/-- An insertion keeps the map in ascending order of its keys. -/
theorem Top_insert_sorted {V : Type} [LinearOrder V] (val : TopPair V × Nat) :
    ∀ l : Top V, l.Pairwise (fun x y => x.1.operator_lt y.1 = true) →
      (Top.insert val l).Pairwise (fun x y => x.1.operator_lt y.1 = true) := by
  intro l
  induction l with
  | nil =>
    intro _
    simp [Top.insert]
  | cons a rest ih =>
    intro hs
    have hs1 := List.pairwise_cons.mp hs
    unfold Top.insert
    by_cases h1 : val.1.operator_lt a.1 = true
    · rw [if_pos h1]
      refine List.pairwise_cons.mpr ⟨?_, hs⟩
      intro e he
      rcases List.mem_cons.mp he with h | h
      · exact h ▸ h1
      · exact TopPair_lt_trans _ _ _ h1 (hs1.1 e h)
    · rw [if_neg h1]
      by_cases h2 : a.1.operator_lt val.1 = true
      · rw [if_pos h2]
        refine List.pairwise_cons.mpr ⟨?_, ih hs1.2⟩
        intro e he
        rcases Top_mem_of_mem_insert val e rest he with h | h
        · exact h ▸ h2
        · exact hs1.1 e h
      · rw [if_neg h2]
        exact hs

/-- The pair of a node that was not scanned yet is comparable with every entry
of the map. -/
theorem printTop_comparable {V : Type} [LinearOrder V] (getPageRank : Nat → FloatVal V)
    (done : List Nat) (top : Top V) (src : Nat) (hsrc : src ∉ done)
    (hnum : ∀ n ∈ done ++ [src], getPageRank n ≠ FloatVal.nan)
    (hc : ∀ e ∈ top, e = (⟨getPageRank e.2, e.2⟩, e.2) ∧ e.2 ∈ done) :
    ∀ e ∈ top, TopPair.operator_lt ⟨getPageRank src, src⟩ e.1 = true ∨
      e.1.operator_lt ⟨getPageRank src, src⟩ = true := by
  intro e he
  obtain ⟨h1, h2⟩ := hc e he
  apply TopPair_lt_total
  · rw [h1]
    intro h
    have h3 : src = e.2 := h
    rw [h3] at hsrc
    exact hsrc h2
  · exact hnum src (by simp)
  · rw [h1]
    exact hnum e.2 (List.mem_append_left _ h2)

/-- Scan of one more node while the map has fewer than `topn` entries. -/
theorem printTop_step_insert {V : Type} [LinearOrder V] (getPageRank : Nat → FloatVal V)
    (topn : Int) (done : List Nat) (top : Top V) (src : Nat) (hsrc : src ∉ done)
    (hnum : ∀ n ∈ done ++ [src], getPageRank n ≠ FloatVal.nan)
    (hk : printTop.Kept getPageRank topn done top) (hlt : (top.length : Int) < topn) :
    printTop.Kept getPageRank topn (done ++ [src])
      (Top.insert (⟨getPageRank src, src⟩, src) top) := by
  obtain ⟨ha, hb, hc, _, he⟩ := hk
  have hcmp := printTop_comparable getPageRank done top src hsrc hnum hc
  obtain ⟨hmem, hlen⟩ := Top_insert_new (⟨getPageRank src, src⟩, src) top hcmp
  have hall : ∀ s ∈ done ++ [src], ((⟨getPageRank s, s⟩, s) : TopPair V × Nat) ∈
      Top.insert (⟨getPageRank src, src⟩, src) top := by
    intro s hs
    rcases List.mem_append.mp hs with h | h
    · exact Top_mem_insert_of_mem _ _ top (he hlt s h)
    · rw [List.mem_singleton.mp h]
      exact hmem
  refine ⟨Top_insert_sorted _ top ha, ?_, ?_, ?_, ?_⟩
  · rw [hlen]
    simp only [List.length_append, List.length_singleton]
    push_cast
    omega
  · intro e hmem1
    rcases Top_mem_of_mem_insert _ e top hmem1 with h | h
    · subst h
      exact ⟨rfl, by simp⟩
    · exact ⟨(hc e h).1, List.mem_append_left _ (hc e h).2⟩
  · intro s hs hnot
    exact absurd (hall s hs) hnot
  · intro _ s hs
    exact hall s hs

/-- Scan of one more node when the map is full and its least entry is below the
node: the least entry is replaced. -/
theorem printTop_step_replace {V : Type} [LinearOrder V] (getPageRank : Nat → FloatVal V)
    (topn : Int) (done : List Nat) (b : TopPair V × Nat) (tl : Top V) (src : Nat)
    (hsrc : src ∉ done) (hnum : ∀ n ∈ done ++ [src], getPageRank n ≠ FloatVal.nan) (hk : printTop.Kept getPageRank topn done (b :: tl))
    (hfull : ¬ (((b :: tl).length : Nat) : Int) < topn)
    (hlt : b.1.operator_lt ⟨getPageRank src, src⟩ = true) :
    printTop.Kept getPageRank topn (done ++ [src])
      (Top.insert (⟨getPageRank src, src⟩, src) tl) := by
  obtain ⟨ha, hb, hc, hd, _⟩ := hk
  have ha1 := List.pairwise_cons.mp ha
  have hc1 : ∀ e ∈ tl, e = (⟨getPageRank e.2, e.2⟩, e.2) ∧ e.2 ∈ done :=
    fun e h => hc e (List.mem_cons_of_mem _ h)
  have hcmp := printTop_comparable getPageRank done tl src hsrc hnum hc1
  obtain ⟨hmem, hlen⟩ := Top_insert_new (⟨getPageRank src, src⟩, src) tl hcmp
  have hlen2 : ((Top.insert (⟨getPageRank src, src⟩, src) tl).length : Int) =
      min topn ((done ++ [src]).length : Int) := by
    rw [hlen]
    simp only [List.length_append, List.length_singleton, List.length_cons] at hb hfull ⊢
    push_cast at hb hfull ⊢
    omega
  refine ⟨Top_insert_sorted _ tl ha1.2, hlen2, ?_, ?_, ?_⟩
  · intro e hmem1
    rcases Top_mem_of_mem_insert _ e tl hmem1 with h | h
    · subst h
      exact ⟨rfl, by simp⟩
    · exact ⟨(hc1 e h).1, List.mem_append_left _ (hc1 e h).2⟩
  · intro s hs hnot e hmem1
    rcases List.mem_append.mp hs with h | h
    · by_cases hin : ((⟨getPageRank s, s⟩, s) : TopPair V × Nat) ∈ b :: tl
      · rcases List.mem_cons.mp hin with h1 | h1
        · have hb1 : b.1 = ⟨getPageRank s, s⟩ := by rw [← h1]
          rw [← hb1]
          rcases Top_mem_of_mem_insert _ e tl hmem1 with h2 | h2
          · rw [h2]
            exact hlt
          · exact ha1.1 e h2
        · exact absurd (Top_mem_insert_of_mem _ _ tl h1) hnot
      · have hold := hd s h hin
        rcases Top_mem_of_mem_insert _ e tl hmem1 with h2 | h2
        · rw [h2]
          exact TopPair_lt_trans _ _ _ (hold b (List.mem_cons_self _ _)) hlt
        · exact hold e (List.mem_cons_of_mem _ h2)
    · rw [List.mem_singleton.mp h] at hnot
      exact absurd hmem hnot
  · intro hlt2
    rw [hlen2] at hlt2
    simp only [List.length_append, List.length_singleton, List.length_cons] at hb hfull hlt2
    push_cast at hb hfull hlt2
    omega

/-- Scan of one more node when the map is full and its least entry is not below
the node: the map stays as it is. -/
theorem printTop_step_skip {V : Type} [LinearOrder V] (getPageRank : Nat → FloatVal V)
    (topn : Int) (done : List Nat) (b : TopPair V × Nat) (tl : Top V) (src : Nat)
    (hsrc : src ∉ done) (hnum : ∀ n ∈ done ++ [src], getPageRank n ≠ FloatVal.nan) (hk : printTop.Kept getPageRank topn done (b :: tl))
    (hfull : ¬ (((b :: tl).length : Nat) : Int) < topn)
    (hnlt : ¬ b.1.operator_lt ⟨getPageRank src, src⟩ = true) :
    printTop.Kept getPageRank topn (done ++ [src]) (b :: tl) := by
  obtain ⟨ha, hb, hc, hd, _⟩ := hk
  have ha1 := List.pairwise_cons.mp ha
  have hkb : TopPair.operator_lt ⟨getPageRank src, src⟩ b.1 = true := by
    rcases printTop_comparable getPageRank done (b :: tl) src hsrc hnum hc b
      (List.mem_cons_self _ _) with h | h
    · exact h
    · exact absurd h hnlt
  have hlen2 : (((b :: tl).length : Nat) : Int) = min topn ((done ++ [src]).length : Int) := by
    simp only [List.length_append, List.length_singleton, List.length_cons] at hb hfull ⊢
    push_cast at hb hfull ⊢
    omega
  refine ⟨ha, hlen2, ?_, ?_, ?_⟩
  · intro e hmem1
    exact ⟨(hc e hmem1).1, List.mem_append_left _ (hc e hmem1).2⟩
  · intro s hs hnot e hmem1
    rcases List.mem_append.mp hs with h | h
    · exact hd s h hnot e hmem1
    · rw [List.mem_singleton.mp h]
      rcases List.mem_cons.mp hmem1 with h2 | h2
      · rw [h2]
        exact hkb
      · exact TopPair_lt_trans _ _ _ hkb (ha1.1 e h2)
  · intro hlt2
    exact absurd hlt2 hfull

/-- The scan of `printTop` returns, and its map is as `printTop.Kept` says for all
the nodes scanned. -/
theorem printTop_scan_spec {V : Type} [LinearOrder V] (getPageRank : Nat → FloatVal V)
    (topn : Int) (htop : 1 ≤ topn) :
    ∀ (rest done : List Nat) (top : Top V), (done ++ rest).Nodup →
      (∀ n ∈ done ++ rest, getPageRank n ≠ FloatVal.nan) →
      printTop.Kept getPageRank topn done top →
      ∃ top1, printTop.scan getPageRank topn rest top = some top1 ∧
        printTop.Kept getPageRank topn (done ++ rest) top1 := by
  intro rest
  induction rest with
  | nil =>
    intro done top _ _ hk
    exact ⟨top, rfl, by simpa using hk⟩
  | cons src rest ih =>
    intro done top hnd hnum hk
    have hsrc : src ∉ done := by
      intro h
      exact (List.disjoint_of_nodup_append hnd) h (List.mem_cons_self _ _)
    have happ : done ++ src :: rest = (done ++ [src]) ++ rest := by simp
    rw [happ] at hnd hnum ⊢
    have hnum1 : ∀ n ∈ done ++ [src], getPageRank n ≠ FloatVal.nan :=
      fun n hn => hnum n (List.mem_append_left _ hn)
    by_cases hlt : (top.length : Int) < topn
    · have hstep := printTop_step_insert getPageRank topn done top src hsrc hnum1 hk hlt
      obtain ⟨top1, h1, h2⟩ := ih (done ++ [src]) _ hnd hnum hstep
      exact ⟨top1, by simp only [printTop.scan, hlt, if_true, h1], h2⟩
    · cases top with
      | nil =>
        exfalso
        apply hlt
        simp only [List.length_nil]
        push_cast
        omega
      | cons b tl =>
        by_cases hb : b.1.operator_lt ⟨getPageRank src, src⟩ = true
        · have hstep := printTop_step_replace getPageRank topn done b tl src hsrc hnum1 hk hlt hb
          obtain ⟨top1, h1, h2⟩ := ih (done ++ [src]) _ hnd hnum hstep
          exact ⟨top1, by simp only [printTop.scan, hlt, if_false, hb, if_true, h1], h2⟩
        · have hstep := printTop_step_skip getPageRank topn done b tl src hsrc hnum1 hk hlt hb
          obtain ⟨top1, h1, h2⟩ := ih (done ++ [src]) _ hnd hnum hstep
          exact ⟨top1, by simp only [printTop.scan, hlt, if_false, hb, Bool.false_eq_true, h1], h2⟩

/-- The lines printed for a list of entries: the ranks count up from the first
one, and each line shows the value and the node id of its entry. -/
theorem printTop_lines_spec {V : Type} :
    ∀ (l : List (TopPair V × Nat)) (rank : Nat),
      (printTop.lines l rank).map (fun x => x.1) = List.range' rank l.length ∧
      (printTop.lines l rank).map (fun x => x.2) = l.map (fun e => (e.1.value, e.1.id)) := by
  intro l
  induction l with
  | nil =>
    intro rank
    exact ⟨rfl, rfl⟩
  | cons e rest ih =>
    intro rank
    obtain ⟨h1, h2⟩ := ih (rank + 1)
    exact ⟨by simp [printTop.lines, h1, List.range'], by simp [printTop.lines, h2]⟩

/-- C22, counterexample: two nodes whose ranks are NaN and `topn = 2`.  The pairs
of the two nodes have different ids and neither is below the other, so
`operator<` is not total on them; the map takes them for one key and ends
with one entry, not with `min(2, 2)`. -/
theorem printTop_nan_keys_are_equivalent :
    TopPair.operator_lt (⟨nanRanks 0, 0⟩ : TopPair Nat) ⟨nanRanks 1, 1⟩ = false ∧
    TopPair.operator_lt (⟨nanRanks 1, 1⟩ : TopPair Nat) ⟨nanRanks 0, 0⟩ = false ∧
    (⟨nanRanks 0, 0⟩ : TopPair Nat).id ≠ (⟨nanRanks 1, 1⟩ : TopPair Nat).id ∧
    ([0, 1] : List Nat).Nodup ∧ (1 : Int) ≤ 2 ∧
    printTop [0, 1] nanRanks 2 =
      some ([(⟨FloatVal.nan, 0⟩, 0)], [(1, FloatVal.nan, 0)]) ∧
    (printTop [0, 1] nanRanks 2).map (fun r => (r.1.length : Int)) ≠
      some (min 2 (([0, 1] : List Nat).length : Int)) := by
  refine ⟨by decide, by decide, by decide, by decide, by decide, by decide, by decide⟩

/-- C22 as amended: for a graph whose nodes are scanned once each and whose rank
values are not NaN, and for `topn >= 1`, `printTop` returns; its map then holds
exactly `min(topn, n)` entries, each the pair of a node of the graph, and every
node that is not in the map is below every entry in the order of `TopPair`, in
which a pair is greater when its value is higher or, for equal values, its node
id smaller; the lines printed show the entries from the greatest down with the
ranks 1, 2, ...; `operator<` is irreflexive and transitive, and among the pairs
whose value is not NaN any two different pairs are comparable, and so are any
two pairs with different node ids. -/
theorem printTop_keeps_greatest {V : Type} [LinearOrder V] (nodes : List Nat)
    (getPageRank : Nat → FloatVal V) (topn : Int) (hnodes : nodes.Nodup)
    (hnum : ∀ n ∈ nodes, getPageRank n ≠ FloatVal.nan) (htop : 1 ≤ topn) :
    ∃ top out, printTop nodes getPageRank topn = some (top, out) ∧
      (top.length : Int) = min topn (nodes.length : Int) ∧
      (∀ e ∈ top, e = (⟨getPageRank e.2, e.2⟩, e.2) ∧ e.2 ∈ nodes) ∧
      (∀ src ∈ nodes, ((⟨getPageRank src, src⟩, src) : TopPair V × Nat) ∉ top →
        ∀ e ∈ top, TopPair.operator_lt ⟨getPageRank src, src⟩ e.1 = true) ∧
      out.map (fun x => x.1) = List.range' 1 top.length ∧
      out.map (fun x => x.2) = top.reverse.map (fun e => (e.1.value, e.1.id)) ∧
      top.reverse.Pairwise (fun x y => y.1.operator_lt x.1 = true) ∧
      (∀ a b : TopPair V, a.operator_lt b = true ↔
        ∃ x y, a.value = FloatVal.num x ∧ b.value = FloatVal.num y ∧
          (x < y ∨ (x = y ∧ b.id < a.id))) ∧
      (∀ a : TopPair V, a.operator_lt a = false) ∧
      (∀ a b c : TopPair V, a.operator_lt b = true → b.operator_lt c = true →
        a.operator_lt c = true) ∧
      (∀ a b : TopPair V, a ≠ b → a.value ≠ FloatVal.nan → b.value ≠ FloatVal.nan →
        a.operator_lt b = true ∨ b.operator_lt a = true) ∧
      (∀ a b : TopPair V, a.id ≠ b.id → a.value ≠ FloatVal.nan → b.value ≠ FloatVal.nan →
        a.operator_lt b = true ∨ b.operator_lt a = true) := by
  have h0 : printTop.Kept getPageRank topn [] ([] : Top V) := by
    refine ⟨List.Pairwise.nil, ?_, ?_, ?_, ?_⟩
    · simp only [List.length_nil]
      push_cast
      omega
    · intro e he
      simp at he
    · intro s hs
      simp at hs
    · intro _ s hs
      simp at hs
  obtain ⟨top, hscan, ha, hb, hc, hd, _⟩ :=
    printTop_scan_spec getPageRank topn htop nodes [] [] (by simpa using hnodes)
      (by simpa using hnum) h0
  simp only [List.nil_append] at hb hc hd
  obtain ⟨hl1, hl2⟩ := printTop_lines_spec top.reverse 1
  refine ⟨top, printTop.lines top.reverse 1, by simp [printTop, hscan], hb, hc, hd, ?_, hl2,
    List.pairwise_reverse.mpr ha, TopPair_lt_iff, TopPair_lt_irrefl, TopPair_lt_trans,
    TopPair_lt_trichotomy, TopPair_lt_total⟩
  simpa using hl1

/-- Instance of the amended C22: five nodes with the ranks 5, 9, 5, 7, 1 and `topn = 3`; the map
keeps the nodes 1, 3 and 0 (node 0 wins the tie with node 2), printed in that
order with the ranks 1, 2, 3. -/
theorem printTop_keeps_greatest_witness :
    (([0, 1, 2, 3, 4] : List Nat).Nodup ∧
      (∀ n ∈ ([0, 1, 2, 3, 4] : List Nat), exampleRanks n ≠ FloatVal.nan) ∧ (1 : Int) ≤ 3) ∧
    printTop [0, 1, 2, 3, 4] exampleRanks 3 =
      some ([(⟨FloatVal.num 5, 0⟩, 0), (⟨FloatVal.num 7, 3⟩, 3), (⟨FloatVal.num 9, 1⟩, 1)],
        [(1, FloatVal.num 9, 1), (2, FloatVal.num 7, 3), (3, FloatVal.num 5, 0)]) ∧
    ∃ top out, printTop [0, 1, 2, 3, 4] exampleRanks 3 = some (top, out) ∧
      (top.length : Int) = min 3 (([0, 1, 2, 3, 4] : List Nat).length : Int) ∧
      (∀ e ∈ top, e = (⟨exampleRanks e.2, e.2⟩, e.2) ∧ e.2 ∈ [0, 1, 2, 3, 4]) ∧
      (∀ src ∈ [0, 1, 2, 3, 4], ((⟨exampleRanks src, src⟩, src) : TopPair Nat × Nat) ∉ top →
        ∀ e ∈ top, TopPair.operator_lt ⟨exampleRanks src, src⟩ e.1 = true) ∧
      out.map (fun x => x.1) = List.range' 1 top.length ∧
      out.map (fun x => x.2) = top.reverse.map (fun e => (e.1.value, e.1.id)) ∧
      top.reverse.Pairwise (fun x y => y.1.operator_lt x.1 = true) ∧
      (∀ a b : TopPair Nat, a.operator_lt b = true ↔
        ∃ x y, a.value = FloatVal.num x ∧ b.value = FloatVal.num y ∧
          (x < y ∨ (x = y ∧ b.id < a.id))) ∧
      (∀ a : TopPair Nat, a.operator_lt a = false) ∧
      (∀ a b c : TopPair Nat, a.operator_lt b = true → b.operator_lt c = true →
        a.operator_lt c = true) ∧
      (∀ a b : TopPair Nat, a ≠ b → a.value ≠ FloatVal.nan → b.value ≠ FloatVal.nan →
        a.operator_lt b = true ∨ b.operator_lt a = true) ∧
      (∀ a b : TopPair Nat, a.id ≠ b.id → a.value ≠ FloatVal.nan →
        b.value ≠ FloatVal.nan → a.operator_lt b = true ∨ b.operator_lt a = true) :=
  ⟨⟨by decide, by decide, by decide⟩, by decide,
    printTop_keeps_greatest [0, 1, 2, 3, 4] exampleRanks 3 (by decide) (by decide)
      (by decide)⟩

/-! ### The iteration loops of `SerialAlgo` and `PullAlgo` -/

/-- The rounds counted in an output that consists of iteration lines. -/
theorem roundsRun_of_lines {F : Type} (lines : List (Out F))
    (hl : ∀ l ∈ lines, l.isIterationLine = true) :
    roundsRun lines = lines.length ∧ roundsRun (lines ++ [Out.failedToConverge]) = lines.length ∧
    Out.failedToConverge ∉ lines := by
  have h1 : lines.filter Out.isIterationLine = lines := List.filter_eq_self.mpr hl
  refine ⟨by simp [roundsRun, h1], by simp [roundsRun, List.filter_append, h1,
    Out.isIterationLine], ?_⟩
  intro h
  have := hl _ h
  simp [Out.isIterationLine] at this

/-- The final line `Failed to converge` does not change the max delta shown last. -/
theorem lastDelta_append_failed {F : Type} (lines : List (Out F)) :
    lastDelta (lines ++ [Out.failedToConverge]) = lastDelta lines := by
  induction lines with
  | nil => rfl
  | cons l rest ih =>
    cases l with
    | iterationLine i d s => simp [lastDelta, ih]
    | failedToConverge => simp [lastDelta, ih]

/-- The loop of `SerialAlgo::operator()` entered with `iteration = 0` or
`iteration < maxIterations` and a budget that covers the remaining rounds: it
returns after at least one round, with `iteration` at most
`max(iteration + 1, maxIterations)`; it printed one line for each round, and
the max delta of the last round is within the tolerance if `iteration` stayed
below `maxIterations`. -/
theorem SerialAlgo_loop_spec {F : Type} (ops : FloatOps F) (graph : LC_Graph Unit)
    (maxIterations : Nat) (hmax : maxIterations < 4294967296) :
    ∀ (fuel iteration : Nat) (data : Nat → PNode F) (out : List (Out F)),
      (iteration = 0 ∨ iteration < maxIterations) → maxIterations ≤ fuel + iteration →
      0 < fuel →
      ∃ data1 k lines,
        SerialAlgo.loop ops graph maxIterations fuel iteration data out =
          some (data1, k, out ++ lines) ∧
        iteration < k ∧ k ≤ max (iteration + 1) maxIterations ∧
        lines.length = k - iteration ∧ (∀ l ∈ lines, l.isIterationLine = true) ∧
        ∃ d, lastDelta lines = some d ∧ (k < maxIterations → ops.le d ops.tolerance = true) := by
  intro fuel
  induction fuel with
  | zero =>
    intro iteration data out _ _ h0
    exact absurd h0 (by decide)
  | succ fuel ih =>
    intro iteration data out hit hfuel _
    have hmod : (iteration + 1) % 4294967296 = iteration + 1 :=
      Nat.mod_eq_of_lt (by omega)
    simp only [SerialAlgo.loop, hmod]
    by_cases hc : (ops.le (SerialAlgo.body ops graph data).max_delta ops.tolerance ||
        decide (iteration + 1 ≥ maxIterations)) = true
    · rw [if_pos hc]
      refine ⟨_, iteration + 1, [_], rfl, Nat.lt_succ_self _, le_max_left _ _, by simp, ?_,
        (SerialAlgo.body ops graph data).max_delta, rfl, ?_⟩
      · intro l hl
        rw [List.mem_singleton.mp hl]
        rfl
      · intro hk
        simp only [Bool.or_eq_true, decide_eq_true_eq] at hc
        rcases hc with h | h
        · exact h
        · omega
    · rw [if_neg hc]
      simp only [Bool.or_eq_true, decide_eq_true_eq, not_or, not_le] at hc
      obtain ⟨data1, k, lines, h1, h2, h3, h4, h5, d, h6, h7⟩ :=
        ih (iteration + 1) (SerialAlgo.body ops graph data).data
          (out ++ [Out.iterationLine (iteration + 1)
            (SerialAlgo.body ops graph data).max_delta
            (SerialAlgo.body ops graph data).small_delta])
          (Or.inr hc.2) (by omega) (by omega)
      refine ⟨data1, k, Out.iterationLine (iteration + 1)
          (SerialAlgo.body ops graph data).max_delta
          (SerialAlgo.body ops graph data).small_delta :: lines, ?_, by omega, ?_, ?_, ?_,
        d, ?_, h7⟩
      · rw [h1]
        simp
      · have := hc.2
        omega
      · simp only [List.length_cons, h4]
        omega
      · intro l hl
        rcases List.mem_cons.mp hl with h | h
        · rw [h]
          rfl
        · exact h5 l h
      · simp [lastDelta, h6]

/-- Reading the element of the array that was just assigned. -/
theorem LNode_get_set {F : Type} (n : LNode F) (i j : Nat) (v : F) :
    (n.set i v).get j = if (i = 0 ↔ j = 0) then v else n.get j := by
  by_cases hi : i = 0 <;> by_cases hj : j = 0 <;> simp [LNode.get, LNode.set, hi, hj]

/-- The index `(it+1) & 1` written by `setPageRank(it, v)` is not the index
`it & 1` read by `getPageRank(it)`; both are `0` or `1`. -/
theorem slot_written_ne_read (it : Nat) :
    (((it + 1) % 4294967296) &&& 1) ≠ (it &&& 1) ∧
    (((it + 1) % 4294967296) &&& 1) < 2 ∧ (it &&& 1) < 2 := by
  rw [Nat.and_one_is_mod, Nat.and_one_is_mod]
  omega

/-- One round of `Process` over nodes that are pairwise different: every value
computed in the round is recorded with the iteration and its node, is held
afterwards by the element `value[(it+1) & 1]` of that node, and every node of
the round has such a record; the data of the other nodes stays as it is. -/
theorem PullAlgo_round_spec {F : Type} (ops : FloatOps F) (graph : LC_Graph F) (it : Nat) :
    ∀ (l : List Nat) (st : PullAlgo.State F), l.Nodup →
      ∃ new, (l.foldl (PullAlgo.Process ops graph it) st).computed = st.computed ++ new ∧
        (∀ e ∈ new, e.1 = it ∧ e.2.1 ∈ l ∧
          ((l.foldl (PullAlgo.Process ops graph it) st).data e.2.1).get
            (((it + 1) % 4294967296) &&& 1) = e.2.2) ∧
        (∀ n ∈ l, ∃ v, (it, n, v) ∈ new) ∧
        (∀ n, n ∉ l → (l.foldl (PullAlgo.Process ops graph it) st).data n = st.data n) := by
  intro l
  induction l with
  | nil =>
    intro st _
    exact ⟨[], by simp, by simp, by simp, fun _ _ => rfl⟩
  | cons src rest ih =>
    intro st hnd
    obtain ⟨hsrc, hrest⟩ := List.nodup_cons.mp hnd
    obtain ⟨new, h1, h2, h3, h4⟩ := ih (PullAlgo.Process ops graph it st src) hrest
    simp only [List.foldl_cons]
    refine ⟨(it, src, PullAlgo.value ops graph it st.data src) :: new, ?_, ?_, ?_, ?_⟩
    · rw [h1]
      simp [PullAlgo.Process]
    · intro e he
      rcases List.mem_cons.mp he with h | h
      · subst h
        refine ⟨rfl, List.mem_cons_self _ _, ?_⟩
        rw [h4 src hsrc]
        simp [PullAlgo.Process, setData, LNode.setPageRank, LNode_get_set]
      · obtain ⟨ha, hb, hc⟩ := h2 e h
        exact ⟨ha, List.mem_cons_of_mem _ hb, hc⟩
    · intro n hn
      rcases List.mem_cons.mp hn with h | h
      · subst h
        exact ⟨_, List.mem_cons_self _ _⟩
      · obtain ⟨v, hv⟩ := h3 n h
        exact ⟨v, List.mem_cons_of_mem _ hv⟩
    · intro n hn
      have hn1 : n ≠ src := fun h => hn (h ▸ List.mem_cons_self _ _)
      have hn2 : n ∉ rest := fun h => hn (List.mem_cons_of_mem _ h)
      rw [h4 n hn2]
      simp [PullAlgo.Process, setData, hn1]

/-- The loop `do_all_local(graph, Copy(graph))` over nodes that are pairwise
different applies `Copy` to the data of every node of the graph once. -/
theorem PullAlgo_copy_spec {F : Type} :
    ∀ (l : List Nat) (data : Nat → LNode F), l.Nodup →
      ∀ n, (l.foldl (fun d n => setData d n (PullAlgo.Copy (d n))) data) n =
        if n ∈ l then PullAlgo.Copy (data n) else data n := by
  intro l
  induction l with
  | nil =>
    intro data _ n
    simp
  | cons src rest ih =>
    intro data hnd n
    obtain ⟨hsrc, hrest⟩ := List.nodup_cons.mp hnd
    simp only [List.foldl_cons]
    rw [ih _ hrest n]
    by_cases h1 : n = src
    · subst h1
      simp [hsrc, setData]
    · by_cases h2 : n ∈ rest
      · simp [h2, setData, h1]
      · simp [h2, setData, h1]

/-- The loop of `PullAlgo::operator()` entered with `iteration = 0` or
`iteration < maxIterations` and a budget that covers the remaining rounds: it
returns after at least one round, with `iteration` at most
`max(iteration + 1, maxIterations)`; it printed one line for each round, and
the max delta of the last round is within the tolerance if `iteration` stayed
below `maxIterations`.  When the nodes of the graph are pairwise different,
every value computed by the last round is held by the element
`value[iteration & 1]` of its node at the end, and the last round computed a
value for every node of the graph. -/
theorem PullAlgo_loop_spec {F : Type} (ops : FloatOps F) (graph : LC_Graph F)
    (maxIterations : Nat) (hmax : maxIterations < 4294967296) :
    ∀ (fuel iteration : Nat) (st : PullAlgo.State F) (out : List (Out F)),
      (iteration = 0 ∨ iteration < maxIterations) → maxIterations ≤ fuel + iteration →
      0 < fuel →
      ∃ st1 k lines,
        PullAlgo.loop ops graph maxIterations fuel iteration st out =
          some (st1, k, out ++ lines) ∧
        iteration < k ∧ k ≤ max (iteration + 1) maxIterations ∧
        lines.length = k - iteration ∧ (∀ l ∈ lines, l.isIterationLine = true) ∧
        (∃ d, lastDelta lines = some d ∧
          (k < maxIterations → ops.le d ops.tolerance = true)) ∧
        (graph.nodes.Nodup → (∀ e ∈ st.computed, e.1 < iteration) →
          (∀ e ∈ st1.computed, e.1 + 1 = k →
            e.2.1 ∈ graph.nodes ∧ (st1.data e.2.1).get (k &&& 1) = e.2.2) ∧
          (∀ n ∈ graph.nodes, ∃ v, (k - 1, n, v) ∈ st1.computed)) := by
  intro fuel
  induction fuel with
  | zero =>
    intro iteration st out _ _ h0
    exact absurd h0 (by decide)
  | succ fuel ih =>
    intro iteration st out hit hfuel _
    have hmod : (iteration + 1) % 4294967296 = iteration + 1 :=
      Nat.mod_eq_of_lt (by omega)
    simp only [PullAlgo.loop, hmod]
    by_cases hc : (ops.le (ops.toFloat (ops.reduceMax
          (graph.nodes.foldl (PullAlgo.Process ops graph iteration) st).max_delta))
          ops.tolerance || decide (iteration + 1 ≥ maxIterations)) = true
    · rw [if_pos hc]
      refine ⟨_, iteration + 1, [_], rfl, Nat.lt_succ_self _, le_max_left _ _, by simp, ?_,
        ⟨_, rfl, ?_⟩, ?_⟩
      · intro l hl
        rw [List.mem_singleton.mp hl]
        rfl
      · intro hk
        simp only [Bool.or_eq_true, decide_eq_true_eq] at hc
        rcases hc with h | h
        · exact h
        · omega
      · intro hnd hold
        obtain ⟨new, h1, h2, h3, _⟩ := PullAlgo_round_spec ops graph iteration graph.nodes st hnd
        refine ⟨?_, ?_⟩
        · intro e he hek
          rw [h1] at he
          rcases List.mem_append.mp he with h | h
          · have := hold e h
            omega
          · obtain ⟨_, hb, hc⟩ := h2 e h
            rw [hmod] at hc
            exact ⟨hb, hc⟩
        · intro n hn
          obtain ⟨v, hv⟩ := h3 n hn
          refine ⟨v, ?_⟩
          rw [h1]
          exact List.mem_append_right _ (by simpa using hv)
    · rw [if_neg hc]
      simp only [Bool.or_eq_true, decide_eq_true_eq, not_or, not_le] at hc
      obtain ⟨st1, k, lines, h1, h2, h3, h4, h5, ⟨d, h6, h7⟩, h8⟩ :=
        ih (iteration + 1)
          { graph.nodes.foldl (PullAlgo.Process ops graph iteration) st with
            max_delta := [], small_delta := 0 }
          (out ++ [Out.iterationLine (iteration + 1)
            (ops.toFloat (ops.reduceMax
              (graph.nodes.foldl (PullAlgo.Process ops graph iteration) st).max_delta))
            (graph.nodes.foldl (PullAlgo.Process ops graph iteration) st).small_delta])
          (Or.inr hc.2) (by omega) (by omega)
      refine ⟨st1, k, Out.iterationLine (iteration + 1)
          (ops.toFloat (ops.reduceMax
            (graph.nodes.foldl (PullAlgo.Process ops graph iteration) st).max_delta))
          (graph.nodes.foldl (PullAlgo.Process ops graph iteration) st).small_delta :: lines,
        ?_, by omega, ?_, ?_, ?_, ⟨d, ?_, h7⟩, ?_⟩
      · rw [h1]
        simp
      · have := hc.2
        omega
      · simp only [List.length_cons, h4]
        omega
      · intro l hl
        rcases List.mem_cons.mp hl with h | h
        · rw [h]
          rfl
        · exact h5 l h
      · simp [lastDelta, h6]
      · intro hnd hold
        apply h8 hnd
        intro e he
        obtain ⟨new, hn1, hn2, _, _⟩ :=
          PullAlgo_round_spec ops graph iteration graph.nodes st hnd
        have he1 : e ∈ st.computed ++ new := by
          rw [← hn1]
          exact he
        rcases List.mem_append.mp he1 with h | h
        · exact Nat.lt_succ_of_lt (hold e h)
        · rw [(hn2 e h).1]
          exact Nat.lt_succ_self _

/-- C21: for every iteration number `it`, `setPageRank(it, v)` writes the element
of the array that `getPageRank(it)` does not read and that `getPageRank(it+1)`
reads.  On a graph whose nodes are pairwise different, `PullAlgo::operator()`
returns after `k >= 1` rounds; the loop leaves every value computed by the last
round in the element `value[k & 1]` of its node, the state is left as it is
when `k` is odd and `Copy` is applied to every node when `k` is even, and in
both cases `getPageRank()` of each node is afterwards the value the last round
computed for that node. -/
theorem pull_result_ends_in_slot_one {F : Type} (ops : FloatOps F) (graph : LC_Graph F)
    (maxIterations fuel : Nat) (data : Nat → LNode F)
    (hmax : maxIterations < 4294967296) (hfuel : max 1 maxIterations ≤ fuel)
    (hnd : graph.nodes.Nodup) :
    (∀ (n : LNode F) (it : Nat) (v : F),
      (((it + 1) % 4294967296) &&& 1) ≠ (it &&& 1) ∧
      (n.setPageRank it v).getPageRank_it it = n.getPageRank_it it ∧
      (n.setPageRank it v).getPageRank_it ((it + 1) % 4294967296) = v) ∧
    ∃ stL k lines st1 out,
      PullAlgo.loop ops graph maxIterations fuel 0 ⟨data, [], 0, []⟩ [] = some (stL, k, lines) ∧
      PullAlgo.operator_call ops graph maxIterations fuel ⟨data, [], 0, []⟩ = some (st1, out) ∧
      roundsRun out = k ∧ 1 ≤ k ∧
      (∀ n ∈ graph.nodes, ∃ v, (k - 1, n, v) ∈ stL.computed) ∧
      (∀ e ∈ stL.computed, e.1 + 1 = k → (stL.data e.2.1).get (k % 2) = e.2.2) ∧
      (k % 2 = 1 → st1.data = stL.data) ∧
      (k % 2 = 0 → ∀ n ∈ graph.nodes, st1.data n = PullAlgo.Copy (stL.data n)) ∧
      st1.computed = stL.computed ∧
      (∀ e ∈ st1.computed, e.1 + 1 = k → (st1.data e.2.1).getPageRank = e.2.2) := by
  refine ⟨?_, ?_⟩
  · intro n it v
    obtain ⟨h1, h2, h3⟩ := slot_written_ne_read it
    refine ⟨h1, ?_, ?_⟩
    · simp only [LNode.setPageRank, LNode.getPageRank_it, LNode_get_set]
      rw [if_neg]
      omega
    · simp [LNode.setPageRank, LNode.getPageRank_it, LNode_get_set]
  · obtain ⟨stL, k, lines, h1, h2, _, h4, h5, _, h8⟩ :=
      PullAlgo_loop_spec ops graph maxIterations hmax fuel 0 ⟨data, [], 0, []⟩ []
        (Or.inl rfl) (by omega) (by omega)
    obtain ⟨h9, h10⟩ := h8 hnd (by simp)
    simp only [List.nil_append] at h1
    have hrounds := roundsRun_of_lines lines h5
    have hk : lines.length = k := by omega
    have hout : roundsRun
        (if k ≥ maxIterations then lines ++ [Out.failedToConverge] else lines) = k := by
      split_ifs
      · rw [hrounds.2.1, hk]
      · rw [hrounds.1, hk]
    rw [Nat.and_one_is_mod] at h9
    by_cases hodd : k % 2 = 1
    · refine ⟨stL, k, lines, stL, _, h1, ?_, hout, h2, h10, fun e he hek => (h9 e he hek).2,
        fun _ => rfl, ?_, rfl, ?_⟩
      · simp [PullAlgo.operator_call, h1, Nat.and_one_is_mod, hodd]
      · intro h
        omega
      · intro e he hek
        have := (h9 e he hek).2
        rw [hodd] at this
        exact this
    · have heven : k % 2 = 0 := by omega
      refine ⟨stL, k, lines,
        { stL with
          data := graph.nodes.foldl (fun d n => setData d n (PullAlgo.Copy (d n))) stL.data },
        _, h1, ?_, hout, h2, h10, fun e he hek => (h9 e he hek).2, ?_, ?_, rfl, ?_⟩
      · simp [PullAlgo.operator_call, h1, Nat.and_one_is_mod, heven]
      · intro h
        omega
      · intro _ n hn
        simp only [PullAlgo_copy_spec graph.nodes stL.data hnd n, hn, if_true]
      · intro e he hek
        obtain ⟨hmem, hval⟩ := h9 e he hek
        simp only [PullAlgo_copy_spec graph.nodes stL.data hnd e.2.1, hmem, if_true]
        rw [heven] at hval
        simp [PullAlgo.Copy, LNode.getPageRank, LNode_get_set, hval]

/-- The output of a run whose loop printed the iteration lines `lines` and left
`iteration = k`: the rounds counted, the presence of the line
`Failed to converge`, and the max delta shown last. -/
theorem report_spec {F : Type} (lines : List (Out F)) (k maxIterations : Nat)
    (hl : ∀ l ∈ lines, l.isIterationLine = true) (hlen : lines.length = k) :
    roundsRun (if k ≥ maxIterations then lines ++ [Out.failedToConverge] else lines) = k ∧
    (Out.failedToConverge ∈
        (if k ≥ maxIterations then lines ++ [Out.failedToConverge] else lines) ↔
      maxIterations ≤ k) ∧
    lastDelta (if k ≥ maxIterations then lines ++ [Out.failedToConverge] else lines) =
      lastDelta lines := by
  obtain ⟨h1, h2, h3⟩ := roundsRun_of_lines lines hl
  by_cases hk : k ≥ maxIterations
  · rw [if_pos hk]
    exact ⟨by rw [h2, hlen], ⟨fun _ => hk, fun _ => by simp⟩, lastDelta_append_failed lines⟩
  · rw [if_neg hk]
    exact ⟨by rw [h1, hlen], ⟨fun h => absurd h h3, fun h => absurd h hk⟩, rfl⟩

/-- C26, counterexample: on the graph with one node and no edge and with
`maxIterations = 2`, `SerialAlgo` and `PullAlgo` both stop after their second
round, whose max delta 0 is within the tolerance, and both print
`Failed to converge`. -/
theorem failed_to_converge_printed_after_convergence :
    (SerialAlgo.operator_call centiOps (oneNodeGraph Unit) 2 2
        (SerialAlgo.Initialize centiOps)).map Prod.snd =
      some [Out.iterationLine 1 85 0, Out.iterationLine 2 0 1, Out.failedToConverge] ∧
    (PullAlgo.operator_call centiOps (oneNodeGraph Int) 2 2
        ⟨PullAlgo.Initialize centiOps, [], 0, []⟩).map Prod.snd =
      some [Out.iterationLine 1 85 0, Out.iterationLine 2 0 1, Out.failedToConverge] ∧
    lastDelta [Out.iterationLine 1 85 0, Out.iterationLine 2 0 1,
      (Out.failedToConverge : Out Int)] = some 0 ∧
    centiOps.le 0 centiOps.tolerance = true ∧ centiOps.gt 0 centiOps.tolerance = false := by
  decide

/-- C26 as amended: for every `maxIterations` (an `unsigned int`) and a budget of
at least `max(1, maxIterations)` rounds, `SerialAlgo::operator()` and
`PullAlgo::operator()` return after at least one and at most
`max(1, maxIterations)` rounds, and the run prints `Failed to converge` exactly
when the number of rounds reached `maxIterations`; in particular it is printed
whenever the max delta of the last round is not within the tolerance. -/
theorem iteration_loops_report_the_cap {F : Type} (ops : FloatOps F)
    (maxIterations fuel : Nat) (hmax : maxIterations < 4294967296)
    (hfuel : max 1 maxIterations ≤ fuel) :
    (∀ (graph : LC_Graph Unit) (data : Nat → PNode F),
      ∃ data1 out, SerialAlgo.operator_call ops graph maxIterations fuel data =
          some (data1, out) ∧
        1 ≤ roundsRun out ∧ roundsRun out ≤ max 1 maxIterations ∧
        (Out.failedToConverge ∈ out ↔ maxIterations ≤ roundsRun out) ∧
        ∃ d, lastDelta out = some d ∧
          (ops.le d ops.tolerance = false → Out.failedToConverge ∈ out)) ∧
    (∀ (graph : LC_Graph F) (st : PullAlgo.State F),
      ∃ st1 out, PullAlgo.operator_call ops graph maxIterations fuel st = some (st1, out) ∧
        1 ≤ roundsRun out ∧ roundsRun out ≤ max 1 maxIterations ∧
        (Out.failedToConverge ∈ out ↔ maxIterations ≤ roundsRun out) ∧
        ∃ d, lastDelta out = some d ∧
          (ops.le d ops.tolerance = false → Out.failedToConverge ∈ out)) := by
  refine ⟨?_, ?_⟩
  · intro graph data
    obtain ⟨data1, k, lines, h1, h2, h3, h4, h5, d, h6, h7⟩ :=
      SerialAlgo_loop_spec ops graph maxIterations hmax fuel 0 data []
        (Or.inl rfl) (by omega) (by omega)
    simp only [List.nil_append] at h1
    obtain ⟨r1, r2, r3⟩ := report_spec lines k maxIterations h5 (by omega)
    refine ⟨data1, if k ≥ maxIterations then lines ++ [Out.failedToConverge] else lines,
      ?_, by omega, by omega, by rw [r1]; exact r2, d, by rw [r3]; exact h6, ?_⟩
    · simp only [SerialAlgo.operator_call, h1]
      split_ifs <;> rfl
    · intro hd
      apply r2.mpr
      by_contra hlt
      rw [h7 (by omega)] at hd
      exact absurd hd (by decide)
  · intro graph st
    obtain ⟨st1, k, lines, h1, h2, h3, h4, h5, ⟨d, h6, h7⟩, _⟩ :=
      PullAlgo_loop_spec ops graph maxIterations hmax fuel 0 st []
        (Or.inl rfl) (by omega) (by omega)
    simp only [List.nil_append] at h1
    obtain ⟨r1, r2, r3⟩ := report_spec lines k maxIterations h5 (by omega)
    have hcall : PullAlgo.operator_call ops graph maxIterations fuel st =
        some (if k &&& 1 ≠ 0 then st1
          else { st1 with
            data := graph.nodes.foldl (fun d n => setData d n (PullAlgo.Copy (d n))) st1.data },
          if k ≥ maxIterations then lines ++ [Out.failedToConverge] else lines) := by
      simp only [PullAlgo.operator_call, h1]
    refine ⟨_, _, hcall, by omega, by omega, by rw [r1]; exact r2,
      d, by rw [r3]; exact h6, ?_⟩
    intro hd
    apply r2.mpr
    by_contra hlt
    rw [h7 (by omega)] at hd
    exact absurd hd (by decide)

/-- Instance of the amended C26 with `maxIterations = 3`: on the graph with one
node `SerialAlgo` stops after two rounds and does not print `Failed to converge`. -/
theorem iteration_loops_report_the_cap_witness :
    ((3 : Nat) < 4294967296 ∧ max 1 3 ≤ 3) ∧
    (SerialAlgo.operator_call centiOps (oneNodeGraph Unit) 3 3
        (SerialAlgo.Initialize centiOps)).map Prod.snd =
      some [Out.iterationLine 1 85 0, Out.iterationLine 2 0 1] ∧
    (∀ (graph : LC_Graph Unit) (data : Nat → PNode Int),
      ∃ data1 out, SerialAlgo.operator_call centiOps graph 3 3 data = some (data1, out) ∧
        1 ≤ roundsRun out ∧ roundsRun out ≤ max 1 3 ∧
        (Out.failedToConverge ∈ out ↔ 3 ≤ roundsRun out) ∧
        ∃ d, lastDelta out = some d ∧
          (centiOps.le d centiOps.tolerance = false → Out.failedToConverge ∈ out)) ∧
    (∀ (graph : LC_Graph Int) (st : PullAlgo.State Int),
      ∃ st1 out, PullAlgo.operator_call centiOps graph 3 3 st = some (st1, out) ∧
        1 ≤ roundsRun out ∧ roundsRun out ≤ max 1 3 ∧
        (Out.failedToConverge ∈ out ↔ 3 ≤ roundsRun out) ∧
        ∃ d, lastDelta out = some d ∧
          (centiOps.le d centiOps.tolerance = false → Out.failedToConverge ∈ out)) :=
  ⟨⟨by decide, by decide⟩, by decide,
    iteration_loops_report_the_cap centiOps 3 3 (by decide) (by decide)⟩

/-- Instance of C21 on `twoNodeGraph` with `maxIterations = 2`: the run takes two
rounds; the second round computes 15 for node 0 and 27 for node 1, into
`value[0]`, and `Copy` brings them to `value[1]`. -/
theorem pull_result_ends_in_slot_one_witness :
    ((2 : Nat) < 4294967296 ∧ max 1 2 ≤ 2 ∧ twoNodeGraph.nodes.Nodup) ∧
    (PullAlgo.operator_call centiOps twoNodeGraph 2 2
        ⟨PullAlgo.Initialize centiOps, [], 0, []⟩).map
        (fun r => (r.1.data 0, r.1.data 1, r.1.computed, r.2)) =
      some (⟨15, 15⟩, ⟨27, 27⟩, [(0, 0, 15), (0, 1, 100), (1, 0, 15), (1, 1, 27)],
        [Out.iterationLine 1 85 1, Out.iterationLine 2 73 1, Out.failedToConverge]) ∧
    (PullAlgo.loop centiOps twoNodeGraph 2 2 0
        ⟨PullAlgo.Initialize centiOps, [], 0, []⟩ []).map
        (fun r => (r.1.data 0, r.1.data 1, r.2.1)) =
      some (⟨15, 15⟩, ⟨27, 100⟩, 2) ∧
    (∀ (n : LNode Int) (it : Nat) (v : Int),
      (((it + 1) % 4294967296) &&& 1) ≠ (it &&& 1) ∧
      (n.setPageRank it v).getPageRank_it it = n.getPageRank_it it ∧
      (n.setPageRank it v).getPageRank_it ((it + 1) % 4294967296) = v) ∧
    ∃ stL k lines st1 out,
      PullAlgo.loop centiOps twoNodeGraph 2 2 0 ⟨PullAlgo.Initialize centiOps, [], 0, []⟩ [] =
        some (stL, k, lines) ∧
      PullAlgo.operator_call centiOps twoNodeGraph 2 2
        ⟨PullAlgo.Initialize centiOps, [], 0, []⟩ = some (st1, out) ∧
      roundsRun out = k ∧ 1 ≤ k ∧
      (∀ n ∈ twoNodeGraph.nodes, ∃ v, (k - 1, n, v) ∈ stL.computed) ∧
      (∀ e ∈ stL.computed, e.1 + 1 = k → (stL.data e.2.1).get (k % 2) = e.2.2) ∧
      (k % 2 = 1 → st1.data = stL.data) ∧
      (k % 2 = 0 → ∀ n ∈ twoNodeGraph.nodes, st1.data n = PullAlgo.Copy (stL.data n)) ∧
      st1.computed = stL.computed ∧
      (∀ e ∈ st1.computed, e.1 + 1 = k → (st1.data e.2.1).getPageRank = e.2.2) :=
  ⟨⟨by decide, by decide, by decide⟩, rfl, rfl,
    pull_result_ends_in_slot_one centiOps twoNodeGraph 2 2 (PullAlgo.Initialize centiOps)
      (by decide) (by decide) (by decide)⟩

end Galois
